import Mathlib

set_option maxRecDepth 40000

/-!
Verification development for `create-svg-icon-set-file.py` (gaia-icons
icon-set builder).  The script concatenates a directory of SVG icon files
into a single SVG document.  Its text processing is a fixed chain of
Python `re.sub` substitutions plus string slicing; we embed it shallowly
over `List Char`.  Each regex of the script is specialised here to an
executable scanner with exactly the matching semantics the pattern has
under Python's leftmost / greedy rules:

* literal patterns (`xmlns_re`, `xlink_re`, `path_close_tag_re`,
  `svg_close_tag_re`, `str.replace`) become `subLit`;
* the attribute patterns `" name=\"[^\"]+\""` (`id_re`, `version_re`,
  `x_re`, `y_re`, `enable_background_re`, `xml_space_re`, `fill_re`,
  and the search patterns `width_re`/`height_re`) become `subAttr` /
  `findAttrVal`;
* `empty_g_re = "<g>\s+</g>\s*\n"` becomes `subEmptyG` (the greedy
  `\s*\n` consumes the surrounding whitespace up to its last newline);
* `svg_open_tag_re = "^\s*<svg "` (unanchored `re.M` is not set, so the
  `^` only matches at position 0) becomes `subAnchorWsSvg`;
* `path_open_tag_re = "[ \t]*<path "` becomes `subPathOpen`.

Fallible operations (`str.index`, sequence indexing, `int()`,
`re.Match.group` on a failed search, `assert`) are modelled with
`Option`; the top-level program is `runTool`, returning exit/crash/ok
outcomes together with the text written to standard error and the
produced output document.
-/

namespace IconSet

/-- Markup text, modelled as a list of characters. -/
abbrev Str := List Char

/-- Coerce a Lean string literal to our character-list representation. -/
def chs (s : String) : Str := s.toList

/-- Python's `\s` class for byte strings: space, tab, newline, carriage
return, vertical tab, form feed. -/
def isWs (c : Char) : Bool :=
  c = ' ' || c = '\t' || c = '\n' || c = '\r' || c = '\x0b' || c = '\x0c'

/-- The `[ \t]` class of `path_open_tag_re`. -/
def isST (c : Char) : Bool := c = ' ' || c = '\t'

/-- `isPref p s`: `p` is a prefix of `s`. -/
def isPref : Str → Str → Bool
  | [], _ => true
  | _ :: _, [] => false
  | a :: as, b :: bs => a = b && isPref as bs

/-- Number of positions of `s` at which the (nonempty) pattern `p`
occurs. -/
def cnt (p : Str) : Str → Nat
  | [] => 0
  | c :: t => (if isPref p (c :: t) then 1 else 0) + cnt p t

/-- First position at which `p` occurs in `s` (Python `str.index` /
`str.find`). -/
def findSub (p : Str) : Str → Option Nat
  | [] => none
  | c :: t => if isPref p (c :: t) then some 0 else (findSub p t).map (· + 1)

/-- First position of character `ch` in `s`. -/
def findChar (ch : Char) : Str → Option Nat
  | [] => none
  | c :: t => if c = ch then some 0 else (findChar ch t).map (· + 1)

/-- `re.sub` / `str.replace` for a literal nonempty pattern `p` with
replacement `r`: leftmost, non-overlapping, scanning resumes after each
match.  The `Nat` argument counts characters still to skip from the
region already consumed by a match. -/
def subLitAux (p r : Str) : Nat → Str → Str
  | Nat.succ k, _ :: t => subLitAux p r k t
  | Nat.succ _, [] => []
  | 0, [] => []
  | 0, c :: t =>
    if isPref p (c :: t) then r ++ subLitAux p r (p.length - 1) t
    else c :: subLitAux p r 0 t

def subLit (p r s : Str) : Str := subLitAux p r 0 s

/-- Length of the maximal quote-free prefix (the greedy `[^"]+` run). -/
def noQuoteLen : Str → Nat
  | [] => 0
  | c :: t => if c = '"' then 0 else noQuoteLen t + 1

/-- The text of the regex `" n=\"[^\"]+\""` up to the value part. -/
def attrPat (n : Str) : Str := ' ' :: (n ++ ('=' :: '"' :: []))

/-- Length of a match of `" n=\"[^\"]+\""` at the start of `s`, if any.
The greedy `[^"]+` run must be nonempty and followed by `"`. -/
def attrMatchLen (n : Str) (s : Str) : Option Nat :=
  if isPref (attrPat n) s then
    if 1 ≤ noQuoteLen (s.drop (attrPat n).length) ∧
        ((s.drop (attrPat n).length).drop (noQuoteLen (s.drop (attrPat n).length))).head? =
          some '"' then
      some ((attrPat n).length + noQuoteLen (s.drop (attrPat n).length) + 1)
    else none
  else none

/-- `re.sub(" n=\"[^\"]+\"", "", s)`. -/
def subAttrAux (n : Str) : Nat → Str → Str
  | Nat.succ k, _ :: t => subAttrAux n k t
  | Nat.succ _, [] => []
  | 0, [] => []
  | 0, c :: t =>
    match attrMatchLen n (c :: t) with
    | some L => subAttrAux n (L - 1) t
    | none => c :: subAttrAux n 0 t

def subAttr (n s : Str) : Str := subAttrAux n 0 s

/-- `re.search(" n=\"([^\"]+)\"", s)`, returning the captured group:
the value of the first matching attribute occurrence. -/
def findAttrVal (n : Str) : Str → Option Str
  | [] => none
  | c :: t =>
    match attrMatchLen n (c :: t) with
    | some _ =>
      some (((c :: t).drop (attrPat n).length).take
        (noQuoteLen ((c :: t).drop (attrPat n).length)))
    | none => findAttrVal n t

/-- Length of the maximal `\s` run at the start of `s`. -/
def wsLen : Str → Nat
  | [] => 0
  | c :: t => if isWs c then wsLen t + 1 else 0

/-- Greedy `\s*\n` at the start of `s`: the number of characters
consumed, i.e. the end of the last newline inside the maximal
whitespace run, if that run contains a newline. -/
def nlCut : Str → Option Nat
  | [] => none
  | c :: t =>
    if isWs c then
      match nlCut t with
      | some k => some (k + 1)
      | none => if c = '\n' then some 1 else none
    else none

/-- Length of a match of `empty_g_re = "<g>\s+</g>\s*\n"` at the start
of `s`, if any. -/
def emptyGMatchLen (s : Str) : Option Nat :=
  if isPref (chs "<g>") s then
    if 1 ≤ wsLen (s.drop 3) ∧ isPref (chs "</g>") ((s.drop 3).drop (wsLen (s.drop 3))) then
      match nlCut ((s.drop 3).drop (wsLen (s.drop 3) + 4)) with
      | some k => some (3 + wsLen (s.drop 3) + 4 + k)
      | none => none
    else none
  else none

/-- `empty_g_re.sub("", s)`. -/
def subEmptyGAux : Nat → Str → Str
  | Nat.succ k, _ :: t => subEmptyGAux k t
  | Nat.succ _, [] => []
  | 0, [] => []
  | 0, c :: t =>
    match emptyGMatchLen (c :: t) with
    | some L => subEmptyGAux (L - 1) t
    | none => c :: subEmptyGAux 0 t

def subEmptyG (s : Str) : Str := subEmptyGAux 0 s

/-- `svg_open_tag_re.sub("  <svg ", s)` with `svg_open_tag_re =
"^\s*<svg "`; without `re.M` the anchor only matches at position 0, so
at most one substitution happens. -/
def subAnchorWsSvg (s : Str) : Str :=
  if isPref (chs "<svg ") (s.drop (wsLen s)) then (chs "  <svg ") ++ s.drop (wsLen s + 5)
  else s

/-- Length of the maximal `[ \t]` run at the start of `s`. -/
def stLen : Str → Nat
  | [] => 0
  | c :: t => if isST c then stLen t + 1 else 0

/-- Length of a match of `"[ \t]*<path "` at the start of `s`, if any. -/
def pathOpenMatchLen (s : Str) : Option Nat :=
  if isPref (chs "<path ") (s.drop (stLen s)) then some (stLen s + 6) else none

/-- `path_open_tag_re.sub("    <path ", s)`. -/
def subPathOpenAux : Nat → Str → Str
  | Nat.succ k, _ :: t => subPathOpenAux k t
  | Nat.succ _, [] => []
  | 0, [] => []
  | 0, c :: t =>
    match pathOpenMatchLen (c :: t) with
    | some L => (chs "    <path ") ++ subPathOpenAux (L - 1) t
    | none => c :: subPathOpenAux 0 t

def subPathOpen (s : Str) : Str := subPathOpenAux 0 s

/-- The literal pattern of `xmlns_re`. -/
def xmlnsLit : Str := chs " xmlns=\"http://www.w3.org/2000/svg\""

/-- The literal pattern of `xlink_re`. -/
def xlinkLit : Str := chs " xmlns:xlink=\"http://www.w3.org/1999/xlink\""

/-- The replacement text of `start_tag.replace("<svg", ...)`: the two
space indent, the tag, and the freshly inserted `id` attribute. -/
def insTag (nm : Str) : Str := chs "  <svg id=\"" ++ nm ++ chs "\""

/-- The start-tag substitution chain of `clean_markup` (script lines
98-110): strip the namespace declarations, the old `id`, `version`,
`x`, `y`, `enable-background` and `xml:space` attributes, then insert
the new `id` (and the indentation) via `replace("<svg", ...)`. -/
def cleanStartTag (icon_name st : Str) : Str :=
  subLit (chs "<svg") (insTag icon_name)
    (subAttr (chs "xml:space")
      (subAttr (chs "enable-background")
        (subAttr (chs "y")
          (subAttr (chs "x")
            (subAttr (chs "version")
              (subAttr (chs "id")
                (subLit xlinkLit [] (subLit xmlnsLit [] st))))))))

/-- The body substitution chain of `clean_markup` (script lines
112-120): drop empty `<g>` elements, strip `fill` attributes, shorten
`></path>`, re-indent. -/
def cleanRest0 (r : Str) : Str :=
  subLit (chs "</svg>") (chs "  </svg>")
    (subPathOpen (subAnchorWsSvg (subLit (chs "></path>") (chs "/>")
      (subAttr (chs "fill") (subEmptyG r)))))

/-- The newline guards of `clean_markup` (script lines 121-124); `none`
models the `IndexError` raised by `the_rest[0]` on an empty remainder. -/
def finishRest (r : Str) : Option Str :=
  match r with
  | [] => none
  | c :: _ =>
    if c ≠ '\n' then
      if ('\n' :: r).getLast? ≠ some '\n' then some (('\n' :: r) ++ ['\n'])
      else some ('\n' :: r)
    else
      if r.getLast? ≠ some '\n' then some (r ++ ['\n']) else some r

/-- `clean_markup(markup, icon_name)` (script lines 91-125).  `none`
models an uncaught exception: `str.index` failing (no `"<svg "` or no
following `">"`), or the `IndexError` from `the_rest[0]`. -/
def clean_markup (markup icon_name : Str) : Option Str :=
  (findSub (chs "<svg ") markup).bind fun si =>
    (findChar '>' (markup.drop (si + 1))).bind fun j =>
      (finishRest (cleanRest0 (markup.drop (si + 1 + j + 1)))).map fun r =>
        cleanStartTag icon_name ((markup.take (si + 1 + j + 1)).drop si) ++ r

/-- Numeric value of a digit string. -/
def digitsVal (ds : Str) : Nat := ds.foldl (fun a c => 10 * a + (c.toNat - 48)) 0

/-- Python 2 `int(str)`: strip surrounding whitespace, optional sign,
then a nonempty digit run; anything else raises (`none`). -/
def pyInt (s : Str) : Option Int :=
  let t := ((s.dropWhile (fun c => isWs c)).reverse.dropWhile (fun c => isWs c)).reverse
  match t with
  | [] => none
  | '-' :: ds =>
    if ds ≠ [] ∧ ds.all (·.isDigit) then some (-(Int.ofNat (digitsVal ds))) else none
  | '+' :: ds =>
    if ds ≠ [] ∧ ds.all (·.isDigit) then some (Int.ofNat (digitsVal ds)) else none
  | ds => if ds.all (·.isDigit) then some (Int.ofNat (digitsVal ds)) else none

/-- `get_icon_dimensions_from_markup` (script lines 130-133):
`width_re`/`height_re` search, strip `"px"` occurrences, `int()`. -/
def get_icon_dimensions_from_markup (markup : Str) : Option (Int × Int) :=
  match findAttrVal (chs "width") markup, findAttrVal (chs "height") markup with
  | some wv, some hv =>
    match pyInt (subLit (chs "px") [] wv), pyInt (subLit (chs "px") [] hv) with
    | some w, some h => some (w, h)
    | _, _ => none
  | _, _ => none

/-- Python `n[-4:]`. -/
def pyLast4 (s : Str) : Str := s.drop (s.length - 4)

def dotSvg : Str := chs ".svg"

/-- The compile-time configuration flag of the script (line 15). -/
def USE_GRID_LAYOUT : Bool := false

/-- The warning loop (script lines 148-156): `warn` becomes true exactly
when some icon's width or height differs from the first icon's.  (The
`width`/`height` maxima the loop also computes are never used.) -/
def computeWarn (w0 h0 : Int) (dims : List (Int × Int)) : Bool :=
  dims.any (fun d => d.fst != w0 || d.snd != h0)

/-- Least `k` (starting from the second argument) with `n ≤ k * k`,
searched with explicit fuel so it evaluates in the kernel. -/
def sqrtCeilAux (n : Nat) : Nat → Nat → Nat
  | 0, k => k
  | fuel + 1, k => if n ≤ k * k then k else sqrtCeilAux n fuel (k + 1)

/-- `int(math.ceil(math.sqrt(n)))` (script line 176), modelled as the
exact integer ceiling square root (the least `k` with `k*k ≥ n`); for
the small set sizes the script is used with, the float computation
agrees with the exact one. -/
def gridCols (n : Nat) : Nat := sqrtCeilAux n n 0

/-- `int(math.ceil(len(icons)/float(cols)))` (script line 177): ceiling
division. -/
def gridRows (n : Nat) : Nat := (n + gridCols n - 1) / gridCols n

def natToStr (n : Nat) : Str := Nat.toDigits 10 n

/-- Python `str` of an integer. -/
def intToStr : Int → Str
  | Int.ofNat n => natToStr n
  | Int.negSucc n => '-' :: natToStr (n + 1)

/-- One iteration of the grid loop (script lines 185-193): row-major
cell position with `padding = 5`, the assertion on the markup's first
six characters, and the insertion of `x`/`y` right after `<svg`.
`none` models an `AssertionError`. -/
def gridInsert (w0 h0 : Int) (cols : Nat) (i : Nat) (markup : Str) : Option Str :=
  let row := i / cols
  let col := i % cols
  let x : Int := 5 + (col : Int) * w0
  let y : Int := 5 + (row : Int) * h0
  if markup.take 6 = chs "  <svg" then
    some (markup.take 6 ++
      (chs " x=\"" ++ intToStr x ++ chs "\" y=\"" ++ intToStr y ++ chs "\"") ++
      markup.drop 6)
  else none

def gridLoop (w0 h0 : Int) (cols : Nat) : Nat → List Str → Option Str
  | _, [] => some []
  | i, m :: rest =>
    match gridInsert w0 h0 cols i m, gridLoop w0 h0 cols (i + 1) rest with
    | some s, some t => some (s ++ t)
    | _, _ => none

/-- `Option`-valued map, modelling a loop that can raise. -/
def optList {α β : Type} (f : α → Option β) : List α → Option (List β)
  | [] => some []
  | a :: t =>
    match f a, optList f t with
    | some b, some bs => some (b :: bs)
    | _, _ => none

/-- Outcome of a run of the script: an explicit `sys.exit` before any
output, an uncaught exception, or normal completion with the text
written to standard error and the output document. -/
inductive ToolResult where
  | exited (code : Nat) (errStream : Str)
  | crashed
  | ok (errStream : Str) (output : Str)
deriving DecidableEq

def warningText : Str :=
  chs "\n<!-- !!! WARNING: NOT ALL ICON FILES HAVE THE SAME DIMENSIONS !!! -->\n\n"

def provenanceLine : Str :=
  chs "<!-- from https://github.com/gaia-components/gaia-icons/tree/master/images -->\n"

/-- The stderr line of script lines 70-72. -/
def noIconsErr (dir : Str) : Str :=
  chs "Error: No .svg icon files found in directory: " ++ dir ++ chs "\n"

/-- The stacked-mode document head (script lines 164-168): outer `<svg>`
sized to the first icon, default `fill="blue"`, and the style block
hiding all direct-child `<svg>` elements except the `:target` one. -/
def stackedHeader (w0 h0 : Int) : Str :=
  chs "<svg xmlns=\"http://www.w3.org/2000/svg\" width=\"" ++ intToStr w0 ++
    chs "\" height=\"" ++ intToStr h0 ++ chs "\" fill=\"blue\">\n" ++
  chs "  <style>\n" ++
  chs "    :root > svg \x7b visibility: hidden; \x7d\n" ++
  chs "    :root > svg:target \x7b visibility: visible; \x7d\n" ++
  chs "  </style>\n"

/-- The grid-mode document head (script line 184): width/height are
deliberately omitted. -/
def gridHeader : Str := chs "<svg xmlns=\"http://www.w3.org/2000/svg\" fill=\"blue\">\n"

def catAll : List Str → Str
  | [] => []
  | s :: t => s ++ catAll t

/-- The whole program after argument parsing, for an existing input
directory (script lines 68-201).  `files` is the directory listing
paired with each file's content, in listing order; `dir` is the
directory path (used in the error message).  The `-o` writer (lines
196-201) is reached only in the `ok` case, which carries the document
it would write. -/
def runTool (useGrid : Bool) (dir : Str) (files : List (Str × Str)) : ToolResult :=
  let icons := files.filter (fun f => pyLast4 f.fst == dotSvg)
  if icons.length < 1 then ToolResult.exited 1 (noIconsErr dir)
  else
    match optList (fun f => clean_markup f.snd (subLit dotSvg [] f.fst)) icons with
    | none => ToolResult.crashed
    | some icons_markup =>
      match optList get_icon_dimensions_from_markup icons_markup with
      | none => ToolResult.crashed
      | some dims =>
        match dims with
        | [] => ToolResult.crashed
        | (w0, h0) :: _ =>
          let errS := if computeWarn w0 h0 dims then warningText else []
          if useGrid then
            match gridLoop w0 h0 (gridCols icons.length) 0 icons_markup with
            | none => ToolResult.crashed
            | some body =>
              ToolResult.ok errS (provenanceLine ++ gridHeader ++ body ++ chs "</svg>\n")
          else
            ToolResult.ok errS
              (provenanceLine ++ stackedHeader w0 h0 ++ catAll icons_markup ++ chs "</svg>\n")

/-! ### Concrete inputs used by counterexamples and witnesses -/

/-- An icon whose root start tag carries a `fill` attribute. -/
def mFillRoot : Str :=
  chs "<svg width=\"2\" height=\"2\" fill=\"#000000\">\n  <path d=\"M0\" fill=\"#fff\"/>\n</svg>\n"

def outFillRoot : Str := (clean_markup mFillRoot (chs "a")).getD []

/-- A 24×24 icon file. -/
def icon24 : Str :=
  chs "<svg xmlns=\"http://www.w3.org/2000/svg\" width=\"24\" height=\"24\">\n  <path d=\"M0\"/>\n</svg>\n"

/-- A second 24×24 icon file. -/
def icon24b : Str :=
  chs "<svg xmlns=\"http://www.w3.org/2000/svg\" width=\"24\" height=\"24\">\n  <path d=\"M2\"/>\n</svg>\n"

/-- A 32×32 icon file. -/
def icon32 : Str :=
  chs "<svg xmlns=\"http://www.w3.org/2000/svg\" width=\"32\" height=\"32\">\n  <path d=\"M1\"/>\n</svg>\n"

/-- A 10×10 icon file with path data `dtext`. -/
def icon10 (dtext : String) : Str :=
  chs ("<svg xmlns=\"http://www.w3.org/2000/svg\" width=\"10\" height=\"10\">\n  <path d=\"" ++
    dtext ++ "\"/>\n</svg>\n")

def gridFiles : List (Str × Str) :=
  [(chs "a.svg", icon10 "A"), (chs "b.svg", icon10 "B"),
   (chs "c.svg", icon10 "C"), (chs "d.svg", icon10 "D")]

def runGrid4 : ToolResult := runTool true (chs "./images") gridFiles

def outGrid4 : Str := match runGrid4 with | .ok _ o => o | _ => []

def errGrid4 : Str := match runGrid4 with | .ok e _ => e | _ => []

def files2432 : List (Str × Str) := [(chs "a.svg", icon24), (chs "b.svg", icon32)]

def runMix : ToolResult := runTool false (chs "./images") files2432

def outMix : Str := match runMix with | .ok _ o => o | _ => []

def errMix : Str := match runMix with | .ok e _ => e | _ => []

/-- An icon file with attribute-shaped text (`width="99"`) ahead of the
root `<svg>` start tag. -/
def mPre99 : Str :=
  chs "<u width=\"99\" height=\"98\"></u>\n<svg width=\"24\" height=\"24\">\n</svg>\n"

def outPre99 : Str := (clean_markup mPre99 (chs "a")).getD []

/-- Two distinct filenames whose ids collide after
`icon.replace(".svg", "")`. -/
def filesDup : List (Str × Str) := [(chs "a.svg", icon24), (chs "a.svg.svg", icon24b)]

def runDup : ToolResult := runTool false (chs "./images") filesDup

def outDup : Str := match runDup with | .ok _ o => o | _ => []

def errDup : Str := match runDup with | .ok e _ => e | _ => []

def msDup : List Str :=
  (optList (fun f => clean_markup f.snd (subLit dotSvg [] f.fst)) filesDup).getD []

def out24a : Str := (clean_markup icon24 (chs "a")).getD []

def filesUniform : List (Str × Str) := [(chs "a.svg", icon24), (chs "b.svg", icon24b)]

def msUniform : List Str :=
  (optList (fun f => clean_markup f.snd (subLit dotSvg [] f.fst))
    (filesUniform.filter (fun f => pyLast4 f.fst == dotSvg))).getD []

/-! ### Structured well-formed icon files

The script assumes (§ "Input format consumed") icon files consisting of
optional preamble lines, a root `<svg ...>` start tag with quoted
attributes, a body of `<path .../>` elements and optional empty `<g>`
wrappers, and a closing `</svg>`.  `SIcon` renders exactly such files;
`iconOK` states the well-formedness side conditions under which the
regex chain acts structurally (attribute names and values free of
space/quote/angle/equals characters, namespace attributes carrying the
standard URLs, no earlier `"<svg "` occurrence in the preamble). -/

structure SAttr where
  nm : Str
  vl : Str
deriving DecidableEq

/-- `name="value"` with its leading separating space. -/
def attrBody (a : SAttr) : Str := a.nm ++ '=' :: '"' :: (a.vl ++ ['"'])

def rAttr (a : SAttr) : Str := ' ' :: attrBody a

def rAttrs : List SAttr → Str
  | [] => []
  | a :: t => rAttr a ++ rAttrs t

inductive SItem where
  | pathI (ind : Str) (attrs : List SAttr) (short : Bool)
  | gI (ind : Str) (inner : Str)
deriving DecidableEq

def rItem : SItem → Str
  | .pathI ind attrs short =>
    ind ++ chs "<path" ++ rAttrs attrs ++
      (if short then chs "/>" else chs "></path>") ++ ['\n']
  | .gI ind inner => ind ++ chs "<g>" ++ inner ++ chs "</g>" ++ ['\n']

def rItems : List SItem → Str
  | [] => []
  | it :: t => rItem it ++ rItems t

structure SIcon where
  pre : Str
  rootAttrs : List SAttr
  items : List SItem
  closeInd : Str
  trailing : Str

/-- The rendered file: preamble, root start tag, newline, body items,
closing indentation, `</svg>`, trailing whitespace. -/
def renderIcon (ic : SIcon) : Str :=
  ic.pre ++ chs "<svg" ++ rAttrs ic.rootAttrs ++
    '>' :: '\n' :: (rItems ic.items ++ ic.closeInd ++ chs "</svg>" ++ ic.trailing)

/-- Characters allowed in attribute names and values: anything except
whitespace, quote, equals, and angle brackets. -/
def plainChar (c : Char) : Bool :=
  !(c = ' ' || c = '\t' || c = '\n' || c = '\r' || c = '\x0b' || c = '\x0c' ||
    c = '"' || c = '=' || c = '<' || c = '>')

def attrOK (a : SAttr) : Bool :=
  !a.nm.isEmpty && a.nm.all plainChar && !a.vl.isEmpty && a.vl.all plainChar

def xmlnsURL : Str := chs "http://www.w3.org/2000/svg"

def xlinkURL : Str := chs "http://www.w3.org/1999/xlink"

/-- Root attributes: well-formed, and any namespace declaration carries
the standard URL (as in every SVG icon file the script consumes). -/
def rootAttrOK (a : SAttr) : Bool :=
  attrOK a && (!(a.nm == chs "xmlns") || a.vl == xmlnsURL) &&
    (!(a.nm == chs "xmlns:xlink") || a.vl == xlinkURL)

/-- The attribute names the start-tag chain strips. -/
def strippedNames : List Str :=
  [chs "id", chs "version", chs "x", chs "y", chs "enable-background", chs "xml:space"]

/-- Attributes of body `<path>` elements: well-formed and not named
like any root-only attribute the cleaner strips (real icons use `d`,
`fill`, `stroke`, ...). -/
def pathAttrOK (a : SAttr) : Bool :=
  attrOK a && !(strippedNames.contains a.nm) &&
    !(a.nm == chs "xmlns") && !(a.nm == chs "xmlns:xlink")

def itemOK : SItem → Bool
  | .pathI ind attrs _ =>
    ind.all isST && attrs.all pathAttrOK &&
      -- at least one attribute survives the `fill` strip (real icons
      -- always keep `d`), so `"[ \t]*<path "` still matches afterwards
      !(attrs.filter (fun a => !(a.nm == chs "fill"))).isEmpty
  | .gI ind inner => ind.all isST && !inner.isEmpty && inner.all isWs

def iconOK (ic : SIcon) : Bool :=
  cnt (chs "<svg ") (ic.pre ++ chs "<svg ") == 1 &&
  !ic.rootAttrs.isEmpty && ic.rootAttrs.all rootAttrOK &&
  ic.items.all itemOK && ic.closeInd.all isST && ic.trailing.all isWs

/-- The root attributes surviving the start-tag chain, filtered in
substitution order: the standard `xmlns` literal, the `xmlns:xlink`
literal, then the six stripped attribute names. -/
def rootFilter (attrs : List SAttr) : List SAttr :=
  ((((((((attrs.filter (fun a => !(a == ⟨chs "xmlns", xmlnsURL⟩))).filter
    (fun a => !(a == ⟨chs "xmlns:xlink", xlinkURL⟩))).filter
    (fun a => !(a.nm == chs "id"))).filter
    (fun a => !(a.nm == chs "version"))).filter
    (fun a => !(a.nm == chs "x"))).filter
    (fun a => !(a.nm == chs "y"))).filter
    (fun a => !(a.nm == chs "enable-background"))).filter
    (fun a => !(a.nm == chs "xml:space")))

/-- `fill` attributes are stripped from body elements. -/
def rAttrsF (attrs : List SAttr) : Str :=
  rAttrs (attrs.filter (fun a => !(a.nm == chs "fill")))

/-- Is there a later `<path>` element (so that the `[ \t]*<path `
re-indent swallows the whitespace a removed `<g>` left behind)? -/
def anyPath : List SItem → Bool
  | [] => false
  | .pathI _ _ _ :: _ => true
  | .gI _ _ :: t => anyPath t

/-- The body items after the whole body chain: empty `<g>` elements
are deleted (their indentation survives unless swallowed by the
re-indent of a following `<path>`), `fill` attributes are stripped,
closes are shortened, `<path>` indentation is normalised to four
spaces. -/
def rItems₅ : List SItem → Str
  | [] => []
  | .pathI _ attrs _ :: t =>
    chs "    <path" ++ rAttrsF attrs ++ chs "/>" ++ ['\n'] ++ rItems₅ t
  | .gI ind _ :: t => (if anyPath t then [] else ind) ++ rItems₅ t

/-- Body items after the `empty_g_re` pass: an empty `<g>` element is
deleted together with its trailing newline, leaving its indentation. -/
def rItem₂ : SItem → Str
  | .pathI ind attrs short => rItem (.pathI ind attrs short)
  | .gI ind _ => ind

def rItems₂ : List SItem → Str
  | [] => []
  | it :: t => rItem₂ it ++ rItems₂ t

/-- Body items after the `fill_re` pass. -/
def rItem₃ : SItem → Str
  | .pathI ind attrs short =>
    ind ++ chs "<path" ++ rAttrsF attrs ++
      (if short then chs "/>" else chs "></path>") ++ ['\n']
  | .gI ind _ => ind

def rItems₃ : List SItem → Str
  | [] => []
  | it :: t => rItem₃ it ++ rItems₃ t

/-- Body items after the `></path>` shortening pass. -/
def rItem₄ : SItem → Str
  | .pathI ind attrs _ => ind ++ chs "<path" ++ rAttrsF attrs ++ chs "/>" ++ ['\n']
  | .gI ind _ => ind

def rItems₄ : List SItem → Str
  | [] => []
  | it :: t => rItem₄ it ++ rItems₄ t

/-- The head of `t`, or `nxt` when `t` is exhausted (the lookahead into
the text that follows a chunk). -/
def headOr (t : Str) (nxt : Option Char) : Option Char :=
  match t with
  | [] => nxt
  | d :: _ => some d

/-- No occurrence of the two-character sequence `c₀ c₁` inside `chunk`,
also accounting for a final `c₀` followed by the lookahead `nxt`. -/
def noPair (c₀ c₁ : Char) : Str → Option Char → Bool
  | [], _ => true
  | c :: t, nxt =>
    (!(c == c₀) || !(headOr t nxt == some c₁)) && noPair c₀ c₁ t nxt

/-- The final-newline guard of lines 123-124 applied to the trailing
whitespace (the remainder always ends with it after `  </svg>`). -/
def finTrail (t : Str) : Str := if t.getLast? == some '\n' then t else t ++ ['\n']

/-- The cleaned remainder after the start tag, for a rendered icon. -/
def cleanRestR (ic : SIcon) : Str :=
  '\n' :: (rItems₅ ic.items ++ ic.closeInd ++ chs "  </svg>" ++ finTrail ic.trailing)

/-- The cleaned whole document for a rendered icon. -/
def cleanedRender (ic : SIcon) (nm : Str) : Str :=
  insTag nm ++ rAttrs (rootFilter ic.rootAttrs) ++ '>' :: cleanRestR ic

/-- How many body attributes named `n` survive into the cleaned body
(`fill` attributes are stripped there first). -/
def cntBodyAttrs (n : Str) : List SItem → Nat
  | [] => 0
  | .pathI _ attrs _ :: t =>
    ((attrs.filter (fun a => !(a.nm == chs "fill"))).filter
      (fun a => a.nm == n)).length + cntBodyAttrs n t
  | .gI _ _ :: t => cntBodyAttrs n t

/-- A concrete well-formed icon file: XML prolog, root attributes
including a `fill`, one `<path>` with a `fill`, an empty `<g>`. -/
def icW : SIcon :=
  { pre := chs "<?xml version=\"1.0\"?>\n"
    rootAttrs := [⟨chs "xmlns", xmlnsURL⟩, ⟨chs "version", chs "1.1"⟩,
      ⟨chs "width", chs "24px"⟩, ⟨chs "height", chs "24px"⟩,
      ⟨chs "fill", chs "#000000"⟩]
    items := [.gI (chs "  ") [' '], .pathI [' '] [⟨chs "d", chs "M0z"⟩,
      ⟨chs "fill", chs "#111111"⟩] false]
    closeInd := []
    trailing := ['\n'] }

def outW : Str := (clean_markup (renderIcon icW) (chs "a")).getD []

/-- A childless self-closing icon file: the markup ends right after the
root start tag, so nothing follows the `>`. -/
def mSelf : Str := chs "<svg width=\"24\" height=\"24\"/>"

/-! ### Step equations for the scanners -/

lemma isPref_nil (s : Str) : isPref [] s = true := rfl

lemma isPref_cons_nil (a : Char) (p : Str) : isPref (a :: p) [] = false := rfl

lemma isPref_cons_cons (a b : Char) (p t : Str) :
    isPref (a :: p) (b :: t) = (decide (a = b) && isPref p t) := rfl

lemma cnt_nil (p : Str) : cnt p [] = 0 := rfl

lemma cnt_cons (p : Str) (c : Char) (t : Str) :
    cnt p (c :: t) = (if isPref p (c :: t) then 1 else 0) + cnt p t := rfl

lemma findSub_cons (p : Str) (c : Char) (t : Str) :
    findSub p (c :: t) =
      if isPref p (c :: t) then some 0 else (findSub p t).map (· + 1) := rfl

lemma findChar_cons (ch c : Char) (t : Str) :
    findChar ch (c :: t) =
      if c = ch then some 0 else (findChar ch t).map (· + 1) := rfl

lemma subLitAux_succ (p r : Str) (k : Nat) (c : Char) (t : Str) :
    subLitAux p r (k + 1) (c :: t) = subLitAux p r k t := rfl

lemma subLitAux_zero_cons (p r : Str) (c : Char) (t : Str) :
    subLitAux p r 0 (c :: t) =
      if isPref p (c :: t) then r ++ subLitAux p r (p.length - 1) t
      else c :: subLitAux p r 0 t := rfl

lemma subAttrAux_succ (n : Str) (k : Nat) (c : Char) (t : Str) :
    subAttrAux n (k + 1) (c :: t) = subAttrAux n k t := rfl

lemma subAttrAux_zero_cons (n : Str) (c : Char) (t : Str) :
    subAttrAux n 0 (c :: t) =
      match attrMatchLen n (c :: t) with
      | some L => subAttrAux n (L - 1) t
      | none => c :: subAttrAux n 0 t := rfl

lemma subEmptyGAux_succ (k : Nat) (c : Char) (t : Str) :
    subEmptyGAux (k + 1) (c :: t) = subEmptyGAux k t := rfl

lemma subEmptyGAux_zero_cons (c : Char) (t : Str) :
    subEmptyGAux 0 (c :: t) =
      match emptyGMatchLen (c :: t) with
      | some L => subEmptyGAux (L - 1) t
      | none => c :: subEmptyGAux 0 t := rfl

lemma subPathOpenAux_succ (k : Nat) (c : Char) (t : Str) :
    subPathOpenAux (k + 1) (c :: t) = subPathOpenAux k t := rfl

lemma subPathOpenAux_zero_cons (c : Char) (t : Str) :
    subPathOpenAux 0 (c :: t) =
      match pathOpenMatchLen (c :: t) with
      | some L => (chs "    <path ") ++ subPathOpenAux (L - 1) t
      | none => c :: subPathOpenAux 0 t := rfl

lemma findAttrVal_cons (n : Str) (c : Char) (t : Str) :
    findAttrVal n (c :: t) =
      match attrMatchLen n (c :: t) with
      | some _ =>
        some (((c :: t).drop (attrPat n).length).take
          (noQuoteLen ((c :: t).drop (attrPat n).length)))
      | none => findAttrVal n t := rfl

/-! ### Basic lemmas about the scanners -/

lemma isPref_append_self (p x : Str) : isPref p (p ++ x) = true := by
  induction p with
  | nil => rfl
  | cons a t ih => simp [isPref, ih]

lemma isPref_head_ne {a b : Char} (p t : Str) (h : a ≠ b) :
    isPref (a :: p) (b :: t) = false := by
  simp [isPref, h]

lemma eq_append_of_isPref {p s : Str} (h : isPref p s = true) :
    s = p ++ s.drop p.length := by
  induction p generalizing s with
  | nil => simp
  | cons a t ih =>
    cases s with
    | nil => simp [isPref] at h
    | cons b u =>
      have h' : a = b ∧ isPref t u = true := by simpa [isPref] using h
      obtain ⟨rfl, h2⟩ := h'
      simpa [List.drop_succ_cons] using ih h2

lemma findSub_isPref {p : Str} : ∀ {s : Str} {i : Nat},
    findSub p s = some i → isPref p (s.drop i) = true := by
  intro s
  induction s with
  | nil => intro i h; simp [findSub] at h
  | cons c t ih =>
    intro i h
    by_cases hp : isPref p (c :: t) = true
    · rw [findSub_cons, if_pos hp] at h
      cases h
      simpa using hp
    · rw [findSub_cons, if_neg hp] at h
      simp only [Option.map_eq_some'] at h
      obtain ⟨j, hj, rfl⟩ := h
      simpa [List.drop_succ_cons] using ih hj

lemma findChar_lb {ch : Char} : ∀ (q : Str) {s : Str} {j : Nat},
    findChar ch s = some j → isPref q s = true → (∀ c ∈ q, c ≠ ch) →
    q.length ≤ j := by
  intro q
  induction q with
  | nil => intro s j _ _ _; simp
  | cons a t ih =>
    intro s j hf hp hq
    cases s with
    | nil => simp [isPref] at hp
    | cons b u =>
      have h' : a = b ∧ isPref t u = true := by simpa [isPref] using hp
      obtain ⟨rfl, h2⟩ := h'
      have hne : ¬ a = ch := hq a (by simp)
      rw [findChar_cons, if_neg hne] at hf
      simp only [Option.map_eq_some'] at hf
      obtain ⟨j', hj', rfl⟩ := hf
      have hle := ih hj' h2 (fun c hc => hq c (by simp [hc]))
      simp only [List.length_cons]
      omega

lemma subLitAux_skip (p r : Str) : ∀ (chunk rest : Str),
    subLitAux p r chunk.length (chunk ++ rest) = subLitAux p r 0 rest := by
  intro chunk
  induction chunk with
  | nil => intro rest; rfl
  | cons c ch ih =>
    intro rest
    show subLitAux p r (ch.length + 1) (c :: (ch ++ rest)) = subLitAux p r 0 rest
    rw [subLitAux_succ]
    exact ih rest

lemma subLit_match_head (a : Char) (p' r s : Str) :
    subLit (a :: p') r ((a :: p') ++ s) = r ++ subLit (a :: p') r s := by
  have hpref : isPref (a :: p') ((a :: p') ++ s) = true := isPref_append_self _ _
  show subLitAux (a :: p') r 0 (a :: (p' ++ s)) = r ++ subLitAux (a :: p') r 0 s
  rw [subLitAux_zero_cons, if_pos (by simpa using hpref)]
  have : (a :: p').length - 1 = p'.length := by simp
  rw [this, subLitAux_skip]

lemma subLit_cons_pass {p : Str} (r : Str) (p' : Str) (hp : p = ' ' :: p')
    {c : Char} (t : Str) (hc : c ≠ ' ') :
    subLit p r (c :: t) = c :: subLit p r t := by
  subst hp
  have hf : isPref (' ' :: p') (c :: t) = false := isPref_head_ne p' t (Ne.symm hc)
  show subLitAux _ r 0 (c :: t) = c :: subLitAux _ r 0 t
  rw [subLitAux_zero_cons, if_neg (by simp [hf])]

lemma attrMatchLen_none_of_ne_space (n : Str) {c : Char} (t : Str) (hc : c ≠ ' ') :
    attrMatchLen n (c :: t) = none := by
  have hf : isPref (attrPat n) (c :: t) = false := by
    show isPref (' ' :: _) (c :: t) = false
    exact isPref_head_ne _ t (Ne.symm hc)
  simp [attrMatchLen, hf]

lemma subAttr_cons_pass (n : Str) {c : Char} (t : Str) (hc : c ≠ ' ') :
    subAttr n (c :: t) = c :: subAttr n t := by
  show subAttrAux n 0 (c :: t) = c :: subAttrAux n 0 t
  rw [subAttrAux_zero_cons, attrMatchLen_none_of_ne_space n t hc]

/-- Walking the four characters `<svg` through any scanner that passes
non-space characters through unchanged. -/
lemma chainPass (f : Str → Str) (hf : ∀ (c : Char) (t : Str), c ≠ ' ' → f (c :: t) = c :: f t)
    (r : Str) : f ('<' :: 's' :: 'v' :: 'g' :: r) = '<' :: 's' :: 'v' :: 'g' :: f r := by
  rw [hf '<' _ (by decide), hf 's' _ (by decide), hf 'v' _ (by decide),
    hf 'g' _ (by decide)]

lemma subLit_xmlns_pass {c : Char} (t : Str) (hc : c ≠ ' ') :
    subLit xmlnsLit [] (c :: t) = c :: subLit xmlnsLit [] t :=
  subLit_cons_pass [] (chs "xmlns=\"http://www.w3.org/2000/svg\"") rfl t hc

lemma subLit_xlink_pass {c : Char} (t : Str) (hc : c ≠ ' ') :
    subLit xlinkLit [] (c :: t) = c :: subLit xlinkLit [] t :=
  subLit_cons_pass [] (chs "xmlns:xlink=\"http://www.w3.org/1999/xlink\"") rfl t hc

/-- `cleanStartTag` on a slice starting with `<svg`: the attribute
substitutions leave the leading four characters alone (their patterns
all start with a space), and the final `replace("<svg", ...)` rewrites
them into the indent plus the new `id` attribute. -/
lemma cleanStartTag_split (nm r : Str) :
    ∃ z : Str, cleanStartTag nm ('<' :: 's' :: 'v' :: 'g' :: r) = insTag nm ++ z := by
  unfold cleanStartTag
  rw [chainPass _ (fun c t hc => subLit_xmlns_pass t hc),
    chainPass _ (fun c t hc => subLit_xlink_pass t hc),
    chainPass _ (fun c t hc => subAttr_cons_pass (chs "id") t hc),
    chainPass _ (fun c t hc => subAttr_cons_pass (chs "version") t hc),
    chainPass _ (fun c t hc => subAttr_cons_pass (chs "x") t hc),
    chainPass _ (fun c t hc => subAttr_cons_pass (chs "y") t hc),
    chainPass _ (fun c t hc => subAttr_cons_pass (chs "enable-background") t hc),
    chainPass _ (fun c t hc => subAttr_cons_pass (chs "xml:space") t hc)]
  exact ⟨_, by simpa using subLit_match_head '<' (chs "svg") (insTag nm) _⟩

/-- Inversion for a successful `clean_markup`. -/
lemma clean_markup_inv {m nm out : Str} (h : clean_markup m nm = some out) :
    ∃ si j r, findSub (chs "<svg ") m = some si ∧
      findChar '>' (m.drop (si + 1)) = some j ∧
      finishRest (cleanRest0 (m.drop (si + 1 + j + 1))) = some r ∧
      out = cleanStartTag nm ((m.take (si + 1 + j + 1)).drop si) ++ r := by
  unfold clean_markup at h
  simp only [Option.bind_eq_some, Option.map_eq_some'] at h
  obtain ⟨si, hsi, j, hj, r, hr, hout⟩ := h
  exact ⟨si, j, r, hsi, hj, hr, hout.symm⟩

/-- Introduction for a successful `clean_markup`. -/
lemma clean_markup_intro {m nm : Str} {si j : Nat} {r : Str}
    (hsi : findSub (chs "<svg ") m = some si)
    (hj : findChar '>' (m.drop (si + 1)) = some j)
    (hr : finishRest (cleanRest0 (m.drop (si + 1 + j + 1))) = some r) :
    clean_markup m nm =
      some (cleanStartTag nm ((m.take (si + 1 + j + 1)).drop si) ++ r) := by
  unfold clean_markup
  rw [hsi, Option.some_bind, hj, Option.some_bind, hr, Option.map_some']

/-- The start-tag slice of a successful `clean_markup` call starts with
the four characters `<svg`. -/
lemma start_slice_shape {m : Str} {si j : Nat}
    (hsi : findSub (chs "<svg ") m = some si)
    (hj : findChar '>' (m.drop (si + 1)) = some j) :
    ∃ r0 : Str, (m.take (si + 1 + j + 1)).drop si = '<' :: 's' :: 'v' :: 'g' :: r0 := by
  have hpref : isPref (chs "<svg ") (m.drop si) = true := findSub_isPref hsi
  have hdec0 := eq_append_of_isPref hpref
  rw [show (chs "<svg ").length = 5 from rfl] at hdec0
  set X : Str := (m.drop si).drop 5 with hX
  have hdec : m.drop si = chs "<svg " ++ X := hdec0
  have hj4 : 4 ≤ j := by
    have hdrop1 : m.drop (si + 1) = chs "svg " ++ X := by
      have h1 : m.drop (si + 1) = (m.drop si).drop 1 := by
        rw [List.drop_drop, Nat.add_comm]
      rw [h1, hdec]
      rfl
    have hjX : findChar '>' (chs "svg " ++ X) = some j := by rw [← hdrop1]; exact hj
    exact findChar_lb (chs "svg ") hjX (isPref_append_self _ _) (by decide)
  obtain ⟨j', rfl⟩ : ∃ j', j = 4 + j' := ⟨j - 4, by omega⟩
  refine ⟨' ' :: X.take (j' + 1), ?_⟩
  rw [List.drop_take]
  have harith : si + 1 + (4 + j') + 1 - si = (j' + 1) + 5 := by omega
  rw [harith, hdec]
  rfl

/-- The central prefix property of `clean_markup`: every successful
result starts with the two-space indent, `<svg`, and the inserted `id`
attribute whose value is the supplied icon name. -/
lemma clean_markup_head {m nm out : Str} (h : clean_markup m nm = some out) :
    ∃ rest : Str, out = insTag nm ++ rest := by
  obtain ⟨si, j, r, hsi, hj, _, hout⟩ := clean_markup_inv h
  obtain ⟨r0, hst⟩ := start_slice_shape hsi hj
  rw [hst] at hout
  obtain ⟨z, hz⟩ := cleanStartTag_split nm r0
  exact ⟨z ++ r, by rw [hout, hz, List.append_assoc]⟩

lemma computeWarn_iff (w0 h0 : Int) (dims : List (Int × Int)) :
    computeWarn w0 h0 dims = true ↔ ∃ d ∈ dims, d.fst ≠ w0 ∨ d.snd ≠ h0 := by
  simp [computeWarn, List.any_eq_true, bne_iff_ne]

/-! ### Structural action of the substitution chain on rendered icons -/

lemma subAttrAux_skip (n : Str) : ∀ (chunk rest : Str),
    subAttrAux n chunk.length (chunk ++ rest) = subAttrAux n 0 rest := by
  intro chunk
  induction chunk with
  | nil => intro rest; rfl
  | cons c ch ih =>
    intro rest
    show subAttrAux n (ch.length + 1) (c :: (ch ++ rest)) = subAttrAux n 0 rest
    rw [subAttrAux_succ]
    exact ih rest

lemma subEmptyGAux_skip : ∀ (chunk rest : Str),
    subEmptyGAux chunk.length (chunk ++ rest) = subEmptyGAux 0 rest := by
  intro chunk
  induction chunk with
  | nil => intro rest; rfl
  | cons c ch ih =>
    intro rest
    show subEmptyGAux (ch.length + 1) (c :: (ch ++ rest)) = subEmptyGAux 0 rest
    rw [subEmptyGAux_succ]
    exact ih rest

lemma subPathOpenAux_skip : ∀ (chunk rest : Str),
    subPathOpenAux chunk.length (chunk ++ rest) = subPathOpenAux 0 rest := by
  intro chunk
  induction chunk with
  | nil => intro rest; rfl
  | cons c ch ih =>
    intro rest
    show subPathOpenAux (ch.length + 1) (c :: (ch ++ rest)) = subPathOpenAux 0 rest
    rw [subPathOpenAux_succ]
    exact ih rest

/-- Prefix comparison across a separator character occurring in neither
side: the parts before the separator must agree exactly. -/
lemma sep_pref (d : Char) : ∀ (x y X Y : Str), d ∉ x → d ∉ y →
    (isPref (x ++ d :: X) (y ++ d :: Y) = true ↔ x = y ∧ isPref X Y = true) := by
  intro x
  induction x with
  | nil =>
    intro y X Y _ hy
    cases y with
    | nil => simp [isPref_cons_cons]
    | cons c y' =>
      have hdc : ¬ d = c := fun h => hy (h ▸ List.mem_cons_self c y')
      simp [isPref_cons_cons, hdc]
  | cons c x' ih =>
    intro y X Y hx hy
    cases y with
    | nil =>
      have hcd : ¬ c = d := fun h => hx (h ▸ List.mem_cons_self c x')
      simp [isPref_cons_cons, hcd]
    | cons e y' =>
      have hx' : d ∉ x' := fun h => hx (List.mem_cons_of_mem c h)
      have hy' : d ∉ y' := fun h => hy (List.mem_cons_of_mem e h)
      by_cases hce : c = e
      · subst hce
        simp only [List.cons_append, isPref_cons_cons, decide_True, Bool.true_and]
        rw [ih y' X Y hx' hy']
        simp
      · simp [isPref_cons_cons, hce]

lemma plainChar_spec {c : Char} (h : plainChar c = true) :
    c ≠ ' ' ∧ c ≠ '"' ∧ c ≠ '=' ∧ c ≠ '<' ∧ c ≠ '>' ∧
    isWs c = false ∧ isST c = false := by
  simp only [plainChar, Bool.not_eq_true', Bool.or_eq_false_iff] at h
  obtain ⟨⟨⟨⟨⟨⟨⟨⟨⟨h1, h2⟩, h3⟩, h4⟩, h5⟩, h6⟩, h7⟩, h8⟩, h9⟩, h10⟩ := h
  refine ⟨by simpa using h1, by simpa using h7, by simpa using h8,
    by simpa using h9, by simpa using h10, ?_, ?_⟩
  · simp [isWs, h1, h2, h3, h4, h5, h6]
  · simp [isST, h1, h2]

lemma attrOK_facts {a : SAttr} (h : attrOK a = true) :
    a.nm ≠ [] ∧ a.vl ≠ [] ∧ (∀ c ∈ a.nm, plainChar c = true) ∧
    (∀ c ∈ a.vl, plainChar c = true) := by
  simp only [attrOK, Bool.and_eq_true, List.all_eq_true] at h
  obtain ⟨⟨⟨h1, h2⟩, h3⟩, h4⟩ := h
  exact ⟨by simpa using h1, by simpa using h3, fun c hc => h2 c hc, fun c hc => h4 c hc⟩

lemma noQuoteLen_val (vl : Str) (rest : Str) (h : ∀ c ∈ vl, c ≠ '"') :
    noQuoteLen (vl ++ '"' :: rest) = vl.length := by
  induction vl with
  | nil => simp [noQuoteLen]
  | cons c t ih =>
    have hc : c ≠ '"' := h c (by simp)
    show (if c = '"' then 0 else noQuoteLen (t ++ '"' :: rest) + 1) = (c :: t).length
    rw [if_neg hc, ih (fun d hd => h d (by simp [hd]))]
    simp

/-- `attrPat n` matches at a rendered attribute exactly when the
attribute is named `n`. -/
lemma attrPat_isPref_iff (n : Str) (a : SAttr) (rest : Str)
    (hn : ('=' : Char) ∉ n) (ha : ('=' : Char) ∉ a.nm) :
    (isPref (attrPat n) (rAttr a ++ rest) = true) ↔ n = a.nm := by
  have hshape : rAttr a ++ rest =
      ' ' :: (a.nm ++ '=' :: ('"' :: ((a.vl ++ ['"']) ++ rest))) := by
    show (' ' :: attrBody a) ++ rest = _
    simp [attrBody, List.append_assoc]
  rw [hshape]
  show (isPref (' ' :: (n ++ '=' :: ('"' :: []))) _ = true) ↔ n = a.nm
  rw [isPref_cons_cons]
  simp only [decide_True, Bool.true_and]
  rw [sep_pref '=' n a.nm ('"' :: []) ('"' :: ((a.vl ++ ['"']) ++ rest)) hn ha]
  simp [isPref_cons_cons, isPref_nil]

lemma mem_attrBody {a : SAttr} {c : Char} (hc : c ∈ attrBody a) :
    c ∈ a.nm ∨ c ∈ a.vl ∨ c = '=' ∨ c = '"' := by
  rcases List.mem_append.mp hc with h | h
  · exact Or.inl h
  · rcases List.mem_cons.mp h with rfl | h
    · exact Or.inr (Or.inr (Or.inl rfl))
    · rcases List.mem_cons.mp h with rfl | h
      · exact Or.inr (Or.inr (Or.inr rfl))
      · rcases List.mem_append.mp h with h | h
        · exact Or.inr (Or.inl h)
        · rcases List.mem_singleton.mp h with rfl
          exact Or.inr (Or.inr (Or.inr rfl))

lemma attrBody_no_space {a : SAttr} (hOK : attrOK a = true) :
    ∀ c ∈ attrBody a, c ≠ ' ' := by
  obtain ⟨_, _, hnmp, hvlp⟩ := attrOK_facts hOK
  intro c hc
  rcases mem_attrBody hc with h | h | rfl | rfl
  · exact (plainChar_spec (hnmp c h)).1
  · exact (plainChar_spec (hvlp c h)).1
  · decide
  · decide

lemma attr_nm_no_eq {a : SAttr} (hOK : attrOK a = true) : ('=' : Char) ∉ a.nm := by
  intro hmem
  exact (plainChar_spec ((attrOK_facts hOK).2.2.1 '=' hmem)).2.2.1 rfl

lemma attr_vl_no_quote {a : SAttr} (hOK : attrOK a = true) : ∀ c ∈ a.vl, c ≠ '"' :=
  fun c hc => (plainChar_spec ((attrOK_facts hOK).2.2.2 c hc)).2.1

/-- `attrMatchLen` at its own pattern followed by a proper quoted
value. -/
lemma attrMatchLen_exact (n vl rest : Str) (hne : vl ≠ [])
    (hq : ∀ c ∈ vl, c ≠ '"') :
    attrMatchLen n (attrPat n ++ (vl ++ '"' :: rest)) =
      some ((attrPat n).length + vl.length + 1) := by
  unfold attrMatchLen
  rw [if_pos (isPref_append_self _ _)]
  have h1 : (attrPat n ++ (vl ++ '"' :: rest)).drop (attrPat n).length =
      vl ++ '"' :: rest := List.drop_left _ _
  rw [h1, noQuoteLen_val vl rest hq]
  have h2 : (vl ++ '"' :: rest).drop vl.length = '"' :: rest := List.drop_left _ _
  rw [h2]
  rw [if_pos ⟨Nat.succ_le_of_lt (List.length_pos.mpr hne), rfl⟩]

lemma attrMatchLen_none_of_not_isPref {n s : Str}
    (h : isPref (attrPat n) s = false) : attrMatchLen n s = none := by
  unfold attrMatchLen
  rw [if_neg (by simp [h])]

/-- `attrMatchLen` at a rendered attribute: a full match of exactly the
attribute's render when the name agrees, no match otherwise. -/
lemma attrMatchLen_rAttr (n : Str) (a : SAttr) (rest : Str)
    (hOK : attrOK a = true) (hn : ('=' : Char) ∉ n) :
    attrMatchLen n (rAttr a ++ rest) =
      if a.nm = n then some (rAttr a).length else none := by
  obtain ⟨hnmne, hvlne, hnmp, hvlp⟩ := attrOK_facts hOK
  have ha := attr_nm_no_eq hOK
  by_cases heq : a.nm = n
  · rw [if_pos heq]
    subst heq
    have hsplit : rAttr a ++ rest = attrPat a.nm ++ (a.vl ++ '"' :: rest) := by
      show (' ' :: attrBody a) ++ rest = (' ' :: (a.nm ++ '=' :: '"' :: [])) ++ _
      simp [attrBody, List.append_assoc]
    rw [hsplit, attrMatchLen_exact a.nm a.vl rest hvlne (attr_vl_no_quote hOK)]
    have hlen : (attrPat a.nm).length + a.vl.length + 1 = (rAttr a).length := by
      simp [attrPat, rAttr, attrBody]
      omega
    rw [hlen]
  · rw [if_neg heq]
    have hpf : isPref (attrPat n) (rAttr a ++ rest) = false := by
      rcases hb : isPref (attrPat n) (rAttr a ++ rest) with _ | _
      · rfl
      · exact absurd ((attrPat_isPref_iff n a rest hn ha).mp hb).symm heq
    exact attrMatchLen_none_of_not_isPref hpf

lemma subAttr_pass_chunk (n chunk rest : Str) (h : ∀ c ∈ chunk, c ≠ ' ') :
    subAttr n (chunk ++ rest) = chunk ++ subAttr n rest := by
  induction chunk with
  | nil => rfl
  | cons c ch ih =>
    show subAttr n (c :: (ch ++ rest)) = c :: (ch ++ subAttr n rest)
    rw [subAttr_cons_pass n _ (h c (by simp)), ih (fun d hd => h d (by simp [hd]))]

/-- The action of one `subAttr` scan step on a whole rendered
attribute. -/
lemma subAttr_rAttr_cons (n : Str) (a : SAttr) (rest : Str)
    (hOK : attrOK a = true) (hn : ('=' : Char) ∉ n) :
    subAttr n (rAttr a ++ rest) = (if a.nm = n then [] else rAttr a) ++ subAttr n rest := by
  have hml := attrMatchLen_rAttr n a rest hOK hn
  by_cases heq : a.nm = n
  · rw [if_pos heq] at hml
    rw [if_pos heq]
    show subAttrAux n 0 (' ' :: (attrBody a ++ rest)) = [] ++ subAttrAux n 0 rest
    rw [subAttrAux_zero_cons]
    have hml' : attrMatchLen n (' ' :: (attrBody a ++ rest)) = some (rAttr a).length := hml
    rw [hml']
    show subAttrAux n ((rAttr a).length - 1) (attrBody a ++ rest) = [] ++ subAttrAux n 0 rest
    have hlen : (rAttr a).length - 1 = (attrBody a).length := by simp [rAttr]
    rw [hlen, subAttrAux_skip]
    rfl
  · rw [if_neg heq] at hml
    rw [if_neg heq]
    show subAttrAux n 0 (' ' :: (attrBody a ++ rest)) = rAttr a ++ subAttr n rest
    rw [subAttrAux_zero_cons]
    have hml' : attrMatchLen n (' ' :: (attrBody a ++ rest)) = none := hml
    rw [hml']
    show ' ' :: subAttr n (attrBody a ++ rest) = rAttr a ++ subAttr n rest
    rw [subAttr_pass_chunk n _ rest (attrBody_no_space hOK)]
    rfl

/-- The action of `subAttr` on a whole rendered attribute list:
attributes named `n` are removed. -/
lemma subAttr_rAttrs (n : Str) (attrs : List SAttr) (t : Str)
    (hattrs : ∀ a ∈ attrs, attrOK a = true) (hn : ('=' : Char) ∉ n) :
    subAttr n (rAttrs attrs ++ t) =
      rAttrs (attrs.filter (fun a => !(a.nm == n))) ++ subAttr n t := by
  induction attrs with
  | nil => simp [rAttrs, List.filter]
  | cons a as ih =>
    have hsh : rAttrs (a :: as) ++ t = rAttr a ++ (rAttrs as ++ t) := by
      simp [rAttrs, List.append_assoc]
    rw [hsh, subAttr_rAttr_cons n a _ (hattrs a (by simp)) hn,
      ih (fun b hb => hattrs b (by simp [hb]))]
    by_cases heq : a.nm = n
    · rw [if_pos heq]
      have : (a.nm == n) = true := by simpa using heq
      simp [List.filter, this]
    · rw [if_neg heq]
      have : (a.nm == n) = false := by simpa using heq
      simp [List.filter, this, rAttrs, List.append_assoc]

/-- A literal attribute pattern matches at a rendered attribute exactly
when the attribute is that name-value pair. -/
lemma isPref_rAttr_iff (a₀ a : SAttr) (rest : Str)
    (h₀ : attrOK a₀ = true) (h : attrOK a = true) :
    (isPref (rAttr a₀) (rAttr a ++ rest) = true) ↔ a₀ = a := by
  have hshape : rAttr a ++ rest =
      ' ' :: (a.nm ++ '=' :: ('"' :: (a.vl ++ '"' :: rest))) := by
    show (' ' :: attrBody a) ++ rest = _
    simp [attrBody, List.append_assoc]
  have hshape₀ : rAttr a₀ = ' ' :: (a₀.nm ++ '=' :: ('"' :: (a₀.vl ++ '"' :: []))) := by
    show ' ' :: attrBody a₀ = _
    simp [attrBody]
  rw [hshape, hshape₀, isPref_cons_cons]
  simp only [decide_True, Bool.true_and]
  rw [sep_pref '=' a₀.nm a.nm _ _ (attr_nm_no_eq h₀) (attr_nm_no_eq h)]
  constructor
  · intro ⟨h1, h2⟩
    rw [isPref_cons_cons] at h2
    simp only [decide_True, Bool.true_and] at h2
    have := (sep_pref '"' a₀.vl a.vl [] rest
      (fun hm => attr_vl_no_quote h₀ '"' hm rfl)
      (fun hm => attr_vl_no_quote h '"' hm rfl)).mp h2
    cases a₀; cases a
    simp_all
  · intro h1
    subst h1
    refine ⟨rfl, ?_⟩
    rw [isPref_cons_cons]
    simp only [decide_True, Bool.true_and]
    exact (sep_pref '"' a₀.vl a₀.vl [] rest
      (fun hm => attr_vl_no_quote h₀ '"' hm rfl)
      (fun hm => attr_vl_no_quote h₀ '"' hm rfl)).mpr ⟨rfl, rfl⟩

lemma subLit_cons_passg {p : Str} (r : Str) (c₀ : Char) (p' : Str) (hp : p = c₀ :: p')
    {c : Char} (t : Str) (hc : c ≠ c₀) :
    subLit p r (c :: t) = c :: subLit p r t := by
  subst hp
  have hf : isPref (c₀ :: p') (c :: t) = false := isPref_head_ne p' t (Ne.symm hc)
  show subLitAux _ r 0 (c :: t) = c :: subLitAux _ r 0 t
  rw [subLitAux_zero_cons, if_neg (by simp [hf])]

lemma subLit_pass_chunkg {p : Str} (r : Str) (c₀ : Char) (p' : Str) (hp : p = c₀ :: p')
    (chunk rest : Str) (h : ∀ c ∈ chunk, c ≠ c₀) :
    subLit p r (chunk ++ rest) = chunk ++ subLit p r rest := by
  induction chunk with
  | nil => rfl
  | cons c ch ih =>
    show subLit p r (c :: (ch ++ rest)) = c :: (ch ++ subLit p r rest)
    rw [subLit_cons_passg r c₀ p' hp _ (h c (by simp)), ih (fun d hd => h d (by simp [hd]))]

/-- The action of one `subLit` scan step (with pattern a rendered
attribute and empty replacement) on a whole rendered attribute. -/
lemma subLit_rAttr_cons (a₀ a : SAttr) (rest : Str)
    (h₀ : attrOK a₀ = true) (h : attrOK a = true) :
    subLit (rAttr a₀) [] (rAttr a ++ rest) =
      (if a₀ = a then [] else rAttr a) ++ subLit (rAttr a₀) [] rest := by
  by_cases heq : a₀ = a
  · subst heq
    rw [if_pos rfl]
    show subLitAux (rAttr a₀) [] 0 (' ' :: (attrBody a₀ ++ rest)) = [] ++ _
    rw [subLitAux_zero_cons]
    have hpref : isPref (rAttr a₀) (' ' :: (attrBody a₀ ++ rest)) = true := by
      have := isPref_append_self (rAttr a₀) rest
      simpa [rAttr, List.append_assoc] using this
    rw [if_pos (by simpa using hpref)]
    show subLitAux (rAttr a₀) [] ((rAttr a₀).length - 1) (attrBody a₀ ++ rest) =
      [] ++ subLitAux (rAttr a₀) [] 0 rest
    have hlen : (rAttr a₀).length - 1 = (attrBody a₀).length := by simp [rAttr]
    rw [hlen, subLitAux_skip]
    rfl
  · rw [if_neg heq]
    have hpf : isPref (rAttr a₀) (rAttr a ++ rest) = false := by
      rcases hb : isPref (rAttr a₀) (rAttr a ++ rest) with _ | _
      · rfl
      · exact absurd ((isPref_rAttr_iff a₀ a rest h₀ h).mp hb) heq
    show subLitAux (rAttr a₀) [] 0 (' ' :: (attrBody a ++ rest)) = rAttr a ++ _
    rw [subLitAux_zero_cons]
    have hpf' : isPref (rAttr a₀) (' ' :: (attrBody a ++ rest)) = false := hpf
    rw [if_neg (by simp [hpf'])]
    show ' ' :: subLit (rAttr a₀) [] (attrBody a ++ rest) = rAttr a ++ _
    rw [@subLit_pass_chunkg (rAttr a₀) [] ' ' (attrBody a₀) rfl (attrBody a) rest
      (attrBody_no_space h)]
    rfl

/-- The action of `subLit` with a rendered-attribute literal pattern on
a whole rendered attribute list: exactly that pair is removed. -/
lemma subLit_rAttrs (a₀ : SAttr) (attrs : List SAttr) (t : Str)
    (h₀ : attrOK a₀ = true) (hattrs : ∀ a ∈ attrs, attrOK a = true) :
    subLit (rAttr a₀) [] (rAttrs attrs ++ t) =
      rAttrs (attrs.filter (fun a => !(a == a₀))) ++ subLit (rAttr a₀) [] t := by
  induction attrs with
  | nil => simp [rAttrs, List.filter]
  | cons a as ih =>
    have hsh : rAttrs (a :: as) ++ t = rAttr a ++ (rAttrs as ++ t) := by
      simp [rAttrs, List.append_assoc]
    rw [hsh, subLit_rAttr_cons a₀ a _ h₀ (hattrs a (by simp)),
      ih (fun b hb => hattrs b (by simp [hb]))]
    by_cases heq : a₀ = a
    · rw [if_pos heq]
      have : (a == a₀) = true := by simpa using heq.symm
      simp [List.filter, this]
    · rw [if_neg heq]
      have : (a == a₀) = false := by simpa using (Ne.symm heq)
      simp [List.filter, this, rAttrs, List.append_assoc]

lemma optList_get {α β : Type} (f : α → Option β) :
    ∀ {l : List α} {bs : List β}, optList f l = some bs →
      ∀ (i : Nat) (h1 : i < l.length) (h2 : i < bs.length),
        f (l.get ⟨i, h1⟩) = some (bs.get ⟨i, h2⟩) := by
  intro l
  induction l with
  | nil =>
    intro bs h i h1 _
    exact absurd h1 (by simp)
  | cons a t ih =>
    intro bs h i h1 h2
    rcases ha : f a with _ | b
    · rw [optList, ha] at h; exact absurd h (by simp)
    · rcases ht : optList f t with _ | bs'
      · rw [optList, ha, ht] at h; exact absurd h (by simp)
      · rw [optList, ha, ht] at h
        simp only [Option.some.injEq] at h
        subst h
        cases i with
        | zero => simpa using ha
        | succ i' =>
          have h1' : i' < t.length := by simpa using h1
          have h2' : i' < bs'.length := by simpa using h2
          simpa using ih ht i' h1' h2'

lemma optList_length {α β : Type} (f : α → Option β) :
    ∀ {l : List α} {bs : List β}, optList f l = some bs → bs.length = l.length := by
  intro l
  induction l with
  | nil =>
    intro bs h
    simp only [optList, Option.some.injEq] at h
    simp [← h]
  | cons a t ih =>
    intro bs h
    rcases ha : f a with _ | b
    · rw [optList, ha] at h; exact absurd h (by simp)
    · rcases ht : optList f t with _ | bs'
      · rw [optList, ha, ht] at h; exact absurd h (by simp)
      · rw [optList, ha, ht] at h
        simp only [Option.some.injEq] at h
        subst h
        simp [ih ht]

lemma warn_replicate (w h : Int) (n : Nat) :
    computeWarn w h (List.replicate n (w, h)) = false := by
  by_contra hc
  rw [Bool.not_eq_false] at hc
  obtain ⟨d, hd, hor⟩ := (computeWarn_iff _ _ _).mp hc
  have hdwh := List.eq_of_mem_replicate hd
  subst hdwh
  rcases hor with h1 | h1 <;> exact h1 rfl

lemma subAttr_gt (n : Str) : subAttr n ['>'] = ['>'] := by
  rw [show (['>'] : Str) = '>' :: [] from rfl, subAttr_cons_pass n [] (by decide)]
  rfl

lemma subLit_gt (p r : Str) (c₀ : Char) (p' : Str) (hp : p = c₀ :: p') (hc : c₀ ≠ '>') :
    subLit p r ['>'] = ['>'] := by
  rw [show (['>'] : Str) = '>' :: [] from rfl,
    subLit_cons_passg r c₀ p' hp [] (Ne.symm hc)]
  rfl

lemma attrOK_filter {l : List SAttr} (h : ∀ a ∈ l, attrOK a = true) (q : SAttr → Bool) :
    ∀ a ∈ l.filter q, attrOK a = true :=
  fun a ha => h a (List.mem_of_mem_filter ha)

lemma rootAttrOK_to_attrOK {a : SAttr} (h : rootAttrOK a = true) : attrOK a = true := by
  simp only [rootAttrOK, Bool.and_eq_true] at h
  exact h.1.1

/-- One attribute-stripping substitution on the whole start-tag slice. -/
lemma stepAttr (n : Str) (hn : ('=' : Char) ∉ n) (A : List SAttr)
    (hA : ∀ a ∈ A, attrOK a = true) :
    subAttr n ('<' :: 's' :: 'v' :: 'g' :: (rAttrs A ++ ['>'])) =
      '<' :: 's' :: 'v' :: 'g' :: (rAttrs (A.filter (fun a => !(a.nm == n))) ++ ['>']) := by
  rw [chainPass (subAttr n) (fun c t hc => subAttr_cons_pass n t hc)]
  rw [subAttr_rAttrs n A ['>'] hA hn, subAttr_gt]

/-- One literal-attribute substitution on the whole start-tag slice. -/
lemma stepLit (a₀ : SAttr) (h₀ : attrOK a₀ = true) (A : List SAttr)
    (hA : ∀ a ∈ A, attrOK a = true) :
    subLit (rAttr a₀) [] ('<' :: 's' :: 'v' :: 'g' :: (rAttrs A ++ ['>'])) =
      '<' :: 's' :: 'v' :: 'g' :: (rAttrs (A.filter (fun a => !(a == a₀))) ++ ['>']) := by
  rw [chainPass (subLit (rAttr a₀) [])
    (fun c t hc => subLit_cons_passg [] ' ' (attrBody a₀)
      (show rAttr a₀ = ' ' :: attrBody a₀ from rfl) t hc)]
  rw [subLit_rAttrs a₀ A ['>'] h₀ hA,
    subLit_gt (rAttr a₀) [] ' ' (attrBody a₀) rfl (by decide)]

lemma subLit_id_of_no_head {p : Str} (r : Str) (c₀ : Char) (p' : Str)
    (hp : p = c₀ :: p') (s : Str) (h : ∀ c ∈ s, c ≠ c₀) : subLit p r s = s := by
  induction s with
  | nil => rfl
  | cons c t ih =>
    rw [subLit_cons_passg r c₀ p' hp t (h c (by simp)),
      ih (fun d hd => h d (by simp [hd]))]

lemma rAttrs_no_lt {attrs : List SAttr} (h : ∀ a ∈ attrs, attrOK a = true) :
    ∀ c ∈ rAttrs attrs ++ ['>'], c ≠ '<' := by
  induction attrs with
  | nil =>
    intro c hc
    simp only [rAttrs, List.nil_append, List.mem_singleton] at hc
    subst hc; decide
  | cons a as ih =>
    intro c hc
    rw [show rAttrs (a :: as) ++ ['>'] = rAttr a ++ (rAttrs as ++ ['>']) by
      simp [rAttrs, List.append_assoc]] at hc
    rcases List.mem_append.mp hc with hc | hc
    · rcases List.mem_cons.mp hc with rfl | hc
      · decide
      · obtain ⟨hnmp, hvlp⟩ := ((attrOK_facts (h a (by simp))).2.2)
        rcases mem_attrBody hc with h1 | h1 | rfl | rfl
        · exact (plainChar_spec (hnmp c h1)).2.2.2.1
        · exact (plainChar_spec (hvlp c h1)).2.2.2.1
        · decide
        · decide
    · exact ih (fun b hb => h b (by simp [hb])) c hc

/-- The whole start-tag chain on a rendered start tag: strip the
namespace literals and the six attribute names, then rewrite `<svg`
into the indent plus the new `id`. -/
lemma cleanStartTag_render (nm : Str) (attrs : List SAttr)
    (hattrs : ∀ a ∈ attrs, rootAttrOK a = true) :
    cleanStartTag nm (chs "<svg" ++ rAttrs attrs ++ ['>']) =
      insTag nm ++ (rAttrs (rootFilter attrs) ++ ['>']) := by
  have hOK0 : ∀ a ∈ attrs, attrOK a = true :=
    fun a ha => rootAttrOK_to_attrOK (hattrs a ha)
  show cleanStartTag nm ('<' :: 's' :: 'v' :: 'g' :: (rAttrs attrs ++ ['>'])) = _
  unfold cleanStartTag
  rw [show xmlnsLit = rAttr ⟨chs "xmlns", xmlnsURL⟩ from rfl,
    show xlinkLit = rAttr ⟨chs "xmlns:xlink", xlinkURL⟩ from rfl]
  rw [stepLit ⟨chs "xmlns", xmlnsURL⟩ (by decide) attrs hOK0]
  rw [stepLit ⟨chs "xmlns:xlink", xlinkURL⟩ (by decide) _ (attrOK_filter hOK0 _)]
  rw [stepAttr (chs "id") (by decide) _ (attrOK_filter (attrOK_filter hOK0 _) _)]
  rw [stepAttr (chs "version") (by decide) _
    (attrOK_filter (attrOK_filter (attrOK_filter hOK0 _) _) _)]
  rw [stepAttr (chs "x") (by decide) _
    (attrOK_filter (attrOK_filter (attrOK_filter (attrOK_filter hOK0 _) _) _) _)]
  rw [stepAttr (chs "y") (by decide) _
    (attrOK_filter (attrOK_filter (attrOK_filter (attrOK_filter (attrOK_filter hOK0 _) _) _) _) _)]
  rw [stepAttr (chs "enable-background") (by decide) _
    (attrOK_filter (attrOK_filter (attrOK_filter (attrOK_filter (attrOK_filter
      (attrOK_filter hOK0 _) _) _) _) _) _)]
  rw [stepAttr (chs "xml:space") (by decide) _
    (attrOK_filter (attrOK_filter (attrOK_filter (attrOK_filter (attrOK_filter
      (attrOK_filter (attrOK_filter hOK0 _) _) _) _) _) _) _)]
  -- the final replace("<svg", ...)
  show subLit ('<' :: chs "svg") (insTag nm)
    (('<' :: chs "svg") ++ (rAttrs (rootFilter attrs) ++ ['>'])) = _
  rw [subLit_match_head '<' (chs "svg") (insTag nm) (rAttrs (rootFilter attrs) ++ ['>'])]
  rw [@subLit_id_of_no_head ('<' :: chs "svg") (insTag nm) '<' (chs "svg") rfl
    (rAttrs (rootFilter attrs) ++ ['>'])
    (rAttrs_no_lt (attrOK_filter (attrOK_filter (attrOK_filter (attrOK_filter
      (attrOK_filter (attrOK_filter (attrOK_filter (attrOK_filter hOK0 _) _) _) _) _) _) _) _))]

/-! ### Generic pass lemmas for the body chain -/

lemma wsLen_cons (c : Char) (t : Str) :
    wsLen (c :: t) = if isWs c then wsLen t + 1 else 0 := rfl

lemma stLen_cons (c : Char) (t : Str) :
    stLen (c :: t) = if isST c then stLen t + 1 else 0 := rfl

lemma nlCut_cons (c : Char) (t : Str) :
    nlCut (c :: t) =
      if isWs c then
        match nlCut t with
        | some k => some (k + 1)
        | none => if c = '\n' then some 1 else none
      else none := rfl

lemma head?_append_eq_headOr (t rest : Str) :
    (t ++ rest).head? = headOr t rest.head? := by
  cases t <;> rfl

lemma isPref_false_of_pair (c₀ c₁ : Char) (p'' : Str) (c : Char) (t : Str)
    (h : ¬ c = c₀ ∨ ¬ t.head? = some c₁) :
    isPref (c₀ :: c₁ :: p'') (c :: t) = false := by
  rcases h with h | h
  · exact isPref_head_ne _ _ (fun he => h he.symm)
  · cases t with
    | nil =>
      rw [isPref_cons_cons, isPref_cons_nil]
      simp
    | cons d t' =>
      have hd : c₁ ≠ d := fun he => h (by simp [← he])
      rw [isPref_cons_cons, isPref_head_ne _ _ hd]
      simp

lemma noPair_head {c₀ c₁ c : Char} {t : Str} {nxt : Option Char}
    (h : noPair c₀ c₁ (c :: t) nxt = true) :
    (¬ c = c₀ ∨ ¬ headOr t nxt = some c₁) ∧ noPair c₀ c₁ t nxt = true := by
  simp only [noPair, Bool.and_eq_true, Bool.or_eq_true, Bool.not_eq_true',
    beq_eq_false_iff_ne, ne_eq] at h
  exact ⟨h.1, h.2⟩

lemma emptyGMatchLen_none_of_not_isPref {s : Str}
    (h : isPref (chs "<g>") s = false) : emptyGMatchLen s = none := by
  unfold emptyGMatchLen
  rw [if_neg (by simp [h])]

lemma subEmptyG_noPair (chunk rest : Str)
    (h : noPair '<' 'g' chunk rest.head? = true) :
    subEmptyGAux 0 (chunk ++ rest) = chunk ++ subEmptyGAux 0 rest := by
  induction chunk with
  | nil => rfl
  | cons c t ih =>
    obtain ⟨h1, h2⟩ := noPair_head h
    rw [← head?_append_eq_headOr] at h1
    have hf : isPref (chs "<g>") (c :: (t ++ rest)) = false := by
      show isPref ('<' :: 'g' :: ('>' :: [])) (c :: (t ++ rest)) = false
      exact isPref_false_of_pair '<' 'g' ('>' :: []) c (t ++ rest) h1
    show subEmptyGAux 0 (c :: (t ++ rest)) = c :: (t ++ subEmptyGAux 0 rest)
    rw [subEmptyGAux_zero_cons, emptyGMatchLen_none_of_not_isPref hf]
    rw [ih h2]

lemma subAttr_noPair (n : Str) (c₁ : Char) (n'' : Str) (hn : n = c₁ :: n'')
    (chunk rest : Str) (h : noPair ' ' c₁ chunk rest.head? = true) :
    subAttr n (chunk ++ rest) = chunk ++ subAttr n rest := by
  subst hn
  induction chunk with
  | nil => rfl
  | cons c t ih =>
    obtain ⟨h1, h2⟩ := noPair_head h
    rw [← head?_append_eq_headOr] at h1
    have hf : isPref (attrPat (c₁ :: n'')) (c :: (t ++ rest)) = false := by
      show isPref (' ' :: c₁ :: (n'' ++ '=' :: '"' :: [])) (c :: (t ++ rest)) = false
      exact isPref_false_of_pair ' ' c₁ _ c (t ++ rest) h1
    show subAttrAux _ 0 (c :: (t ++ rest)) = c :: (t ++ subAttrAux _ 0 rest)
    rw [subAttrAux_zero_cons, attrMatchLen_none_of_not_isPref hf]
    show c :: subAttr (c₁ :: n'') (t ++ rest) = _
    rw [ih h2]
    rfl

lemma subLit_noPair (p r : Str) (c₀ c₁ : Char) (p'' : Str) (hp : p = c₀ :: c₁ :: p'')
    (chunk rest : Str) (h : noPair c₀ c₁ chunk rest.head? = true) :
    subLit p r (chunk ++ rest) = chunk ++ subLit p r rest := by
  subst hp
  induction chunk with
  | nil => rfl
  | cons c t ih =>
    obtain ⟨h1, h2⟩ := noPair_head h
    rw [← head?_append_eq_headOr] at h1
    have hf : isPref (c₀ :: c₁ :: p'') (c :: (t ++ rest)) = false :=
      isPref_false_of_pair c₀ c₁ _ c (t ++ rest) h1
    show subLitAux _ r 0 (c :: (t ++ rest)) = c :: (t ++ subLitAux _ r 0 rest)
    rw [subLitAux_zero_cons, if_neg (by simp [hf])]
    show c :: subLit (c₀ :: c₁ :: p'') r (t ++ rest) = _
    rw [ih h2]
    rfl

lemma isST_isWs {c : Char} (h : isST c = true) : isWs c = true := by
  simp only [isST, Bool.or_eq_true, decide_eq_true_eq] at h
  rcases h with rfl | rfl <;> rfl

lemma wsLen_stop (u : Str) (hu : ∀ c ∈ u, isWs c = true) (c₀ : Char)
    (h0 : isWs c₀ = false) (v : Str) : wsLen (u ++ c₀ :: v) = u.length := by
  induction u with
  | nil => show wsLen (c₀ :: v) = 0; rw [wsLen_cons, h0]; rfl
  | cons c t ih =>
    show wsLen (c :: (t ++ c₀ :: v)) = t.length + 1
    rw [wsLen_cons, hu c (by simp), if_pos rfl, ih (fun d hd => hu d (by simp [hd]))]

lemma stLen_stop (u : Str) (hu : ∀ c ∈ u, isST c = true) (c₀ : Char)
    (h0 : isST c₀ = false) (v : Str) : stLen (u ++ c₀ :: v) = u.length := by
  induction u with
  | nil => show stLen (c₀ :: v) = 0; rw [stLen_cons, h0]; rfl
  | cons c t ih =>
    show stLen (c :: (t ++ c₀ :: v)) = t.length + 1
    rw [stLen_cons, hu c (by simp), if_pos rfl, ih (fun d hd => hu d (by simp [hd]))]

lemma nlCut_none_st (u : Str) (hu : ∀ c ∈ u, isST c = true) (c₀ : Char)
    (h0 : isWs c₀ = false) (v : Str) : nlCut (u ++ c₀ :: v) = none := by
  induction u with
  | nil => show nlCut (c₀ :: v) = none; rw [nlCut_cons, h0]; rfl
  | cons c t ih =>
    have hcst : isST c = true := hu c (by simp)
    have hcnl : ¬ c = '\n' := by
      simp only [isST, Bool.or_eq_true, decide_eq_true_eq] at hcst
      rcases hcst with rfl | rfl <;> decide
    show nlCut (c :: (t ++ c₀ :: v)) = none
    rw [nlCut_cons, if_pos (isST_isWs hcst), ih (fun d hd => hu d (by simp [hd]))]
    simp [hcnl]

lemma drop_append_len (u v : Str) (k : Nat) :
    (u ++ v).drop (u.length + k) = v.drop k := by
  induction u with
  | nil => simp
  | cons c t ih =>
    show List.drop (t.length + 1 + k) (c :: (t ++ v)) = v.drop k
    have : t.length + 1 + k = (t.length + k) + 1 := by omega
    rw [this, List.drop_succ_cons, ih]

lemma headOr_none (t : Str) : headOr t none = t.head? := by cases t <;> rfl

lemma noPair_of_all_ne {c₀ c₁ : Char} {u : Str} (h : ∀ c ∈ u, c ≠ c₀)
    (nxt : Option Char) : noPair c₀ c₁ u nxt = true := by
  induction u with
  | nil => rfl
  | cons c t ih =>
    simp only [noPair, Bool.and_eq_true, Bool.or_eq_true, Bool.not_eq_true',
      beq_eq_false_iff_ne, ne_eq]
    exact ⟨Or.inl (h c (by simp)), ih (fun d hd => h d (by simp [hd]))⟩

lemma noPair_append (c₀ c₁ : Char) (u v : Str) (nxt : Option Char) :
    noPair c₀ c₁ (u ++ v) nxt =
      (noPair c₀ c₁ u (headOr v nxt) && noPair c₀ c₁ v nxt) := by
  induction u with
  | nil => simp [noPair]
  | cons c t ih =>
    have hho : headOr (t ++ v) nxt = headOr t (headOr v nxt) := by
      cases t
      · cases v <;> rfl
      · rfl
    show ((!(c == c₀) || !(headOr (t ++ v) nxt == some c₁)) &&
        noPair c₀ c₁ (t ++ v) nxt) = _
    rw [hho, ih]
    show _ = ((!(c == c₀) || !(headOr t (headOr v nxt) == some c₁)) &&
      noPair c₀ c₁ t (headOr v nxt) && noPair c₀ c₁ v nxt)
    rw [Bool.and_assoc]

/-- The lookahead is irrelevant when the chunk doesn't end in `c₀`. -/
lemma noPair_irrel (c₀ c₁ : Char) : ∀ (u : Str),
    (∀ (c : Char), u.getLast? = some c → c ≠ c₀) →
    ∀ (nxt : Option Char), noPair c₀ c₁ u nxt = noPair c₀ c₁ u none := by
  intro u
  induction u with
  | nil => intro _ _; rfl
  | cons c t ih =>
    intro hlast nxt
    cases t with
    | nil =>
      have hc : c ≠ c₀ := hlast c rfl
      show ((!(c == c₀) || _) && true) = ((!(c == c₀) || _) && true)
      have : (c == c₀) = false := by simpa using hc
      simp [this]
    | cons d t' =>
      have hlast' : ∀ (e : Char), (d :: t').getLast? = some e → e ≠ c₀ := by
        intro e he
        refine hlast e ?_
        rw [List.getLast?_cons_cons]
        exact he
      show ((!(c == c₀) || !(headOr (d :: t') nxt == some c₁)) && noPair c₀ c₁ (d :: t') nxt) = _
      rw [ih hlast' nxt]
      rfl

lemma subEmptyG_id {s : Str} (h : noPair '<' 'g' s none = true) :
    subEmptyGAux 0 s = s := by
  induction s with
  | nil => rfl
  | cons c t ih =>
    obtain ⟨h1, h2⟩ := noPair_head h
    rw [headOr_none] at h1
    have hf : isPref (chs "<g>") (c :: t) = false := by
      show isPref ('<' :: 'g' :: ('>' :: [])) (c :: t) = false
      exact isPref_false_of_pair '<' 'g' ('>' :: []) c t h1
    rw [subEmptyGAux_zero_cons, emptyGMatchLen_none_of_not_isPref hf, ih h2]

lemma itemOK_g {ind inner : Str} (h : itemOK (.gI ind inner) = true) :
    (∀ c ∈ ind, isST c = true) ∧ inner ≠ [] ∧ (∀ c ∈ inner, isWs c = true) := by
  simp only [itemOK, Bool.and_eq_true, List.all_eq_true] at h
  refine ⟨fun c hc => h.1.1 c hc, ?_, fun c hc => h.2 c hc⟩
  have := h.1.2
  simpa using this

lemma itemOK_path {ind : Str} {attrs : List SAttr} {short : Bool}
    (h : itemOK (.pathI ind attrs short) = true) :
    (∀ c ∈ ind, isST c = true) ∧ (∀ a ∈ attrs, pathAttrOK a = true) ∧
      attrs.filter (fun a => !(a.nm == chs "fill")) ≠ [] := by
  simp only [itemOK, Bool.and_eq_true, List.all_eq_true] at h
  refine ⟨fun c hc => h.1.1 c hc, fun a ha => h.1.2 a ha, ?_⟩
  have := h.2
  simpa using this

lemma pathAttrOK_to_attrOK {a : SAttr} (h : pathAttrOK a = true) : attrOK a = true := by
  simp only [pathAttrOK, Bool.and_eq_true] at h
  exact h.1.1.1

lemma rAttrs_mem_ne_lt {attrs : List SAttr} (h : ∀ a ∈ attrs, attrOK a = true) :
    ∀ c ∈ rAttrs attrs, c ≠ '<' := by
  induction attrs with
  | nil => intro c hc; simp [rAttrs] at hc
  | cons a as ih =>
    intro c hc
    rcases List.mem_append.mp (by simpa [rAttrs] using hc) with hc | hc
    · rcases List.mem_cons.mp hc with rfl | hc
      · decide
      · obtain ⟨_, _, hnmp, hvlp⟩ := attrOK_facts (h a (by simp))
        rcases mem_attrBody hc with h1 | h1 | rfl | rfl
        · exact (plainChar_spec (hnmp c h1)).2.2.2.1
        · exact (plainChar_spec (hvlp c h1)).2.2.2.1
        · decide
        · decide
    · exact ih (fun b hb => h b (by simp [hb])) c hc

lemma st_ne_lt {u : Str} (h : ∀ c ∈ u, isST c = true) : ∀ c ∈ u, c ≠ '<' := by
  intro c hc
  have := h c hc
  simp only [isST, Bool.or_eq_true, decide_eq_true_eq] at this
  rcases this with rfl | rfl <;> decide

/-- A rendered `<path>` element contains no `"<g"` pair. -/
lemma noPair_path (ind : Str) (attrs : List SAttr) (short : Bool)
    (hind : ∀ c ∈ ind, isST c = true) (hattrs : ∀ a ∈ attrs, attrOK a = true)
    (nxt : Option Char) :
    noPair '<' 'g' (rItem (.pathI ind attrs short)) nxt = true := by
  have hre : rItem (.pathI ind attrs short) =
      ind ++ chs "<path" ++ rAttrs attrs ++
        ((if short then chs "/>" else chs "></path>") ++ ['\n']) := by
    simp [rItem, List.append_assoc]
  rw [hre, noPair_append, noPair_append, noPair_append]
  simp only [Bool.and_eq_true]
  refine ⟨⟨⟨?_, ?_⟩, ?_⟩, ?_⟩
  · exact noPair_of_all_ne (st_ne_lt hind) _
  · rw [noPair_irrel '<' 'g' (chs "<path") (by intro c hc; cases hc; decide)]
    decide
  · exact noPair_of_all_ne (rAttrs_mem_ne_lt hattrs) _
  · cases short
    · rw [show (if (false : Bool) then chs "/>" else chs "></path>") = chs "></path>" from rfl]
      rw [noPair_irrel '<' 'g' (chs "></path>" ++ ['\n']) (by intro c hc; cases hc; decide)]
      decide
    · rw [show (if (true : Bool) then chs "/>" else chs "></path>") = chs "/>" from rfl]
      rw [noPair_irrel '<' 'g' (chs "/>" ++ ['\n']) (by intro c hc; cases hc; decide)]
      decide

lemma nlCut_append_none (u : Str) (hu : ∀ c ∈ u, isST c = true) (v : Str)
    (hv : nlCut v = none) : nlCut (u ++ v) = none := by
  induction u with
  | nil => simpa using hv
  | cons c t ih =>
    have hcst : isST c = true := hu c (by simp)
    have hcnl : ¬ c = '\n' := by
      simp only [isST, Bool.or_eq_true, decide_eq_true_eq] at hcst
      rcases hcst with rfl | rfl <;> decide
    show nlCut (c :: (t ++ v)) = none
    rw [nlCut_cons, if_pos (isST_isWs hcst), ih (fun d hd => hu d (by simp [hd]))]
    simp [hcnl]

lemma nlCut_rItems_none (items : List SItem) (TL : Str)
    (hitems : ∀ it ∈ items, itemOK it = true) (hTLnl : nlCut TL = none) :
    nlCut (rItems items ++ TL) = none := by
  cases items with
  | nil => simpa [rItems] using hTLnl
  | cons it t =>
    cases it with
    | pathI ind attrs short =>
      have hind := (itemOK_path (hitems _ (List.mem_cons_self _ _))).1
      have hsh : rItems (SItem.pathI ind attrs short :: t) ++ TL =
          ind ++ (chs "<path" ++ ((rAttrs attrs ++
            ((if short then chs "/>" else chs "></path>") ++ ['\n'])) ++ (rItems t ++ TL))) := by
        simp [rItems, rItem, List.append_assoc]
      rw [hsh]
      refine nlCut_append_none ind hind _ ?_
      rw [show chs "<path" ++ ((rAttrs attrs ++
          ((if short then chs "/>" else chs "></path>") ++ ['\n'])) ++ (rItems t ++ TL)) =
        '<' :: (chs "path" ++ ((rAttrs attrs ++
          ((if short then chs "/>" else chs "></path>") ++ ['\n'])) ++ (rItems t ++ TL))) from rfl]
      rfl
    | gI ind inner =>
      have hind := (itemOK_g (hitems _ (List.mem_cons_self _ _))).1
      have hsh : rItems (SItem.gI ind inner :: t) ++ TL =
          ind ++ (chs "<g>" ++ (inner ++ (chs "</g>" ++ ('\n' :: (rItems t ++ TL))))) := by
        simp [rItems, rItem, List.append_assoc]
      rw [hsh]
      refine nlCut_append_none ind hind _ ?_
      rw [show chs "<g>" ++ (inner ++ (chs "</g>" ++ ('\n' :: (rItems t ++ TL)))) =
        '<' :: ('g' :: '>' :: (inner ++ (chs "</g>" ++ ('\n' :: (rItems t ++ TL))))) from rfl]
      rfl

/-- `empty_g_re` matches exactly the rendered empty `<g>` element (with
its trailing newline), provided the following text opens with no
further newline inside its whitespace prefix. -/
lemma emptyGMatchLen_gI (inner REST : Str) (hne : inner ≠ [])
    (hws : ∀ c ∈ inner, isWs c = true) (hnl : nlCut REST = none) :
    emptyGMatchLen (chs "<g>" ++ (inner ++ (chs "</g>" ++ '\n' :: REST))) =
      some (inner.length + 8) := by
  unfold emptyGMatchLen
  rw [if_pos (isPref_append_self _ _)]
  have hd3 : (chs "<g>" ++ (inner ++ (chs "</g>" ++ '\n' :: REST))).drop 3 =
      inner ++ (chs "</g>" ++ '\n' :: REST) := by
    rw [show (3 : Nat) = (chs "<g>").length from rfl]
    exact List.drop_left _ _
  rw [hd3]
  have hwsl : wsLen (inner ++ (chs "</g>" ++ '\n' :: REST)) = inner.length := by
    rw [show inner ++ (chs "</g>" ++ '\n' :: REST) =
      inner ++ '<' :: ('/' :: 'g' :: '>' :: ('\n' :: REST)) from rfl]
    exact wsLen_stop inner hws '<' (by decide) _
  rw [hwsl]
  have hdi : (inner ++ (chs "</g>" ++ '\n' :: REST)).drop inner.length =
      chs "</g>" ++ '\n' :: REST := List.drop_left _ _
  rw [hdi]
  rw [if_pos ⟨Nat.succ_le_of_lt (List.length_pos.mpr hne), isPref_append_self _ _⟩]
  have hdi4 : (inner ++ (chs "</g>" ++ '\n' :: REST)).drop (inner.length + 4) =
      '\n' :: REST := by
    rw [show inner ++ (chs "</g>" ++ '\n' :: REST) =
      (inner ++ chs "</g>") ++ '\n' :: REST by simp [List.append_assoc]]
    rw [show inner.length + 4 = (inner ++ chs "</g>").length + 0 by
      simp [show (chs "</g>").length = 4 from rfl]]
    rw [drop_append_len]
    rfl
  rw [hdi4]
  rw [nlCut_cons, if_pos (by decide), hnl]
  show some (3 + inner.length + 4 + 1) = _
  congr 1
  omega

/-- The `empty_g_re` pass over the rendered body. -/
lemma subEmptyG_items (items : List SItem) (TL : Str)
    (hitems : ∀ it ∈ items, itemOK it = true)
    (hTLnp : noPair '<' 'g' TL none = true)
    (hTLnl : nlCut TL = none) :
    subEmptyGAux 0 (rItems items ++ TL) = rItems₂ items ++ TL := by
  induction items with
  | nil =>
    show subEmptyGAux 0 TL = TL
    exact subEmptyG_id hTLnp
  | cons it t ih =>
    cases it with
    | pathI ind attrs short =>
      have hOK := itemOK_path (hitems _ (List.mem_cons_self _ _))
      have hattrs : ∀ a ∈ attrs, attrOK a = true :=
        fun a ha => pathAttrOK_to_attrOK (hOK.2.1 a ha)
      rw [show rItems (SItem.pathI ind attrs short :: t) ++ TL =
        rItem (.pathI ind attrs short) ++ (rItems t ++ TL) by simp [rItems, List.append_assoc]]
      rw [subEmptyG_noPair _ _ (noPair_path ind attrs short hOK.1 hattrs _)]
      rw [ih (fun b hb => hitems b (by simp [hb]))]
      simp [rItems₂, rItem₂, List.append_assoc]
    | gI ind inner =>
      have hOK := itemOK_g (hitems _ (List.mem_cons_self _ _))
      have hstep1 : rItems (SItem.gI ind inner :: t) ++ TL =
          ind ++ (chs "<g>" ++ (inner ++ (chs "</g>" ++ ('\n' :: (rItems t ++ TL))))) := by
        simp [rItems, rItem, List.append_assoc]
      rw [hstep1]
      rw [subEmptyG_noPair ind _ (noPair_of_all_ne (st_ne_lt hOK.1) _)]
      have hml := emptyGMatchLen_gI inner (rItems t ++ TL) hOK.2.1 hOK.2.2
        (nlCut_rItems_none t TL (fun b hb => hitems b (by simp [hb])) hTLnl)
      have hcons : chs "<g>" ++ (inner ++ (chs "</g>" ++ ('\n' :: (rItems t ++ TL)))) =
          '<' :: (('g' :: '>' :: (inner ++ (chs "</g>" ++ ['\n']))) ++ (rItems t ++ TL)) := by
        show '<' :: ('g' :: '>' :: (inner ++ (chs "</g>" ++ ('\n' :: (rItems t ++ TL))))) = _
        simp [List.append_assoc]
      rw [hcons, subEmptyGAux_zero_cons]
      have hml2 : emptyGMatchLen ('<' :: (('g' :: '>' :: (inner ++ (chs "</g>" ++ ['\n']))) ++
          (rItems t ++ TL))) = some (inner.length + 8) := by
        rw [← hcons]
        exact hml
      rw [hml2]
      show ind ++ subEmptyGAux (inner.length + 8 - 1)
        (('g' :: '>' :: (inner ++ (chs "</g>" ++ ['\n']))) ++ (rItems t ++ TL)) = _
      have hlen : inner.length + 8 - 1 =
          ('g' :: '>' :: (inner ++ (chs "</g>" ++ ['\n']))).length := by
        simp [show (chs "</g>").length = 4 from rfl]
      rw [hlen, subEmptyGAux_skip]
      rw [ih (fun b hb => hitems b (by simp [hb]))]
      simp [rItems₂, rItem₂, List.append_assoc]

/-! ### The `fill_re` pass over the rendered body -/

lemma subAttr_id_noPair (n : Str) (c₁ : Char) (n'' : Str) (hn : n = c₁ :: n'')
    {s : Str} (h : noPair ' ' c₁ s none = true) : subAttr n s = s := by
  subst hn
  induction s with
  | nil => rfl
  | cons c t ih =>
    obtain ⟨h1, h2⟩ := noPair_head h
    rw [headOr_none] at h1
    have hf : isPref (attrPat (c₁ :: n'')) (c :: t) = false := by
      show isPref (' ' :: c₁ :: (n'' ++ '=' :: '"' :: [])) (c :: t) = false
      exact isPref_false_of_pair ' ' c₁ _ c t h1
    show subAttrAux _ 0 (c :: t) = c :: t
    rw [subAttrAux_zero_cons, attrMatchLen_none_of_not_isPref hf]
    show c :: subAttr (c₁ :: n'') t = c :: t
    rw [ih h2]

lemma subLit_id_noPair (p r : Str) (c₀ c₁ : Char) (p'' : Str) (hp : p = c₀ :: c₁ :: p'')
    {s : Str} (h : noPair c₀ c₁ s none = true) : subLit p r s = s := by
  subst hp
  induction s with
  | nil => rfl
  | cons c t ih =>
    obtain ⟨h1, h2⟩ := noPair_head h
    rw [headOr_none] at h1
    have hf : isPref (c₀ :: c₁ :: p'') (c :: t) = false :=
      isPref_false_of_pair c₀ c₁ _ c t h1
    show subLitAux _ r 0 (c :: t) = c :: t
    rw [subLitAux_zero_cons, if_neg (by simp [hf])]
    show c :: subLit (c₀ :: c₁ :: p'') r t = c :: t
    rw [ih h2]

/-- A whitespace run contains no `" c₁"` pair for non-whitespace `c₁`,
whatever the lookahead short of `c₁` itself (each space is followed by
another whitespace character or the lookahead). -/
lemma noPair_ws_all (c₀ c₁ : Char) (hc₁ : isWs c₁ = false) (u : Str)
    (hu : ∀ c ∈ u, isWs c = true) (nxt : Option Char) (hnxt : nxt ≠ some c₁) :
    noPair c₀ c₁ u nxt = true := by
  induction u with
  | nil => rfl
  | cons c t ih =>
    simp only [noPair, Bool.and_eq_true, Bool.or_eq_true, Bool.not_eq_true',
      beq_eq_false_iff_ne, ne_eq]
    refine ⟨Or.inr ?_, ih (fun d hd => hu d (by simp [hd]))⟩
    cases t with
    | nil => simpa [headOr] using hnxt
    | cons d t' =>
      have hd : isWs d = true := hu d (by simp)
      show ¬ headOr (d :: t') nxt = some c₁
      intro he
      rw [show headOr (d :: t') nxt = some d from rfl] at he
      rw [Option.some.inj he] at hd
      rw [hc₁] at hd
      exact absurd hd (by decide)

lemma headOr_ne_of_st (u : Str) (hu : ∀ c ∈ u, isST c = true) (x : Option Char)
    (c₁ : Char) (hc₁ : isST c₁ = false) (hx : x ≠ some c₁) : headOr u x ≠ some c₁ := by
  cases u with
  | nil => exact hx
  | cons c t =>
    show ¬ some c = some c₁
    intro he
    have hc : isST c = true := hu c (by simp)
    rw [Option.some.inj he] at hc
    rw [hc₁] at hc
    exact absurd hc (by decide)

lemma headOr_ws_ne (u : Str) (hu : ∀ c ∈ u, isWs c = true) (c₁ : Char)
    (hc₁ : isWs c₁ = false) : ¬ headOr u none = some c₁ := by
  cases u with
  | nil => exact fun he => Option.noConfusion he
  | cons c t =>
    intro he
    have hc : isWs c = true := hu c (by simp)
    rw [show headOr (c :: t) none = some c from rfl] at he
    rw [Option.some.inj he] at hc
    rw [hc₁] at hc
    exact absurd hc (by decide)

lemma head_rItems₂_ne (c₁ : Char) (hc₁ : isST c₁ = false) (hc₁' : c₁ ≠ '<') :
    ∀ (items : List SItem) (TL : Str),
    (∀ it ∈ items, itemOK it = true) → TL.head? ≠ some c₁ →
    (rItems₂ items ++ TL).head? ≠ some c₁ := by
  intro items
  induction items with
  | nil => intro TL _ hTL; simpa [rItems₂] using hTL
  | cons it t ih =>
    intro TL hitems hTL
    cases it with
    | pathI ind attrs short =>
      have hind := (itemOK_path (hitems _ (List.mem_cons_self _ _))).1
      have hsh : rItems₂ (SItem.pathI ind attrs short :: t) ++ TL =
          ind ++ (chs "<path" ++ (rAttrs attrs ++
            ((if short then chs "/>" else chs "></path>") ++
              ('\n' :: (rItems₂ t ++ TL))))) := by
        simp [rItems₂, rItem₂, rItem, List.append_assoc]
      rw [hsh, head?_append_eq_headOr]
      refine headOr_ne_of_st ind hind _ c₁ hc₁ ?_
      show ¬ some '<' = some c₁
      intro he
      exact hc₁' (Option.some.inj he).symm
    | gI ind inner =>
      have hind := (itemOK_g (hitems _ (List.mem_cons_self _ _))).1
      have hsh : rItems₂ (SItem.gI ind inner :: t) ++ TL =
          ind ++ (rItems₂ t ++ TL) := by
        simp [rItems₂, rItem₂, List.append_assoc]
      rw [hsh, head?_append_eq_headOr]
      exact headOr_ne_of_st ind hind _ c₁ hc₁
        (ih TL (fun b hb => hitems b (by simp [hb])) hTL)

/-- The `fill_re` pass over the body after the `empty_g_re` pass:
`fill` attributes of `<path>` elements are removed, everything else is
untouched. -/
lemma subAttr_fill_items (items : List SItem) (TL : Str)
    (hitems : ∀ it ∈ items, itemOK it = true)
    (hTLnp : noPair ' ' 'f' TL none = true)
    (hTLh : TL.head? ≠ some 'f') :
    subAttr (chs "fill") (rItems₂ items ++ TL) = rItems₃ items ++ TL := by
  induction items with
  | nil =>
    show subAttr (chs "fill") TL = TL
    exact subAttr_id_noPair _ 'f' (chs "ill") rfl hTLnp
  | cons it t ih =>
    cases it with
    | pathI ind attrs short =>
      have hOK := itemOK_path (hitems _ (List.mem_cons_self _ _))
      have hattrs : ∀ a ∈ attrs, attrOK a = true :=
        fun a ha => pathAttrOK_to_attrOK (hOK.2.1 a ha)
      have hsh : rItems₂ (SItem.pathI ind attrs short :: t) ++ TL =
          ind ++ (chs "<path" ++ (rAttrs attrs ++
            (((if short then chs "/>" else chs "></path>") ++ ['\n']) ++
              (rItems₂ t ++ TL)))) := by
        simp [rItems₂, rItem₂, rItem, List.append_assoc]
      rw [hsh]
      rw [subAttr_noPair (chs "fill") 'f' (chs "ill") rfl ind _
        (noPair_ws_all ' ' 'f' (by decide) ind (fun c hc => isST_isWs (hOK.1 c hc)) _
          (by show ¬ some '<' = some 'f'; intro he; exact absurd (Option.some.inj he) (by decide)))]
      rw [subAttr_pass_chunk (chs "fill") (chs "<path") _ (by decide)]
      rw [subAttr_rAttrs (chs "fill") attrs _ hattrs (by decide)]
      rw [subAttr_pass_chunk (chs "fill")
        ((if short then chs "/>" else chs "></path>") ++ ['\n']) _
        (by cases short <;> decide)]
      rw [ih (fun b hb => hitems b (by simp [hb]))]
      simp [rItems₃, rItem₃, rAttrsF, List.append_assoc]
    | gI ind inner =>
      have hOK := itemOK_g (hitems _ (List.mem_cons_self _ _))
      have hsh : rItems₂ (SItem.gI ind inner :: t) ++ TL =
          ind ++ (rItems₂ t ++ TL) := by
        simp [rItems₂, rItem₂, List.append_assoc]
      rw [hsh]
      rw [subAttr_noPair (chs "fill") 'f' (chs "ill") rfl ind _
        (noPair_ws_all ' ' 'f' (by decide) ind (fun c hc => isST_isWs (hOK.1 c hc)) _
          (head_rItems₂_ne 'f' (by decide) (by decide) t TL
            (fun b hb => hitems b (by simp [hb])) hTLh))]
      rw [ih (fun b hb => hitems b (by simp [hb]))]
      simp [rItems₃, rItem₃, List.append_assoc]

/-! ### The `path_close_tag_re` pass over the rendered body -/

lemma st_ne_gt {u : Str} (h : ∀ c ∈ u, isST c = true) : ∀ c ∈ u, c ≠ '>' := by
  intro c hc
  have := h c hc
  simp only [isST, Bool.or_eq_true, decide_eq_true_eq] at this
  rcases this with rfl | rfl <;> decide

lemma ws_ne_lt {u : Str} (h : ∀ c ∈ u, isWs c = true) : ∀ c ∈ u, c ≠ '<' := by
  intro c hc
  have := h c hc
  simp only [isWs, Bool.or_eq_true, decide_eq_true_eq] at this
  rcases this with ((((rfl | rfl) | rfl) | rfl) | rfl) | rfl <;> decide

lemma rAttrs_mem_ne_gt {attrs : List SAttr} (h : ∀ a ∈ attrs, attrOK a = true) :
    ∀ c ∈ rAttrs attrs, c ≠ '>' := by
  induction attrs with
  | nil => intro c hc; simp [rAttrs] at hc
  | cons a as ih =>
    intro c hc
    rcases List.mem_append.mp (by simpa [rAttrs] using hc) with hc | hc
    · rcases List.mem_cons.mp hc with rfl | hc
      · decide
      · obtain ⟨_, _, hnmp, hvlp⟩ := attrOK_facts (h a (by simp))
        rcases mem_attrBody hc with h1 | h1 | rfl | rfl
        · exact (plainChar_spec (hnmp c h1)).2.2.2.2.1
        · exact (plainChar_spec (hvlp c h1)).2.2.2.2.1
        · decide
        · decide
    · exact ih (fun b hb => h b (by simp [hb])) c hc

/-- The `path_close_tag_re` pass over the body after the `fill_re`
pass: each `></path>` close is shortened to `/>`. -/
lemma subLit_close_items (items : List SItem) (TL : Str)
    (hitems : ∀ it ∈ items, itemOK it = true)
    (hTLnp : noPair '>' '<' TL none = true) :
    subLit (chs "></path>") (chs "/>") (rItems₃ items ++ TL) = rItems₄ items ++ TL := by
  induction items with
  | nil =>
    show subLit (chs "></path>") (chs "/>") TL = TL
    exact subLit_id_noPair _ _ '>' '<' (chs "/path>") rfl hTLnp
  | cons it t ih =>
    cases it with
    | pathI ind attrs short =>
      have hOK := itemOK_path (hitems _ (List.mem_cons_self _ _))
      have hattrs : ∀ a ∈ attrs, attrOK a = true :=
        fun a ha => pathAttrOK_to_attrOK (hOK.2.1 a ha)
      have hattrsF : ∀ a ∈ attrs.filter (fun a => !(a.nm == chs "fill")), attrOK a = true :=
        fun a ha => hattrs a (List.mem_of_mem_filter ha)
      have hsh : rItems₃ (SItem.pathI ind attrs short :: t) ++ TL =
          (ind ++ (chs "<path" ++ rAttrsF attrs)) ++
            ((if short then chs "/>" else chs "></path>") ++
              ('\n' :: (rItems₃ t ++ TL))) := by
        simp [rItems₃, rItem₃, List.append_assoc]
      rw [hsh]
      have hchunk1 : ∀ c ∈ ind ++ (chs "<path" ++ rAttrsF attrs), c ≠ '>' := by
        intro c hc
        rcases List.mem_append.mp hc with hc | hc
        · exact st_ne_gt hOK.1 c hc
        · rcases List.mem_append.mp hc with hc | hc
          · intro he; subst he; revert hc; decide
          · exact rAttrs_mem_ne_gt hattrsF c hc
      rw [subLit_noPair (chs "></path>") (chs "/>") '>' '<' (chs "/path>") rfl _ _
        (noPair_of_all_ne hchunk1 _)]
      cases short with
      | true =>
        rw [show (if (true : Bool) then chs "/>" else chs "></path>") = chs "/>" from rfl]
        rw [show chs "/>" ++ ('\n' :: (rItems₃ t ++ TL)) =
          (chs "/>" ++ ['\n']) ++ (rItems₃ t ++ TL) by simp [List.append_assoc]]
        rw [subLit_noPair (chs "></path>") (chs "/>") '>' '<' (chs "/path>") rfl
          (chs "/>" ++ ['\n']) _
          (by
            rw [noPair_irrel '>' '<' (chs "/>" ++ ['\n']) (by intro c hc; cases hc; decide)]
            decide)]
        rw [ih (fun b hb => hitems b (by simp [hb]))]
        simp [rItems₄, rItem₄, List.append_assoc]
      | false =>
        rw [show (if (false : Bool) then chs "/>" else chs "></path>") = chs "></path>" from rfl]
        rw [show chs "></path>" ++ ('\n' :: (rItems₃ t ++ TL)) =
          ('>' :: chs "</path>") ++ ('\n' :: (rItems₃ t ++ TL)) from rfl]
        rw [show subLit (chs "></path>") (chs "/>") = subLit ('>' :: chs "</path>") (chs "/>")
          from rfl]
        rw [subLit_match_head '>' (chs "</path>") (chs "/>") ('\n' :: (rItems₃ t ++ TL))]
        rw [subLit_cons_passg (chs "/>") '>' (chs "</path>") rfl _ (by decide)]
        rw [show subLit ('>' :: chs "</path>") (chs "/>") (rItems₃ t ++ TL) =
          subLit (chs "></path>") (chs "/>") (rItems₃ t ++ TL) from rfl]
        rw [ih (fun b hb => hitems b (by simp [hb]))]
        simp [rItems₄, rItem₄, List.append_assoc]
    | gI ind inner =>
      have hOK := itemOK_g (hitems _ (List.mem_cons_self _ _))
      have hsh : rItems₃ (SItem.gI ind inner :: t) ++ TL =
          ind ++ (rItems₃ t ++ TL) := by
        simp [rItems₃, rItem₃, List.append_assoc]
      rw [hsh]
      rw [subLit_noPair (chs "></path>") (chs "/>") '>' '<' (chs "/path>") rfl ind _
        (noPair_of_all_ne (st_ne_gt hOK.1) _)]
      rw [ih (fun b hb => hitems b (by simp [hb]))]
      simp [rItems₄, rItem₄, List.append_assoc]

/-! ### The anchored `svg_open_tag_re` pass is the identity on the body -/

/-- The stream after the `></path>` pass: some leading whitespace, then
a first non-whitespace character that never starts `"<svg "`. -/
lemma rItems₄_shape (items : List SItem) (TL : Str)
    (hitems : ∀ it ∈ items, itemOK it = true)
    (hTL : ∃ u v, TL = u ++ '<' :: '/' :: v ∧ (∀ c ∈ u, isST c = true)) :
    ∃ u c v, rItems₄ items ++ TL = u ++ c :: v ∧ (∀ d ∈ u, isWs d = true) ∧
      isWs c = false ∧ isPref (chs "<svg ") (c :: v) = false := by
  induction items with
  | nil =>
    obtain ⟨u, v, hTLe, hu⟩ := hTL
    refine ⟨u, '<', '/' :: v, by simp [rItems₄, hTLe], fun d hd => isST_isWs (hu d hd),
      by decide, ?_⟩
    rw [show chs "<svg " = '<' :: 's' :: chs "vg " from rfl, isPref_cons_cons,
      isPref_head_ne _ _ (by decide)]
    simp
  | cons it t ih =>
    cases it with
    | pathI ind attrs short =>
      have hOK := itemOK_path (hitems _ (List.mem_cons_self _ _))
      refine ⟨ind, '<',
        chs "path" ++ (rAttrsF attrs ++ (chs "/>" ++ ('\n' :: (rItems₄ t ++ TL)))), ?_,
        fun d hd => isST_isWs (hOK.1 d hd), by decide, ?_⟩
      · have h1 : rItems₄ (SItem.pathI ind attrs short :: t) ++ TL =
            ind ++ (chs "<path" ++ (rAttrsF attrs ++ (chs "/>" ++ ('\n' :: (rItems₄ t ++ TL))))) := by
          simp [rItems₄, rItem₄, List.append_assoc]
        rw [h1]
        rfl
      · rw [show '<' :: (chs "path" ++ (rAttrsF attrs ++ (chs "/>" ++ ('\n' :: (rItems₄ t ++ TL))))) =
          '<' :: 'p' :: (chs "ath" ++ (rAttrsF attrs ++ (chs "/>" ++ ('\n' :: (rItems₄ t ++ TL)))))
          from rfl]
        rw [show chs "<svg " = '<' :: 's' :: chs "vg " from rfl, isPref_cons_cons,
          isPref_head_ne _ _ (by decide)]
        simp
    | gI ind inner =>
      have hOK := itemOK_g (hitems _ (List.mem_cons_self _ _))
      obtain ⟨u, c, v, hsh, hu, hc, hpref⟩ := ih (fun b hb => hitems b (by simp [hb]))
      refine ⟨ind ++ u, c, v, ?_, ?_, hc, hpref⟩
      · rw [show rItems₄ (SItem.gI ind inner :: t) ++ TL = ind ++ (rItems₄ t ++ TL) by
          simp [rItems₄, rItem₄, List.append_assoc]]
        rw [hsh]
        simp [List.append_assoc]
      · intro d hd
        rcases List.mem_append.mp hd with hd | hd
        · exact isST_isWs (hOK.1 d hd)
        · exact hu d hd

/-- Without `re.M`, `svg_open_tag_re = "^\s*<svg "` can only match at
position 0; on the body stream the first non-whitespace character never
starts `"<svg "`, so the pass is the identity. -/
lemma subAnchorWsSvg_body (items : List SItem) (TL : Str)
    (hitems : ∀ it ∈ items, itemOK it = true)
    (hTL : ∃ u v, TL = u ++ '<' :: '/' :: v ∧ (∀ c ∈ u, isST c = true)) :
    subAnchorWsSvg ('\n' :: (rItems₄ items ++ TL)) = '\n' :: (rItems₄ items ++ TL) := by
  obtain ⟨u, c, v, hsh, hu, hc, hpref⟩ := rItems₄_shape items TL hitems hTL
  unfold subAnchorWsSvg
  rw [show '\n' :: (rItems₄ items ++ TL) = ('\n' :: u) ++ c :: v by rw [hsh]; rfl]
  have hwsl : wsLen (('\n' :: u) ++ c :: v) = ('\n' :: u).length :=
    wsLen_stop ('\n' :: u)
      (by intro d hd; rcases List.mem_cons.mp hd with rfl | hd
          · decide
          · exact hu d hd) c hc v
  rw [hwsl, List.drop_left, if_neg (by simp [hpref])]

/-! ### The `path_open_tag_re` pass over the rendered body -/

lemma pathOpenMatchLen_none_cons (c : Char) (t : Str) (h1 : isST c = false)
    (h2 : c ≠ '<') : pathOpenMatchLen (c :: t) = none := by
  unfold pathOpenMatchLen
  rw [show stLen (c :: t) = 0 by rw [stLen_cons, h1]; simp]
  rw [List.drop_zero]
  rw [show chs "<path " = '<' :: chs "path " from rfl, isPref_head_ne _ _ (Ne.symm h2)]
  simp

lemma pathOpenMatchLen_none_ltslash (t : Str) : pathOpenMatchLen ('<' :: '/' :: t) = none := by
  unfold pathOpenMatchLen
  rw [show stLen ('<' :: '/' :: t) = 0 by rw [stLen_cons]; simp [isST]]
  rw [List.drop_zero]
  rw [show chs "<path " = '<' :: 'p' :: chs "ath " from rfl, isPref_cons_cons,
    isPref_head_ne _ _ (by decide)]
  simp

lemma stLen_append_st (u : Str) (hu : ∀ c ∈ u, isST c = true) (v : Str) :
    stLen (u ++ v) = u.length + stLen v := by
  induction u with
  | nil => simp
  | cons c t ih =>
    show stLen (c :: (t ++ v)) = (c :: t).length + stLen v
    rw [stLen_cons, hu c (by simp), if_pos rfl, ih (fun d hd => hu d (by simp [hd]))]
    simp only [List.length_cons]
    omega

lemma pathOpenMatchLen_st_none (u : Str) (hu : ∀ c ∈ u, isST c = true) (v : Str)
    (hv : pathOpenMatchLen v = none) : pathOpenMatchLen (u ++ v) = none := by
  have hpf : isPref (chs "<path ") (v.drop (stLen v)) = false := by
    by_cases hb : isPref (chs "<path ") (v.drop (stLen v)) = true
    · exfalso
      unfold pathOpenMatchLen at hv
      rw [if_pos hb] at hv
      exact Option.noConfusion hv
    · simpa using hb
  unfold pathOpenMatchLen
  rw [stLen_append_st u hu v, drop_append_len u v (stLen v), hpf]
  simp

lemma isPref_path_false_ws (s : Str) (hs : ∀ c ∈ s, isWs c = true) :
    isPref (chs "<path ") s = false := by
  cases s with
  | nil => rfl
  | cons c t =>
    have hc : c ≠ '<' := ws_ne_lt hs c (by simp)
    rw [show chs "<path " = '<' :: chs "path " from rfl]
    exact isPref_head_ne _ _ (Ne.symm hc)

lemma pathOpenMatchLen_none_ws (s : Str) (hs : ∀ c ∈ s, isWs c = true) :
    pathOpenMatchLen s = none := by
  unfold pathOpenMatchLen
  rw [isPref_path_false_ws (s.drop (stLen s)) (fun c hc => hs c (List.mem_of_mem_drop hc))]
  simp

lemma subPathOpen_pass_st (u : Str) (hu : ∀ c ∈ u, isST c = true) (rest : Str)
    (hrest : pathOpenMatchLen rest = none) :
    subPathOpenAux 0 (u ++ rest) = u ++ subPathOpenAux 0 rest := by
  induction u with
  | nil => rfl
  | cons c t ih =>
    show subPathOpenAux 0 (c :: (t ++ rest)) = c :: (t ++ subPathOpenAux 0 rest)
    have hml : pathOpenMatchLen (c :: (t ++ rest)) = none := by
      rw [show c :: (t ++ rest) = (c :: t) ++ rest from rfl]
      exact pathOpenMatchLen_st_none (c :: t) hu rest hrest
    rw [subPathOpenAux_zero_cons, hml, ih (fun d hd => hu d (by simp [hd]))]

lemma subPathOpen_pass_plain (chunk rest : Str)
    (h : ∀ c ∈ chunk, isST c = false ∧ c ≠ '<') :
    subPathOpenAux 0 (chunk ++ rest) = chunk ++ subPathOpenAux 0 rest := by
  induction chunk with
  | nil => rfl
  | cons c t ih =>
    show subPathOpenAux 0 (c :: (t ++ rest)) = c :: (t ++ subPathOpenAux 0 rest)
    rw [subPathOpenAux_zero_cons,
      pathOpenMatchLen_none_cons c _ (h c (by simp)).1 (h c (by simp)).2,
      ih (fun d hd => h d (by simp [hd]))]

lemma subPathOpen_id_ws (s : Str) (hs : ∀ c ∈ s, isWs c = true) :
    subPathOpenAux 0 s = s := by
  induction s with
  | nil => rfl
  | cons c t ih =>
    rw [subPathOpenAux_zero_cons, pathOpenMatchLen_none_ws (c :: t) hs,
      ih (fun d hd => hs d (by simp [hd]))]

lemma pathOpenMatchLen_match (u : Str) (hu : ∀ c ∈ u, isST c = true) (X : Str) :
    pathOpenMatchLen (u ++ (chs "<path " ++ X)) = some (u.length + 6) := by
  unfold pathOpenMatchLen
  have h1 : stLen (u ++ (chs "<path " ++ X)) = u.length := by
    rw [show chs "<path " ++ X = '<' :: (chs "path " ++ X) from rfl]
    exact stLen_stop u hu '<' (by decide) _
  rw [h1, List.drop_left, if_pos (isPref_append_self _ _)]

/-- The scanner at the start of a `[ \t]` run followed by `"<path "`:
the whole run and the tag open are consumed and replaced by the
four-space indent. -/
lemma subPathOpen_match (u : Str) (hu : ∀ c ∈ u, isST c = true) (X : Str) :
    subPathOpenAux 0 (u ++ (chs "<path " ++ X)) =
      chs "    <path " ++ subPathOpenAux 0 X := by
  cases u with
  | nil =>
    show subPathOpenAux 0 ('<' :: (chs "path " ++ X)) = _
    rw [subPathOpenAux_zero_cons]
    have hml : pathOpenMatchLen ('<' :: (chs "path " ++ X)) = some 6 :=
      pathOpenMatchLen_match [] (fun c hc => absurd hc (List.not_mem_nil c)) X
    rw [hml]
    show chs "    <path " ++ subPathOpenAux (6 - 1) (chs "path " ++ X) = _
    rw [show (6 : Nat) - 1 = (chs "path ").length from rfl, subPathOpenAux_skip]
  | cons c u' =>
    show subPathOpenAux 0 (c :: (u' ++ (chs "<path " ++ X))) = _
    rw [subPathOpenAux_zero_cons]
    have hml : pathOpenMatchLen (c :: (u' ++ (chs "<path " ++ X))) =
        some ((c :: u').length + 6) := pathOpenMatchLen_match (c :: u') hu X
    rw [hml]
    show chs "    <path " ++
      subPathOpenAux ((c :: u').length + 6 - 1) (u' ++ (chs "<path " ++ X)) = _
    have hlen : (c :: u').length + 6 - 1 = (u' ++ chs "<path ").length := by
      simp only [List.length_cons, List.length_append,
        show (chs "<path ").length = 6 from rfl]
      omega
    rw [hlen, show u' ++ (chs "<path " ++ X) = (u' ++ chs "<path ") ++ X by
      simp [List.append_assoc]]
    rw [subPathOpenAux_skip]

lemma subPathOpen_pass_rAttrs (attrs : List SAttr) (hattrs : ∀ a ∈ attrs, attrOK a = true)
    (v : Str) (hv : pathOpenMatchLen v = none) :
    subPathOpenAux 0 (rAttrs attrs ++ v) = rAttrs attrs ++ subPathOpenAux 0 v := by
  induction attrs with
  | nil => simp [rAttrs]
  | cons a as ih =>
    have hOK := hattrs a (by simp)
    obtain ⟨hnm, hvl, hnmp, hvlp⟩ := attrOK_facts hOK
    have hplain : ∀ c ∈ attrBody a, isST c = false ∧ c ≠ '<' := by
      intro c hc
      rcases mem_attrBody hc with h1 | h1 | rfl | rfl
      · exact ⟨(plainChar_spec (hnmp c h1)).2.2.2.2.2.2, (plainChar_spec (hnmp c h1)).2.2.2.1⟩
      · exact ⟨(plainChar_spec (hvlp c h1)).2.2.2.2.2.2, (plainChar_spec (hvlp c h1)).2.2.2.1⟩
      · exact ⟨by decide, by decide⟩
      · exact ⟨by decide, by decide⟩
    have hbody : pathOpenMatchLen (attrBody a ++ (rAttrs as ++ v)) = none := by
      cases hnm' : a.nm with
      | nil => exact absurd hnm' hnm
      | cons n₀ nt =>
        have hn₀ : plainChar n₀ = true := hnmp n₀ (by rw [hnm']; simp)
        have hshape : attrBody a ++ (rAttrs as ++ v) =
            n₀ :: ((nt ++ '=' :: '"' :: (a.vl ++ ['"'])) ++ (rAttrs as ++ v)) := by
          show (a.nm ++ '=' :: '"' :: (a.vl ++ ['"'])) ++ (rAttrs as ++ v) = _
          rw [hnm']
          simp [List.append_assoc]
        rw [hshape]
        exact pathOpenMatchLen_none_cons n₀ _ (plainChar_spec hn₀).2.2.2.2.2.2
          (plainChar_spec hn₀).2.2.2.1
    have hstep : rAttrs (a :: as) ++ v = ' ' :: (attrBody a ++ (rAttrs as ++ v)) := by
      simp [rAttrs, rAttr, List.append_assoc]
    rw [hstep]
    rw [show (' ' :: (attrBody a ++ (rAttrs as ++ v))) =
      [' '] ++ (attrBody a ++ (rAttrs as ++ v)) from rfl]
    rw [subPathOpen_pass_st [' '] (by intro c hc; rcases List.mem_singleton.mp hc with rfl; rfl)
      _ hbody]
    rw [subPathOpen_pass_plain (attrBody a) _ hplain]
    rw [ih (fun b hb => hattrs b (by simp [hb]))]
    simp [rAttrs, rAttr, List.append_assoc]

/-- The `path_open_tag_re` pass over the body after the anchored
re-indent pass: each `<path>` element is re-indented to four spaces,
swallowing any immediately preceding `[ \t]` run (in particular the
indentation left behind by a removed empty `<g>`). -/
lemma subPathOpen_items_aux (TL : Str)
    (hTLnone : pathOpenMatchLen TL = none) (hTLid : subPathOpenAux 0 TL = TL) :
    ∀ (items : List SItem) (run : Str), (∀ c ∈ run, isST c = true) →
    (∀ it ∈ items, itemOK it = true) →
    subPathOpenAux 0 (run ++ (rItems₄ items ++ TL)) =
      (if anyPath items then [] else run) ++ (rItems₅ items ++ TL) := by
  intro items
  induction items with
  | nil =>
    intro run hrun _
    have h1 : rItems₄ ([] : List SItem) ++ TL = TL := by simp [rItems₄]
    rw [h1, subPathOpen_pass_st run hrun TL hTLnone, hTLid]
    simp [rItems₅, anyPath]
  | cons it t ih =>
    intro run hrun hitems
    cases it with
    | pathI ind attrs short =>
      have hOK := itemOK_path (hitems _ (List.mem_cons_self _ _))
      rcases hfa : attrs.filter (fun a => !(a.nm == chs "fill")) with _ | ⟨a₀, restf⟩
      · exact absurd hfa hOK.2.2
      have hattrsF : ∀ a ∈ a₀ :: restf, attrOK a = true := by
        intro a ha
        have hmem : a ∈ attrs.filter (fun a => !(a.nm == chs "fill")) := by
          rw [hfa]; exact ha
        exact pathAttrOK_to_attrOK (hOK.2.1 a (List.mem_of_mem_filter hmem))
      have hOK₀ : attrOK a₀ = true := hattrsF a₀ (by simp)
      obtain ⟨hnm₀, hvl₀, hnmp₀, hvlp₀⟩ := attrOK_facts hOK₀
      have hplain₀ : ∀ c ∈ attrBody a₀, isST c = false ∧ c ≠ '<' := by
        intro c hc
        rcases mem_attrBody hc with h1 | h1 | rfl | rfl
        · exact ⟨(plainChar_spec (hnmp₀ c h1)).2.2.2.2.2.2, (plainChar_spec (hnmp₀ c h1)).2.2.2.1⟩
        · exact ⟨(plainChar_spec (hvlp₀ c h1)).2.2.2.2.2.2, (plainChar_spec (hvlp₀ c h1)).2.2.2.1⟩
        · exact ⟨by decide, by decide⟩
        · exact ⟨by decide, by decide⟩
      have hsh : run ++ (rItems₄ (SItem.pathI ind attrs short :: t) ++ TL) =
          (run ++ ind) ++ (chs "<path " ++ (attrBody a₀ ++ (rAttrs restf ++
            (chs "/>" ++ ('\n' :: (rItems₄ t ++ TL)))))) := by
        have h1 : run ++ (rItems₄ (SItem.pathI ind attrs short :: t) ++ TL) =
            (run ++ ind) ++ (chs "<path" ++ (' ' :: (attrBody a₀ ++ (rAttrs restf ++
              (chs "/>" ++ ('\n' :: (rItems₄ t ++ TL))))))) := by
          simp [rItems₄, rItem₄, rAttrsF, hfa, rAttrs, rAttr, List.append_assoc]
        rw [h1]
        rfl
      rw [hsh]
      rw [subPathOpen_match (run ++ ind) (by
        intro c hc
        rcases List.mem_append.mp hc with hc | hc
        · exact hrun c hc
        · exact hOK.1 c hc) _]
      rw [subPathOpen_pass_plain (attrBody a₀) _ hplain₀]
      have hslash : pathOpenMatchLen (chs "/>" ++ ('\n' :: (rItems₄ t ++ TL))) = none := by
        rw [show chs "/>" ++ ('\n' :: (rItems₄ t ++ TL)) =
          '/' :: ('>' :: ('\n' :: (rItems₄ t ++ TL))) from rfl]
        exact pathOpenMatchLen_none_cons '/' _ (by decide) (by decide)
      rw [subPathOpen_pass_rAttrs restf (fun b hb => hattrsF b (by simp [hb])) _ hslash]
      rw [show chs "/>" ++ ('\n' :: (rItems₄ t ++ TL)) =
        (chs "/>" ++ ['\n']) ++ (rItems₄ t ++ TL) by simp [List.append_assoc]]
      rw [subPathOpen_pass_plain (chs "/>" ++ ['\n']) _ (by decide)]
      have hih := ih [] (fun c hc => absurd hc (List.not_mem_nil c))
        (fun b hb => hitems b (by simp [hb]))
      rw [show ([] : Str) ++ (rItems₄ t ++ TL) = rItems₄ t ++ TL from rfl] at hih
      rw [ite_self, List.nil_append] at hih
      rw [hih]
      have h2 : (if anyPath (SItem.pathI ind attrs short :: t) then ([] : Str) else run) ++
          (rItems₅ (SItem.pathI ind attrs short :: t) ++ TL) =
          chs "    <path " ++ (attrBody a₀ ++ (rAttrs restf ++
            ((chs "/>" ++ ['\n']) ++ (rItems₅ t ++ TL)))) := by
        have h3 : (if anyPath (SItem.pathI ind attrs short :: t) then ([] : Str) else run) ++
            (rItems₅ (SItem.pathI ind attrs short :: t) ++ TL) =
            chs "    <path" ++ (' ' :: (attrBody a₀ ++ (rAttrs restf ++
              (chs "/>" ++ ('\n' :: (rItems₅ t ++ TL)))))) := by
          simp [rItems₅, anyPath, rAttrsF, hfa, rAttrs, rAttr, List.append_assoc]
        rw [h3]
        rfl
      rw [h2]
    | gI ind inner =>
      have hOK := itemOK_g (hitems _ (List.mem_cons_self _ _))
      have hsh : run ++ (rItems₄ (SItem.gI ind inner :: t) ++ TL) =
          (run ++ ind) ++ (rItems₄ t ++ TL) := by
        simp [rItems₄, rItem₄, List.append_assoc]
      rw [hsh]
      rw [ih (run ++ ind) (by
        intro c hc
        rcases List.mem_append.mp hc with hc | hc
        · exact hrun c hc
        · exact hOK.1 c hc) (fun b hb => hitems b (by simp [hb]))]
      by_cases hap : anyPath t
      · simp [anyPath, rItems₅, hap]
      · simp [anyPath, rItems₅, hap, List.append_assoc]

lemma subPathOpen_items (items : List SItem) (TL : Str)
    (hitems : ∀ it ∈ items, itemOK it = true)
    (hTLnone : pathOpenMatchLen TL = none) (hTLid : subPathOpenAux 0 TL = TL) :
    subPathOpenAux 0 ('\n' :: (rItems₄ items ++ TL)) =
      '\n' :: (rItems₅ items ++ TL) := by
  rw [subPathOpenAux_zero_cons, pathOpenMatchLen_none_cons '\n' _ (by decide) (by decide)]
  have h := subPathOpen_items_aux TL hTLnone hTLid items []
    (fun c hc => absurd hc (List.not_mem_nil c)) hitems
  rw [show ([] : Str) ++ (rItems₄ items ++ TL) = rItems₄ items ++ TL from rfl] at h
  rw [ite_self, List.nil_append] at h
  rw [h]

/-! ### The `svg_close_tag_re` pass and the newline guards -/

lemma noPair_rItems₅ (items : List SItem) (hitems : ∀ it ∈ items, itemOK it = true)
    (nxt : Option Char) : noPair '<' '/' (rItems₅ items) nxt = true := by
  induction items with
  | nil => rfl
  | cons it t ih =>
    cases it with
    | pathI ind attrs short =>
      have hOK := itemOK_path (hitems _ (List.mem_cons_self _ _))
      have hattrsF : ∀ a ∈ attrs.filter (fun a => !(a.nm == chs "fill")), attrOK a = true :=
        fun a ha => pathAttrOK_to_attrOK (hOK.2.1 a (List.mem_of_mem_filter ha))
      have hsh : rItems₅ (SItem.pathI ind attrs short :: t) =
          chs "    <path" ++ (rAttrsF attrs ++ ((chs "/>" ++ ['\n']) ++ rItems₅ t)) := by
        simp [rItems₅, List.append_assoc]
      rw [hsh, noPair_append, noPair_append, noPair_append]
      simp only [Bool.and_eq_true]
      refine ⟨?_, ?_, ?_, ?_⟩
      · rw [noPair_irrel '<' '/' (chs "    <path") (by intro c hc; cases hc; decide)]
        decide
      · exact noPair_of_all_ne (rAttrs_mem_ne_lt hattrsF) _
      · exact noPair_of_all_ne (by decide) _
      · exact ih (fun b hb => hitems b (by simp [hb]))
    | gI ind inner =>
      have hOK := itemOK_g (hitems _ (List.mem_cons_self _ _))
      have hsh : rItems₅ (SItem.gI ind inner :: t) =
          (if anyPath t then [] else ind) ++ rItems₅ t := by
        simp [rItems₅]
      rw [hsh, noPair_append]
      simp only [Bool.and_eq_true]
      refine ⟨?_, ih (fun b hb => hitems b (by simp [hb]))⟩
      by_cases hap : anyPath t
      · rw [if_pos hap]; rfl
      · rw [if_neg hap]
        exact noPair_of_all_ne (st_ne_lt hOK.1) _

/-- The `svg_close_tag_re` pass: the single `</svg>` close is
re-indented to two spaces, everything else is untouched. -/
lemma subLit_svgclose_items (items : List SItem) (closeInd trailing : Str)
    (hitems : ∀ it ∈ items, itemOK it = true)
    (hclose : ∀ c ∈ closeInd, isST c = true)
    (htrail : ∀ c ∈ trailing, isWs c = true) :
    subLit (chs "</svg>") (chs "  </svg>")
        ('\n' :: (rItems₅ items ++ (closeInd ++ (chs "</svg>" ++ trailing)))) =
      '\n' :: (rItems₅ items ++ (closeInd ++ (chs "  </svg>" ++ trailing))) := by
  rw [@subLit_cons_passg (chs "</svg>") (chs "  </svg>") '<' (chs "/svg>") rfl '\n' _ (by decide)]
  rw [show rItems₅ items ++ (closeInd ++ (chs "</svg>" ++ trailing)) =
    (rItems₅ items ++ closeInd) ++ (chs "</svg>" ++ trailing) by simp [List.append_assoc]]
  rw [subLit_noPair (chs "</svg>") (chs "  </svg>") '<' '/' (chs "svg>") rfl
    (rItems₅ items ++ closeInd) _ (by
      rw [noPair_append]
      simp only [Bool.and_eq_true]
      exact ⟨noPair_rItems₅ items hitems _, noPair_of_all_ne (st_ne_lt hclose) _⟩)]
  rw [show chs "</svg>" ++ trailing = ('<' :: chs "/svg>") ++ trailing from rfl]
  rw [show subLit (chs "</svg>") (chs "  </svg>") =
    subLit ('<' :: chs "/svg>") (chs "  </svg>") from rfl]
  rw [subLit_match_head '<' (chs "/svg>") (chs "  </svg>") trailing]
  rw [@subLit_id_of_no_head ('<' :: chs "/svg>") (chs "  </svg>") '<' (chs "/svg>") rfl
    trailing (ws_ne_lt htrail)]
  simp [List.append_assoc]

/-- The whole body substitution chain on a rendered icon body. -/
lemma cleanRest0_renders (items : List SItem) (closeInd trailing : Str)
    (hitems : ∀ it ∈ items, itemOK it = true)
    (hclose : ∀ c ∈ closeInd, isST c = true)
    (htrail : ∀ c ∈ trailing, isWs c = true) :
    cleanRest0 ('\n' :: (rItems items ++ (closeInd ++ (chs "</svg>" ++ trailing)))) =
      '\n' :: (rItems₅ items ++ (closeInd ++ (chs "  </svg>" ++ trailing))) := by
  have hnp_g : noPair '<' 'g' (closeInd ++ (chs "</svg>" ++ trailing)) none = true := by
    rw [noPair_append, noPair_append]
    simp only [Bool.and_eq_true]
    refine ⟨?_, ?_, ?_⟩
    · exact noPair_of_all_ne (st_ne_lt hclose) _
    · rw [noPair_irrel '<' 'g' (chs "</svg>") (by intro c hc; cases hc; decide)]
      decide
    · exact noPair_of_all_ne (ws_ne_lt htrail) _
  have hnl : nlCut (closeInd ++ (chs "</svg>" ++ trailing)) = none :=
    nlCut_none_st closeInd hclose '<' (by decide) (chs "/svg>" ++ trailing)
  have hnp_f : noPair ' ' 'f' (closeInd ++ (chs "</svg>" ++ trailing)) none = true := by
    rw [noPair_append, noPair_append]
    simp only [Bool.and_eq_true]
    refine ⟨?_, ?_, ?_⟩
    · refine noPair_ws_all ' ' 'f' (by decide) closeInd
        (fun c hc => isST_isWs (hclose c hc)) _ ?_
      show ¬ some '<' = some 'f'
      intro he
      exact absurd (Option.some.inj he) (by decide)
    · exact noPair_of_all_ne (by decide) _
    · exact noPair_ws_all ' ' 'f' (by decide) trailing htrail none
        (fun he => Option.noConfusion he)
  have hhead_f : (closeInd ++ (chs "</svg>" ++ trailing)).head? ≠ some 'f' := by
    rw [head?_append_eq_headOr]
    refine headOr_ne_of_st closeInd hclose _ 'f' (by decide) ?_
    show ¬ some '<' = some 'f'
    intro he
    exact absurd (Option.some.inj he) (by decide)
  have hnp_gt : noPair '>' '<' (closeInd ++ (chs "</svg>" ++ trailing)) none = true := by
    rw [show chs "</svg>" = chs "</svg" ++ ['>'] from rfl]
    rw [show (chs "</svg" ++ ['>']) ++ trailing = chs "</svg" ++ (['>'] ++ trailing) by
      simp [List.append_assoc]]
    rw [noPair_append, noPair_append, noPair_append]
    simp only [Bool.and_eq_true]
    refine ⟨?_, ?_, ?_, ?_⟩
    · exact noPair_of_all_ne (st_ne_gt hclose) _
    · rw [noPair_irrel '>' '<' (chs "</svg") (by intro c hc; cases hc; decide)]
      decide
    · have hne : ¬ headOr trailing none = some '<' := headOr_ws_ne trailing htrail '<' (by decide)
      show ((!(('>' : Char) == '>') || !(headOr ([] : Str) (headOr trailing none) == some '<')) &&
        noPair '>' '<' [] (headOr trailing none)) = true
      rw [show headOr ([] : Str) (headOr trailing none) = headOr trailing none from rfl]
      simp [noPair, hne]
    · exact noPair_ws_all '>' '<' (by decide) trailing htrail none
        (fun he => Option.noConfusion he)
  have hTLnone : pathOpenMatchLen (closeInd ++ (chs "</svg>" ++ trailing)) = none :=
    pathOpenMatchLen_st_none closeInd hclose (chs "</svg>" ++ trailing)
      (pathOpenMatchLen_none_ltslash (chs "svg>" ++ trailing))
  have hTLid : subPathOpenAux 0 (closeInd ++ (chs "</svg>" ++ trailing)) =
      closeInd ++ (chs "</svg>" ++ trailing) := by
    rw [subPathOpen_pass_st closeInd hclose (chs "</svg>" ++ trailing)
      (pathOpenMatchLen_none_ltslash (chs "svg>" ++ trailing))]
    rw [show chs "</svg>" ++ trailing = '<' :: ('/' :: (chs "svg>" ++ trailing)) from rfl]
    rw [subPathOpenAux_zero_cons, pathOpenMatchLen_none_ltslash (chs "svg>" ++ trailing)]
    rw [show ('/' : Char) :: (chs "svg>" ++ trailing) = ('/' :: chs "svg>") ++ trailing from rfl]
    rw [subPathOpen_pass_plain ('/' :: chs "svg>") _ (by decide)]
    rw [subPathOpen_id_ws trailing htrail]
  unfold cleanRest0
  have h1 : subEmptyG ('\n' :: (rItems items ++ (closeInd ++ (chs "</svg>" ++ trailing)))) =
      '\n' :: (rItems₂ items ++ (closeInd ++ (chs "</svg>" ++ trailing))) := by
    show subEmptyGAux 0 _ = _
    rw [subEmptyGAux_zero_cons, emptyGMatchLen_none_of_not_isPref (by
      show isPref ('<' :: 'g' :: ('>' :: [])) ('\n' :: _) = false
      exact isPref_head_ne _ _ (by decide))]
    rw [subEmptyG_items items _ hitems hnp_g hnl]
  have h2 : subAttr (chs "fill")
      ('\n' :: (rItems₂ items ++ (closeInd ++ (chs "</svg>" ++ trailing)))) =
      '\n' :: (rItems₃ items ++ (closeInd ++ (chs "</svg>" ++ trailing))) := by
    rw [subAttr_cons_pass (chs "fill") _ (by decide)]
    rw [subAttr_fill_items items _ hitems hnp_f hhead_f]
  have h3 : subLit (chs "></path>") (chs "/>")
      ('\n' :: (rItems₃ items ++ (closeInd ++ (chs "</svg>" ++ trailing)))) =
      '\n' :: (rItems₄ items ++ (closeInd ++ (chs "</svg>" ++ trailing))) := by
    rw [@subLit_cons_passg (chs "></path>") (chs "/>") '>' (chs "</path>") rfl '\n' _
      (by decide)]
    rw [subLit_close_items items _ hitems hnp_gt]
  have h4 : subAnchorWsSvg
      ('\n' :: (rItems₄ items ++ (closeInd ++ (chs "</svg>" ++ trailing)))) =
      '\n' :: (rItems₄ items ++ (closeInd ++ (chs "</svg>" ++ trailing))) :=
    subAnchorWsSvg_body items _ hitems ⟨closeInd, chs "svg>" ++ trailing, rfl, hclose⟩
  have h5 : subPathOpen
      ('\n' :: (rItems₄ items ++ (closeInd ++ (chs "</svg>" ++ trailing)))) =
      '\n' :: (rItems₅ items ++ (closeInd ++ (chs "</svg>" ++ trailing))) := by
    show subPathOpenAux 0 _ = _
    exact subPathOpen_items items _ hitems hTLnone hTLid
  rw [h1, h2, h3, h4, h5]
  exact subLit_svgclose_items items closeInd trailing hitems hclose htrail

lemma finishRest_nl (t : Str) : finishRest ('\n' :: t) =
    if ('\n' :: t).getLast? ≠ some '\n' then some (('\n' :: t) ++ ['\n'])
    else some ('\n' :: t) := rfl

/-- The newline guards of lines 121-124 on the cleaned body: the head
is already the retained newline; a final newline is appended exactly
when the trailing whitespace does not already end in one. -/
lemma finishRest_body (Z trailing : Str) :
    finishRest ('\n' :: (Z ++ (chs "  </svg>" ++ trailing))) =
      some ('\n' :: (Z ++ (chs "  </svg>" ++ finTrail trailing))) := by
  rw [finishRest_nl]
  by_cases htr : trailing.getLast? = some '\n'
  · have htrne : trailing ≠ [] := by
      intro he
      rw [he] at htr
      exact Option.noConfusion htr
    have hlast : ('\n' :: (Z ++ (chs "  </svg>" ++ trailing))).getLast? = some '\n' := by
      rw [show ('\n' :: (Z ++ (chs "  </svg>" ++ trailing))) =
        ('\n' :: (Z ++ chs "  </svg>")) ++ trailing by simp [List.append_assoc]]
      rw [List.getLast?_append_of_ne_nil _ htrne]
      exact htr
    rw [if_neg (by simp [hlast])]
    rw [show finTrail trailing = trailing by
      unfold finTrail
      rw [if_pos (by simp [htr])]]
  · have hlast : ('\n' :: (Z ++ (chs "  </svg>" ++ trailing))).getLast? ≠ some '\n' := by
      cases trailing with
      | nil =>
        rw [show ('\n' :: (Z ++ (chs "  </svg>" ++ ([] : Str)))) =
          ('\n' :: Z) ++ chs "  </svg>" by simp]
        rw [List.getLast?_append_of_ne_nil _ (by decide)]
        decide
      | cons w tr =>
        rw [show ('\n' :: (Z ++ (chs "  </svg>" ++ (w :: tr)))) =
          ('\n' :: (Z ++ chs "  </svg>")) ++ (w :: tr) by simp [List.append_assoc]]
        rw [List.getLast?_append_of_ne_nil _ (by simp)]
        exact htr
    rw [if_pos (by simpa using hlast)]
    rw [show finTrail trailing = trailing ++ ['\n'] by
      unfold finTrail
      rw [if_neg (by simp [htr])]]
    simp [List.append_assoc]

/-! ### Locating the start tag on a rendered icon -/

lemma isPref_append_of_le (p u w : Str) (h : p.length ≤ u.length) :
    isPref p (u ++ w) = isPref p u := by
  induction p generalizing u with
  | nil => simp [isPref]
  | cons a p' ih =>
    cases u with
    | nil => simp at h
    | cons b u' =>
      show isPref (a :: p') (b :: (u' ++ w)) = isPref (a :: p') (b :: u')
      rw [isPref_cons_cons, isPref_cons_cons,
        ih u' (by simp only [List.length_cons] at h; omega)]

lemma one_le_cnt_append_self (p x : Str) (hp : p ≠ []) : 1 ≤ cnt p (x ++ p) := by
  induction x with
  | nil =>
    cases p with
    | nil => exact absurd rfl hp
    | cons a p' =>
      have h1 : isPref (a :: p') (a :: p') = true := by
        have := isPref_append_self (a :: p') []
        simpa using this
      show 1 ≤ cnt (a :: p') ([] ++ (a :: p'))
      rw [List.nil_append, cnt_cons, if_pos h1]
      omega
  | cons c t ih =>
    show 1 ≤ cnt p (c :: (t ++ p))
    rw [cnt_cons]
    by_cases hb : isPref p (c :: (t ++ p)) = true
    · rw [if_pos hb]
      omega
    · rw [if_neg (by simp [hb])]
      omega

/-- `str.index` on a string whose single pattern occurrence sits right
after a clean prefix finds exactly that occurrence. -/
lemma findSub_boundary (p pre w : Str) (hp : p ≠ [])
    (hcnt : cnt p (pre ++ p) = 1) :
    findSub p (pre ++ (p ++ w)) = some pre.length := by
  induction pre with
  | nil =>
    cases p with
    | nil => exact absurd rfl hp
    | cons a p' =>
      show findSub (a :: p') (a :: (p' ++ w)) = some 0
      rw [findSub_cons, if_pos (by
        have := isPref_append_self (a :: p') w
        simpa using this)]
  | cons c t ih =>
    have h1 : cnt p (c :: (t ++ p)) = 1 := hcnt
    rw [cnt_cons] at h1
    have h2 : 1 ≤ cnt p (t ++ p) := one_le_cnt_append_self p t hp
    have h3 : isPref p (c :: (t ++ p)) = false := by
      by_cases hb : isPref p (c :: (t ++ p)) = true
      · rw [if_pos hb] at h1
        omega
      · simpa using hb
    have h4 : cnt p (t ++ p) = 1 := by
      rw [h3] at h1
      simpa using h1
    have h5 : isPref p (c :: (t ++ (p ++ w))) = false := by
      have hlen : p.length ≤ (c :: (t ++ p)).length := by
        simp only [List.length_cons, List.length_append]
        omega
      have hx := isPref_append_of_le p (c :: (t ++ p)) w hlen
      rw [show (c :: (t ++ p)) ++ w = c :: (t ++ (p ++ w)) by simp [List.append_assoc]] at hx
      rw [hx, h3]
    show findSub p (c :: (t ++ (p ++ w))) = some (t.length + 1)
    rw [findSub_cons, if_neg (by simp [h5]), ih h4]
    rfl

lemma findChar_at (ch : Char) (u : Str) (hu : ∀ c ∈ u, c ≠ ch) (v : Str) :
    findChar ch (u ++ ch :: v) = some u.length := by
  induction u with
  | nil =>
    show findChar ch (ch :: v) = some 0
    rw [findChar_cons, if_pos rfl]
  | cons c t ih =>
    show findChar ch (c :: (t ++ ch :: v)) = some (t.length + 1)
    rw [findChar_cons, if_neg (hu c (by simp)), ih (fun d hd => hu d (by simp [hd]))]
    rfl

lemma iconOK_facts {ic : SIcon} (h : iconOK ic = true) :
    cnt (chs "<svg ") (ic.pre ++ chs "<svg ") = 1 ∧ ic.rootAttrs ≠ [] ∧
    (∀ a ∈ ic.rootAttrs, rootAttrOK a = true) ∧ (∀ it ∈ ic.items, itemOK it = true) ∧
    (∀ c ∈ ic.closeInd, isST c = true) ∧ (∀ c ∈ ic.trailing, isWs c = true) := by
  simp only [iconOK, Bool.and_eq_true, List.all_eq_true, beq_iff_eq,
    Bool.not_eq_true', List.isEmpty_eq_false] at h
  obtain ⟨⟨⟨⟨⟨h1, h2⟩, h3⟩, h4⟩, h5⟩, h6⟩ := h
  exact ⟨h1, by simpa using h2, fun a ha => h3 a ha, fun it hit => h4 it hit,
    fun c hc => h5 c hc, fun c hc => h6 c hc⟩

/-- The central characterization: `clean_markup` on a rendered
well-formed icon succeeds and produces exactly the structurally cleaned
render. -/
lemma clean_markup_renders (ic : SIcon) (nm : Str) (hic : iconOK ic = true) :
    clean_markup (renderIcon ic) nm = some (cleanedRender ic nm) := by
  obtain ⟨hcnt, hrne, hroot, hitems, hclose, htrail⟩ := iconOK_facts hic
  have hrootOK : ∀ a ∈ ic.rootAttrs, attrOK a = true :=
    fun a ha => rootAttrOK_to_attrOK (hroot a ha)
  rcases hra : ic.rootAttrs with _ | ⟨a₀, ras⟩
  · exact absurd hra hrne
  have hsi : findSub (chs "<svg ") (renderIcon ic) = some ic.pre.length := by
    have h1 : renderIcon ic = ic.pre ++ (chs "<svg" ++ (' ' :: (attrBody a₀ ++
        (rAttrs ras ++ ('>' :: '\n' :: (rItems ic.items ++
          (ic.closeInd ++ (chs "</svg>" ++ ic.trailing)))))))) := by
      show ic.pre ++ chs "<svg" ++ rAttrs ic.rootAttrs ++
        '>' :: '\n' :: (rItems ic.items ++ ic.closeInd ++ chs "</svg>" ++ ic.trailing) = _
      rw [hra]
      simp [rAttrs, rAttr, List.append_assoc]
    have hshape : renderIcon ic = ic.pre ++ (chs "<svg " ++ (attrBody a₀ ++
        (rAttrs ras ++ ('>' :: '\n' :: (rItems ic.items ++
          (ic.closeInd ++ (chs "</svg>" ++ ic.trailing))))))) := by
      rw [h1]
      rfl
    rw [hshape]
    exact findSub_boundary (chs "<svg ") ic.pre _ (by decide) hcnt
  have hm2 : renderIcon ic = ic.pre ++ ('<' :: ((chs "svg" ++ rAttrs ic.rootAttrs) ++
      ('>' :: ('\n' :: (rItems ic.items ++ (ic.closeInd ++
        (chs "</svg>" ++ ic.trailing))))))) := by
    have h1 : renderIcon ic = ic.pre ++ (chs "<svg" ++ (rAttrs ic.rootAttrs ++
        ('>' :: ('\n' :: (rItems ic.items ++ (ic.closeInd ++
          (chs "</svg>" ++ ic.trailing))))))) := by
      show ic.pre ++ chs "<svg" ++ rAttrs ic.rootAttrs ++
        '>' :: '\n' :: (rItems ic.items ++ ic.closeInd ++ chs "</svg>" ++ ic.trailing) = _
      simp [List.append_assoc]
    rw [h1]
    rw [show chs "<svg" ++ (rAttrs ic.rootAttrs ++
        ('>' :: ('\n' :: (rItems ic.items ++ (ic.closeInd ++
          (chs "</svg>" ++ ic.trailing)))))) =
      '<' :: ((chs "svg" ++ rAttrs ic.rootAttrs) ++
        ('>' :: ('\n' :: (rItems ic.items ++ (ic.closeInd ++
          (chs "</svg>" ++ ic.trailing)))))) by
      show '<' :: (chs "svg" ++ (rAttrs ic.rootAttrs ++ _)) = _
      simp [List.append_assoc]]
  have hj : findChar '>' ((renderIcon ic).drop (ic.pre.length + 1)) =
      some (chs "svg" ++ rAttrs ic.rootAttrs).length := by
    have hdrop : (renderIcon ic).drop (ic.pre.length + 1) =
        (chs "svg" ++ rAttrs ic.rootAttrs) ++ ('>' :: ('\n' :: (rItems ic.items ++
          (ic.closeInd ++ (chs "</svg>" ++ ic.trailing))))) := by
      rw [hm2, drop_append_len ic.pre _ 1]
      rfl
    rw [hdrop]
    refine findChar_at '>' _ ?_ _
    intro c hc
    rcases List.mem_append.mp hc with hc | hc
    · intro he
      subst he
      revert hc
      decide
    · exact rAttrs_mem_ne_gt hrootOK c hc
  have hL : ic.pre.length + 1 + (chs "svg" ++ rAttrs ic.rootAttrs).length + 1 =
      (ic.pre ++ ('<' :: ((chs "svg" ++ rAttrs ic.rootAttrs) ++ ['>']))).length := by
    simp only [List.length_append, List.length_cons, List.length_nil]
    omega
  have hm3 : renderIcon ic = (ic.pre ++ ('<' :: ((chs "svg" ++ rAttrs ic.rootAttrs) ++ ['>']))) ++
      ('\n' :: (rItems ic.items ++ (ic.closeInd ++ (chs "</svg>" ++ ic.trailing)))) := by
    rw [hm2]
    simp [List.append_assoc]
  have hslice : ((renderIcon ic).take
        (ic.pre.length + 1 + (chs "svg" ++ rAttrs ic.rootAttrs).length + 1)).drop
        ic.pre.length =
      '<' :: ((chs "svg" ++ rAttrs ic.rootAttrs) ++ ['>']) := by
    rw [hm3, List.take_left' hL.symm]
    exact List.drop_left _ _
  have hrest : (renderIcon ic).drop
        (ic.pre.length + 1 + (chs "svg" ++ rAttrs ic.rootAttrs).length + 1) =
      '\n' :: (rItems ic.items ++ (ic.closeInd ++ (chs "</svg>" ++ ic.trailing))) := by
    rw [hm3]
    exact List.drop_left' hL.symm
  have hfin : finishRest (cleanRest0 ((renderIcon ic).drop
        (ic.pre.length + 1 + (chs "svg" ++ rAttrs ic.rootAttrs).length + 1))) =
      some (cleanRestR ic) := by
    rw [hrest, cleanRest0_renders ic.items ic.closeInd ic.trailing hitems hclose htrail]
    rw [show rItems₅ ic.items ++ (ic.closeInd ++ (chs "  </svg>" ++ ic.trailing)) =
      (rItems₅ ic.items ++ ic.closeInd) ++ (chs "  </svg>" ++ ic.trailing) by
      simp [List.append_assoc]]
    rw [finishRest_body (rItems₅ ic.items ++ ic.closeInd) ic.trailing]
    show some _ = some ('\n' :: (rItems₅ ic.items ++ ic.closeInd ++ chs "  </svg>" ++
      finTrail ic.trailing))
    congr 1
    simp [List.append_assoc]
  have hout := @clean_markup_intro (renderIcon ic) nm ic.pre.length
    ((chs "svg" ++ rAttrs ic.rootAttrs).length) (cleanRestR ic) hsi hj hfin
  rw [hout, hslice]
  rw [show ('<' : Char) :: ((chs "svg" ++ rAttrs ic.rootAttrs) ++ ['>']) =
    chs "<svg" ++ rAttrs ic.rootAttrs ++ ['>'] from rfl]
  rw [cleanStartTag_render nm ic.rootAttrs hroot]
  show some _ = some (insTag nm ++ rAttrs (rootFilter ic.rootAttrs) ++ '>' :: cleanRestR ic)
  congr 1
  simp [cleanRestR, List.append_assoc]

/-! ### Counting attribute patterns in the cleaned output -/

lemma cnt_attrPat_pass (n chunk : Str) (h : ∀ c ∈ chunk, c ≠ ' ') (t : Str) :
    cnt (attrPat n) (chunk ++ t) = cnt (attrPat n) t := by
  induction chunk with
  | nil => rfl
  | cons c ch ih =>
    show cnt (attrPat n) (c :: (ch ++ t)) = _
    have hf : isPref (attrPat n) (c :: (ch ++ t)) = false := by
      show isPref (' ' :: _) (c :: (ch ++ t)) = false
      exact isPref_head_ne _ _ (Ne.symm (h c (by simp)))
    rw [cnt_cons, hf, ih (fun d hd => h d (by simp [hd]))]
    simp

lemma cnt_attrPat_noPair (n₀ : Char) (n' chunk rest : Str)
    (h : noPair ' ' n₀ chunk rest.head? = true) :
    cnt (attrPat (n₀ :: n')) (chunk ++ rest) = cnt (attrPat (n₀ :: n')) rest := by
  induction chunk with
  | nil => rfl
  | cons c t ih =>
    obtain ⟨h1, h2⟩ := noPair_head h
    rw [← head?_append_eq_headOr] at h1
    have hf : isPref (attrPat (n₀ :: n')) (c :: (t ++ rest)) = false := by
      show isPref (' ' :: n₀ :: (n' ++ '=' :: '"' :: [])) (c :: (t ++ rest)) = false
      exact isPref_false_of_pair ' ' n₀ _ c (t ++ rest) h1
    show cnt (attrPat (n₀ :: n')) (c :: (t ++ rest)) = _
    rw [cnt_cons, hf, ih h2]
    simp

lemma cnt_attrPat_zero (n₀ : Char) (n' s : Str) (h : noPair ' ' n₀ s none = true) :
    cnt (attrPat (n₀ :: n')) s = 0 := by
  induction s with
  | nil => rfl
  | cons c t ih =>
    obtain ⟨h1, h2⟩ := noPair_head h
    rw [headOr_none] at h1
    have hf : isPref (attrPat (n₀ :: n')) (c :: t) = false := by
      show isPref (' ' :: n₀ :: (n' ++ '=' :: '"' :: [])) (c :: t) = false
      exact isPref_false_of_pair ' ' n₀ _ c t h1
    rw [cnt_cons, hf, ih h2]
    simp

lemma cnt_attrPat_rAttrs (n : Str) (attrs : List SAttr) (t : Str)
    (hattrs : ∀ a ∈ attrs, attrOK a = true) (hn : ('=' : Char) ∉ n) :
    cnt (attrPat n) (rAttrs attrs ++ t) =
      (attrs.filter (fun a => a.nm == n)).length + cnt (attrPat n) t := by
  induction attrs with
  | nil => simp [rAttrs, List.filter]
  | cons a as ih =>
    have hOK := hattrs a (by simp)
    have hsh : rAttrs (a :: as) ++ t = rAttr a ++ (rAttrs as ++ t) := by
      simp [rAttrs, List.append_assoc]
    rw [hsh]
    by_cases heq : a.nm = n
    · have hpref : isPref (attrPat n) (rAttr a ++ (rAttrs as ++ t)) = true :=
        (attrPat_isPref_iff n a _ hn (attr_nm_no_eq hOK)).mpr heq.symm
      show cnt (attrPat n) (' ' :: (attrBody a ++ (rAttrs as ++ t))) = _
      rw [cnt_cons, show isPref (attrPat n) (' ' :: (attrBody a ++ (rAttrs as ++ t))) =
        isPref (attrPat n) (rAttr a ++ (rAttrs as ++ t)) from rfl, hpref]
      rw [if_pos rfl]
      rw [cnt_attrPat_pass n (attrBody a) (attrBody_no_space hOK) (rAttrs as ++ t)]
      rw [ih (fun b hb => hattrs b (by simp [hb]))]
      have hbq : (a.nm == n) = true := by simpa using heq
      rw [List.filter_cons, if_pos hbq]
      simp only [List.length_cons]
      omega
    · have hpref : isPref (attrPat n) (rAttr a ++ (rAttrs as ++ t)) = false := by
        rcases hb : isPref (attrPat n) (rAttr a ++ (rAttrs as ++ t)) with _ | _
        · rfl
        · exact absurd ((attrPat_isPref_iff n a _ hn (attr_nm_no_eq hOK)).mp hb).symm heq
      show cnt (attrPat n) (' ' :: (attrBody a ++ (rAttrs as ++ t))) = _
      rw [cnt_cons, show isPref (attrPat n) (' ' :: (attrBody a ++ (rAttrs as ++ t))) =
        isPref (attrPat n) (rAttr a ++ (rAttrs as ++ t)) from rfl, hpref]
      rw [if_neg (show ¬ (false = true) by decide)]
      rw [cnt_attrPat_pass n (attrBody a) (attrBody_no_space hOK) (rAttrs as ++ t)]
      rw [ih (fun b hb => hattrs b (by simp [hb]))]
      have hbq : (a.nm == n) = false := by simpa using heq
      have hbq' : ¬ ((a.nm == n) = true) := by simp [hbq]
      rw [List.filter_cons, if_neg hbq']
      omega

lemma beq_some_false_of_ne {c d : Char} (h : ¬ c = d) :
    ((some c : Option Char) == some d) = false := by
  rw [beq_eq_false_iff_ne]
  intro he
  exact h (Option.some.inj he)

lemma noPair_indent_svg (n₀ : Char) (h1 : ¬ ' ' = n₀) (h2 : ¬ '<' = n₀)
    (nxt : Option Char) : noPair ' ' n₀ (chs "  <svg") nxt = true := by
  rw [noPair_irrel ' ' n₀ (chs "  <svg") (by intro c hc; cases hc; decide) nxt]
  simp [noPair, headOr, beq_some_false_of_ne h1, beq_some_false_of_ne h2]

lemma noPair_indent_path (n₀ : Char) (h1 : ¬ ' ' = n₀) (h2 : ¬ '<' = n₀)
    (nxt : Option Char) : noPair ' ' n₀ (chs "    <path") nxt = true := by
  rw [noPair_irrel ' ' n₀ (chs "    <path") (by intro c hc; cases hc; decide) nxt]
  simp [noPair, headOr, beq_some_false_of_ne h1, beq_some_false_of_ne h2]

lemma noPair_indent_closesvg (n₀ : Char) (h1 : ¬ ' ' = n₀) (h2 : ¬ '<' = n₀)
    (nxt : Option Char) : noPair ' ' n₀ (chs "  </svg>") nxt = true := by
  rw [noPair_irrel ' ' n₀ (chs "  </svg>") (by intro c hc; cases hc; decide) nxt]
  simp [noPair, headOr, beq_some_false_of_ne h1, beq_some_false_of_ne h2]

lemma finTrail_ws {trailing : Str} (h : ∀ c ∈ trailing, isWs c = true) :
    ∀ c ∈ finTrail trailing, isWs c = true := by
  intro c hc
  unfold finTrail at hc
  by_cases hb : (trailing.getLast? == some '\n') = true
  · rw [if_pos hb] at hc
    exact h c hc
  · rw [if_neg hb] at hc
    rcases List.mem_append.mp hc with hc | hc
    · exact h c hc
    · rcases List.mem_singleton.mp hc with rfl
      rfl

lemma head_rItems₅_ne (n₀ : Char) (hn₀ : plainChar n₀ = true) :
    ∀ (items : List SItem) (TL : Str), (∀ it ∈ items, itemOK it = true) →
    TL.head? ≠ some n₀ → (rItems₅ items ++ TL).head? ≠ some n₀ := by
  intro items
  induction items with
  | nil => intro TL _ hTL; simpa [rItems₅] using hTL
  | cons it t ih =>
    intro TL hitems hTL
    cases it with
    | pathI ind attrs short =>
      have hsh : rItems₅ (SItem.pathI ind attrs short :: t) ++ TL =
          chs "    <path" ++ (rAttrsF attrs ++ ((chs "/>" ++ ['\n']) ++ (rItems₅ t ++ TL))) := by
        simp [rItems₅, List.append_assoc]
      rw [hsh]
      show ¬ some ' ' = some n₀
      intro he
      exact (plainChar_spec hn₀).1 (Option.some.inj he).symm
    | gI ind inner =>
      have hOK := itemOK_g (hitems _ (List.mem_cons_self _ _))
      have hsh : rItems₅ (SItem.gI ind inner :: t) ++ TL =
          (if anyPath t then [] else ind) ++ (rItems₅ t ++ TL) := by
        simp [rItems₅, List.append_assoc]
      rw [hsh, head?_append_eq_headOr]
      have hih := ih TL (fun b hb => hitems b (by simp [hb])) hTL
      by_cases hap : anyPath t
      · rw [if_pos hap]
        exact hih
      · rw [if_neg hap]
        exact headOr_ne_of_st ind hOK.1 _ n₀ (plainChar_spec hn₀).2.2.2.2.2.2 hih

lemma cnt_attrPat_rItems₅ (n₀ : Char) (n' : Str) (hn : ∀ c ∈ n₀ :: n', plainChar c = true)
    (items : List SItem) (TL : Str) (hitems : ∀ it ∈ items, itemOK it = true)
    (hTLh : TL.head? ≠ some n₀) (hTLnp : noPair ' ' n₀ TL none = true) :
    cnt (attrPat (n₀ :: n')) (rItems₅ items ++ TL) =
      cntBodyAttrs (n₀ :: n') items + cnt (attrPat (n₀ :: n')) TL := by
  have hn₀ := plainChar_spec (hn n₀ (by simp))
  have h1 : ¬ ' ' = n₀ := fun he => hn₀.1 he.symm
  have h2 : ¬ '<' = n₀ := fun he => hn₀.2.2.2.1 he.symm
  induction items with
  | nil => simp [rItems₅, cntBodyAttrs]
  | cons it t ih =>
    cases it with
    | pathI ind attrs short =>
      have hOK := itemOK_path (hitems _ (List.mem_cons_self _ _))
      have hattrsF : ∀ a ∈ attrs.filter (fun a => !(a.nm == chs "fill")), attrOK a = true :=
        fun a ha => pathAttrOK_to_attrOK (hOK.2.1 a (List.mem_of_mem_filter ha))
      have hsh : rItems₅ (SItem.pathI ind attrs short :: t) ++ TL =
          chs "    <path" ++ (rAttrsF attrs ++ ((chs "/>" ++ ['\n']) ++ (rItems₅ t ++ TL))) := by
        simp [rItems₅, List.append_assoc]
      rw [hsh]
      rw [cnt_attrPat_noPair n₀ n' (chs "    <path") _ (noPair_indent_path n₀ h1 h2 _)]
      rw [show rAttrsF attrs = rAttrs (attrs.filter (fun a => !(a.nm == chs "fill"))) from rfl]
      rw [cnt_attrPat_rAttrs (n₀ :: n') _ _ hattrsF
        (by intro hmem; exact (plainChar_spec (hn '=' hmem)).2.2.1 rfl)]
      rw [cnt_attrPat_pass (n₀ :: n') (chs "/>" ++ ['\n']) (by decide) _]
      rw [ih (fun b hb => hitems b (by simp [hb]))]
      simp only [cntBodyAttrs]
      omega
    | gI ind inner =>
      have hOK := itemOK_g (hitems _ (List.mem_cons_self _ _))
      have hsh : rItems₅ (SItem.gI ind inner :: t) ++ TL =
          (if anyPath t then [] else ind) ++ (rItems₅ t ++ TL) := by
        simp [rItems₅, List.append_assoc]
      rw [hsh]
      have hih := ih (fun b hb => hitems b (by simp [hb]))
      by_cases hap : anyPath t
      · rw [if_pos hap]
        show cnt (attrPat (n₀ :: n')) (rItems₅ t ++ TL) = _
        rw [hih]
        simp [cntBodyAttrs]
      · rw [if_neg hap]
        rw [cnt_attrPat_noPair n₀ n' ind _
          (noPair_ws_all ' ' n₀ hn₀.2.2.2.2.2.1 ind
            (fun c hc => isST_isWs (hOK.1 c hc)) _
            (head_rItems₅_ne n₀ (hn n₀ (by simp)) t TL
              (fun b hb => hitems b (by simp [hb])) hTLh))]
        rw [hih]
        simp [cntBodyAttrs]

lemma mem_of_mem_rootFilter {attrs : List SAttr} {a : SAttr} (ha : a ∈ rootFilter attrs) :
    a ∈ attrs := by
  unfold rootFilter at ha
  exact List.mem_of_mem_filter (List.mem_of_mem_filter (List.mem_of_mem_filter
    (List.mem_of_mem_filter (List.mem_of_mem_filter (List.mem_of_mem_filter
      (List.mem_of_mem_filter (List.mem_of_mem_filter ha)))))))

/-- The whole-document attribute-pattern count: the inserted `id`
attribute plus the surviving root attributes contribute their name
matches, the body contributes its surviving `<path>` attributes, and
nothing else in the document matches. -/
lemma cnt_attrPat_cleanedRender (ic : SIcon) (nm : Str) (n₀ : Char) (n' : Str)
    (hic : iconOK ic = true) (hnm_ne : nm ≠ []) (hnm : ∀ c ∈ nm, plainChar c = true)
    (hn : ∀ c ∈ n₀ :: n', plainChar c = true) :
    cnt (attrPat (n₀ :: n')) (cleanedRender ic nm) =
      ((⟨chs "id", nm⟩ :: rootFilter ic.rootAttrs).filter
        (fun a => a.nm == (n₀ :: n'))).length + cntBodyAttrs (n₀ :: n') ic.items := by
  obtain ⟨_, _, hroot, hitems, hclose, htrail⟩ := iconOK_facts hic
  have hn₀ := plainChar_spec (hn n₀ (by simp))
  have h1 : ¬ ' ' = n₀ := fun he => hn₀.1 he.symm
  have h2 : ¬ '<' = n₀ := fun he => hn₀.2.2.2.1 he.symm
  have hneq : ('=' : Char) ∉ n₀ :: n' := by
    intro hmem
    exact (plainChar_spec (hn '=' hmem)).2.2.1 rfl
  have hsh : cleanedRender ic nm = chs "  <svg" ++
      (rAttrs (⟨chs "id", nm⟩ :: rootFilter ic.rootAttrs) ++ ('>' :: cleanRestR ic)) := by
    have hA : cleanedRender ic nm = chs "  <svg id=\"" ++
        (nm ++ (chs "\"" ++ (rAttrs (rootFilter ic.rootAttrs) ++ ('>' :: cleanRestR ic)))) := by
      show insTag nm ++ rAttrs (rootFilter ic.rootAttrs) ++ '>' :: cleanRestR ic = _
      show (chs "  <svg id=\"" ++ nm ++ chs "\"") ++ rAttrs (rootFilter ic.rootAttrs) ++
        '>' :: cleanRestR ic = _
      simp [List.append_assoc]
    have hB : chs "  <svg" ++
        (rAttrs (⟨chs "id", nm⟩ :: rootFilter ic.rootAttrs) ++ ('>' :: cleanRestR ic)) =
        chs "  <svg" ++ (' ' :: (chs "id" ++ ('=' :: ('"' :: (nm ++ ('"' ::
          (rAttrs (rootFilter ic.rootAttrs) ++ ('>' :: cleanRestR ic)))))))) := by
      simp [rAttrs, rAttr, attrBody, List.append_assoc]
    rw [hA, hB]
    rfl
  rw [hsh]
  rw [cnt_attrPat_noPair n₀ n' (chs "  <svg") _ (noPair_indent_svg n₀ h1 h2 _)]
  have hidOK : attrOK ⟨chs "id", nm⟩ = true := by
    simp only [attrOK, Bool.and_eq_true, List.all_eq_true]
    refine ⟨⟨⟨by decide, by decide⟩, by simpa using hnm_ne⟩, fun c hc => hnm c hc⟩
  have hRFOK : ∀ a ∈ (⟨chs "id", nm⟩ : SAttr) :: rootFilter ic.rootAttrs, attrOK a = true := by
    intro a ha
    rcases List.mem_cons.mp ha with rfl | ha
    · exact hidOK
    · exact rootAttrOK_to_attrOK (hroot a (mem_of_mem_rootFilter ha))
  rw [cnt_attrPat_rAttrs (n₀ :: n') _ _ hRFOK hneq]
  rw [show ('>' : Char) :: cleanRestR ic = ['>'] ++ cleanRestR ic from rfl]
  rw [cnt_attrPat_pass (n₀ :: n') ['>'] (by decide) _]
  have hcr : cleanRestR ic = ['\n'] ++ (rItems₅ ic.items ++
      (ic.closeInd ++ (chs "  </svg>" ++ finTrail ic.trailing))) := by
    show '\n' :: (rItems₅ ic.items ++ ic.closeInd ++ chs "  </svg>" ++ finTrail ic.trailing) = _
    simp [List.append_assoc]
  rw [hcr, cnt_attrPat_pass (n₀ :: n') ['\n'] (by decide) _]
  have hTLh : (ic.closeInd ++ (chs "  </svg>" ++ finTrail ic.trailing)).head? ≠ some n₀ := by
    rw [head?_append_eq_headOr]
    exact headOr_ne_of_st ic.closeInd hclose _ n₀ hn₀.2.2.2.2.2.2
      (fun he => h1 (Option.some.inj he))
  have hTLnp : noPair ' ' n₀ (ic.closeInd ++ (chs "  </svg>" ++ finTrail ic.trailing))
      none = true := by
    rw [noPair_append, noPair_append]
    simp only [Bool.and_eq_true]
    refine ⟨?_, ?_, ?_⟩
    · exact noPair_ws_all ' ' n₀ hn₀.2.2.2.2.2.1 ic.closeInd
        (fun c hc => isST_isWs (hclose c hc)) _ (fun he => h1 (Option.some.inj he))
    · exact noPair_indent_closesvg n₀ h1 h2 _
    · exact noPair_ws_all ' ' n₀ hn₀.2.2.2.2.2.1 (finTrail ic.trailing)
        (finTrail_ws htrail) none (fun he => Option.noConfusion he)
  rw [cnt_attrPat_rItems₅ n₀ n' hn ic.items _ hitems hTLh hTLnp]
  rw [cnt_attrPat_zero n₀ n' _ hTLnp]
  omega

lemma cnt_attrPat_cleanedRender' (ic : SIcon) (nm : Str) (n : Str)
    (hic : iconOK ic = true) (hnm_ne : nm ≠ []) (hnm : ∀ c ∈ nm, plainChar c = true)
    (hne : n ≠ []) (hn : ∀ c ∈ n, plainChar c = true) :
    cnt (attrPat n) (cleanedRender ic nm) =
      ((⟨chs "id", nm⟩ :: rootFilter ic.rootAttrs).filter
        (fun a => a.nm == n)).length + cntBodyAttrs n ic.items := by
  rcases n with _ | ⟨n₀, n'⟩
  · exact absurd rfl hne
  · exact cnt_attrPat_cleanedRender ic nm n₀ n' hic hnm_ne hnm hn

lemma filter_filter_of_imp {α : Type} (q p : α → Bool) (l : List α)
    (h : ∀ a ∈ l, q a = true → p a = true) :
    (l.filter p).filter q = l.filter q := by
  induction l with
  | nil => rfl
  | cons a t ih =>
    have ht := ih (fun b hb hq => h b (by simp [hb]) hq)
    by_cases hq : q a = true
    · have hp : p a = true := h a (by simp) hq
      rw [List.filter_cons, if_pos hp, List.filter_cons, if_pos hq,
        List.filter_cons, if_pos hq, ht]
    · by_cases hp : p a = true
      · rw [List.filter_cons, if_pos hp, List.filter_cons, if_neg hq,
          List.filter_cons, if_neg hq, ht]
      · rw [List.filter_cons, if_neg hp, List.filter_cons, if_neg hq, ht]

lemma mem_rootFilter_facts {attrs : List SAttr} {a : SAttr} (ha : a ∈ rootFilter attrs) :
    a ∈ attrs ∧ a ≠ ⟨chs "xmlns", xmlnsURL⟩ ∧ a ≠ ⟨chs "xmlns:xlink", xlinkURL⟩ ∧
    a.nm ≠ chs "id" ∧ a.nm ≠ chs "version" ∧ a.nm ≠ chs "x" ∧ a.nm ≠ chs "y" ∧
    a.nm ≠ chs "enable-background" ∧ a.nm ≠ chs "xml:space" := by
  unfold rootFilter at ha
  simp only [List.mem_filter, Bool.not_eq_true', beq_eq_false_iff_ne] at ha
  obtain ⟨⟨⟨⟨⟨⟨⟨⟨h0, h1⟩, h2⟩, h3⟩, h4⟩, h5⟩, h6⟩, h7⟩, h8⟩ := ha
  exact ⟨h0, h1, h2, h3, h4, h5, h6, h7, h8⟩

lemma rootFilter_filter_eq (n : Str) (attrs : List SAttr)
    (h1 : n ≠ chs "xmlns") (h2 : n ≠ chs "xmlns:xlink")
    (h3 : n ≠ chs "id") (h4 : n ≠ chs "version") (h5 : n ≠ chs "x") (h6 : n ≠ chs "y")
    (h7 : n ≠ chs "enable-background") (h8 : n ≠ chs "xml:space") :
    (rootFilter attrs).filter (fun a => a.nm == n) = attrs.filter (fun a => a.nm == n) := by
  unfold rootFilter
  rw [filter_filter_of_imp _ _ _ (fun a _ hq => by
    simp only [beq_iff_eq] at hq
    simp only [Bool.not_eq_true', beq_eq_false_iff_ne]
    rw [hq]
    exact Ne.symm (fun he => h8 he.symm))]
  rw [filter_filter_of_imp _ _ _ (fun a _ hq => by
    simp only [beq_iff_eq] at hq
    simp only [Bool.not_eq_true', beq_eq_false_iff_ne]
    rw [hq]
    exact Ne.symm (fun he => h7 he.symm))]
  rw [filter_filter_of_imp _ _ _ (fun a _ hq => by
    simp only [beq_iff_eq] at hq
    simp only [Bool.not_eq_true', beq_eq_false_iff_ne]
    rw [hq]
    exact Ne.symm (fun he => h6 he.symm))]
  rw [filter_filter_of_imp _ _ _ (fun a _ hq => by
    simp only [beq_iff_eq] at hq
    simp only [Bool.not_eq_true', beq_eq_false_iff_ne]
    rw [hq]
    exact Ne.symm (fun he => h5 he.symm))]
  rw [filter_filter_of_imp _ _ _ (fun a _ hq => by
    simp only [beq_iff_eq] at hq
    simp only [Bool.not_eq_true', beq_eq_false_iff_ne]
    rw [hq]
    exact Ne.symm (fun he => h4 he.symm))]
  rw [filter_filter_of_imp _ _ _ (fun a _ hq => by
    simp only [beq_iff_eq] at hq
    simp only [Bool.not_eq_true', beq_eq_false_iff_ne]
    rw [hq]
    exact Ne.symm (fun he => h3 he.symm))]
  rw [filter_filter_of_imp _ _ _ (fun a _ hq => by
    simp only [beq_iff_eq] at hq
    simp only [Bool.not_eq_true', beq_eq_false_iff_ne]
    intro he
    rw [he] at hq
    exact h2 hq.symm)]
  rw [filter_filter_of_imp _ _ _ (fun a _ hq => by
    simp only [beq_iff_eq] at hq
    simp only [Bool.not_eq_true', beq_eq_false_iff_ne]
    intro he
    rw [he] at hq
    exact h1 hq.symm)]

lemma rootFilter_no_name {attrs : List SAttr} (n : Str)
    (hmem : ∀ a ∈ rootFilter attrs, a.nm ≠ n) :
    (rootFilter attrs).filter (fun a => a.nm == n) = [] := by
  rw [List.filter_eq_nil_iff]
  intro a ha hq
  simp only [beq_iff_eq] at hq
  exact hmem a ha hq

lemma rootFilter_no_xmlns {attrs : List SAttr}
    (hattrs : ∀ a ∈ attrs, rootAttrOK a = true) :
    (rootFilter attrs).filter (fun a => a.nm == chs "xmlns") = [] := by
  rw [List.filter_eq_nil_iff]
  intro a ha hq
  simp only [beq_iff_eq] at hq
  have hf := mem_rootFilter_facts ha
  have hOK := hattrs a hf.1
  simp only [rootAttrOK, Bool.and_eq_true, Bool.or_eq_true, Bool.not_eq_true',
    beq_eq_false_iff_ne, beq_iff_eq] at hOK
  rcases hOK.1.2 with hne | hvl
  · exact hne hq
  · refine hf.2.1 ?_
    cases a
    simp only [SAttr.mk.injEq]
    exact ⟨hq, hvl⟩

lemma rootFilter_no_xlink {attrs : List SAttr}
    (hattrs : ∀ a ∈ attrs, rootAttrOK a = true) :
    (rootFilter attrs).filter (fun a => a.nm == chs "xmlns:xlink") = [] := by
  rw [List.filter_eq_nil_iff]
  intro a ha hq
  simp only [beq_iff_eq] at hq
  have hf := mem_rootFilter_facts ha
  have hOK := hattrs a hf.1
  simp only [rootAttrOK, Bool.and_eq_true, Bool.or_eq_true, Bool.not_eq_true',
    beq_eq_false_iff_ne, beq_iff_eq] at hOK
  rcases hOK.2 with hne | hvl
  · exact hne hq
  · refine hf.2.2.1 ?_
    cases a
    simp only [SAttr.mk.injEq]
    exact ⟨hq, hvl⟩

lemma cntBodyAttrs_zero (n : Str) (items : List SItem)
    (hitems : ∀ it ∈ items, itemOK it = true)
    (hn : n ∈ strippedNames ∨ n = chs "fill" ∨ n = chs "xmlns" ∨ n = chs "xmlns:xlink") :
    cntBodyAttrs n items = 0 := by
  induction items with
  | nil => rfl
  | cons it t ih =>
    have hihv := ih (fun b hb => hitems b (by simp [hb]))
    cases it with
    | gI ind inner =>
      show cntBodyAttrs n t = 0
      exact hihv
    | pathI ind attrs short =>
      have hOK := itemOK_path (hitems _ (List.mem_cons_self _ _))
      have hz : (attrs.filter (fun a => !(a.nm == chs "fill"))).filter
          (fun a => a.nm == n) = [] := by
        rw [List.filter_eq_nil_iff]
        intro a ha hq
        simp only [beq_iff_eq] at hq
        have hmemf := List.mem_filter.mp ha
        have hpOK := hOK.2.1 a hmemf.1
        simp only [pathAttrOK, Bool.and_eq_true, Bool.not_eq_true'] at hpOK
        rcases hn with hs | hf | hx | hx2
        · have hcont := hpOK.1.1.2
          rw [hq] at hcont
          have hct : strippedNames.contains n = true := List.elem_eq_true_of_mem hs
          rw [hct] at hcont
          exact Bool.noConfusion hcont
        · have hfl := hmemf.2
          simp only [Bool.not_eq_true', beq_eq_false_iff_ne] at hfl
          exact hfl (hq.trans hf)
        · have hxm := hpOK.1.2
          rw [beq_eq_false_iff_ne] at hxm
          exact hxm (hq.trans hx)
        · have hxl := hpOK.2
          rw [beq_eq_false_iff_ne] at hxl
          exact hxl (hq.trans hx2)
      show ((attrs.filter (fun a => !(a.nm == chs "fill"))).filter
        (fun a => a.nm == n)).length + cntBodyAttrs n t = 0
      rw [hz, hihv]
      rfl

/-! ### First-match attribute search on rendered and cleaned icons -/

lemma isPref_of_append {p u w : Str} (h : isPref p (u ++ w) = true) :
    isPref p u = true ∨ isPref u p = true := by
  induction p generalizing u with
  | nil => exact Or.inl rfl
  | cons a p' ih =>
    cases u with
    | nil => exact Or.inr rfl
    | cons b u' =>
      have h' : a = b ∧ isPref p' (u' ++ w) = true := by
        simpa [isPref] using h
      obtain ⟨rfl, h2⟩ := h'
      rcases ih h2 with h3 | h3
      · exact Or.inl (by rw [isPref_cons_cons, h3]; simp)
      · exact Or.inr (by rw [isPref_cons_cons, h3]; simp)

lemma mem_of_isPref {u p : Str} (h : isPref u p = true) : ∀ c ∈ u, c ∈ p := by
  induction u generalizing p with
  | nil => intro c hc; exact absurd hc (List.not_mem_nil c)
  | cons a u' ih =>
    intro c hc
    cases p with
    | nil =>
      rw [isPref_cons_nil] at h
      exact Bool.noConfusion h
    | cons b p' =>
      have h' : a = b ∧ isPref u' p' = true := by simpa [isPref] using h
      obtain ⟨rfl, h2⟩ := h'
      rcases List.mem_cons.mp hc with rfl | hc'
      · exact List.mem_cons_self _ _
      · exact List.mem_cons_of_mem _ (ih h2 c hc')

lemma findAttrVal_cons_pass (n : Str) {c : Char} (t : Str) (hc : c ≠ ' ') :
    findAttrVal n (c :: t) = findAttrVal n t := by
  rw [findAttrVal_cons, attrMatchLen_none_of_ne_space n t hc]

lemma findAttrVal_pass_chunk (n chunk rest : Str) (h : ∀ c ∈ chunk, c ≠ ' ') :
    findAttrVal n (chunk ++ rest) = findAttrVal n rest := by
  induction chunk with
  | nil => rfl
  | cons c t ih =>
    show findAttrVal n (c :: (t ++ rest)) = _
    rw [findAttrVal_cons_pass n _ (h c (by simp)), ih (fun d hd => h d (by simp [hd]))]

lemma findAttrVal_noPair (n : Str) (c₁ : Char) (n'' : Str) (hn : n = c₁ :: n'')
    (chunk rest : Str) (h : noPair ' ' c₁ chunk rest.head? = true) :
    findAttrVal n (chunk ++ rest) = findAttrVal n rest := by
  subst hn
  induction chunk with
  | nil => rfl
  | cons c t ih =>
    obtain ⟨h1, h2⟩ := noPair_head h
    rw [← head?_append_eq_headOr] at h1
    have hf : isPref (attrPat (c₁ :: n'')) (c :: (t ++ rest)) = false := by
      show isPref (' ' :: c₁ :: (n'' ++ '=' :: '"' :: [])) (c :: (t ++ rest)) = false
      exact isPref_false_of_pair ' ' c₁ _ c (t ++ rest) h1
    show findAttrVal (c₁ :: n'') (c :: (t ++ rest)) = _
    rw [findAttrVal_cons, attrMatchLen_none_of_not_isPref hf, ih h2]

lemma findAttrVal_rAttr_match (n : Str) (a : SAttr) (rest : Str)
    (hOK : attrOK a = true) (hn : ('=' : Char) ∉ n) (heq : a.nm = n) :
    findAttrVal n (rAttr a ++ rest) = some a.vl := by
  have hml := attrMatchLen_rAttr n a rest hOK hn
  rw [if_pos heq] at hml
  show findAttrVal n (' ' :: (attrBody a ++ rest)) = some a.vl
  rw [findAttrVal_cons]
  rw [show attrMatchLen n (' ' :: (attrBody a ++ rest)) =
    attrMatchLen n (rAttr a ++ rest) from rfl, hml]
  subst heq
  have hdec : ' ' :: (attrBody a ++ rest) = attrPat a.nm ++ (a.vl ++ '"' :: rest) := by
    simp [attrBody, attrPat, List.append_assoc]
  rw [hdec, List.drop_left, noQuoteLen_val a.vl rest (attr_vl_no_quote hOK),
    List.take_left]

lemma findAttrVal_rAttrs (n : Str) (attrs : List SAttr) (t : Str)
    (hattrs : ∀ a ∈ attrs, attrOK a = true) (hn : ('=' : Char) ∉ n) :
    findAttrVal n (rAttrs attrs ++ t) =
      match attrs.find? (fun a => a.nm == n) with
      | some a => some a.vl
      | none => findAttrVal n t := by
  induction attrs with
  | nil => rfl
  | cons a as ih =>
    have hOK := hattrs a (by simp)
    have hsh : rAttrs (a :: as) ++ t = rAttr a ++ (rAttrs as ++ t) := by
      simp [rAttrs, List.append_assoc]
    rw [hsh]
    by_cases heq : a.nm = n
    · rw [findAttrVal_rAttr_match n a _ hOK hn heq]
      have hfq : (a.nm == n) = true := by simpa using heq
      rw [@List.find?_cons_of_pos SAttr (fun b => b.nm == n) a as hfq]
    · have hml := attrMatchLen_rAttr n a (rAttrs as ++ t) hOK hn
      rw [if_neg heq] at hml
      show findAttrVal n (' ' :: (attrBody a ++ (rAttrs as ++ t))) = _
      rw [findAttrVal_cons]
      rw [show attrMatchLen n (' ' :: (attrBody a ++ (rAttrs as ++ t))) =
        attrMatchLen n (rAttr a ++ (rAttrs as ++ t)) from rfl, hml]
      rw [findAttrVal_pass_chunk n (attrBody a) _ (attrBody_no_space hOK)]
      rw [ih (fun b hb => hattrs b (by simp [hb]))]
      have hfq : ¬ ((a.nm == n) = true) := by simpa using heq
      rw [@List.find?_cons_of_neg SAttr (fun b => b.nm == n) a as hfq]

/-- `re.search` never matches inside the discarded preamble when the
preamble (with the following `"<svg "` boundary) holds no occurrence of
the attribute pattern. -/
lemma findAttrVal_pass_pre (n : Str) (hlt : ('<' : Char) ∉ attrPat n)
    (pre MORE : Str) (hcnt : cnt (attrPat n) (pre ++ chs "<svg ") = 0) :
    findAttrVal n (pre ++ (chs "<svg " ++ MORE)) = findAttrVal n (chs "<svg " ++ MORE) := by
  induction pre with
  | nil => rfl
  | cons c t ih =>
    have hcc : cnt (attrPat n) (c :: (t ++ chs "<svg ")) = 0 := hcnt
    rw [cnt_cons] at hcc
    have h0 : isPref (attrPat n) (c :: (t ++ chs "<svg ")) = false := by
      by_cases hb : isPref (attrPat n) (c :: (t ++ chs "<svg ")) = true
      · exfalso
        rw [if_pos hb] at hcc
        omega
      · simpa using hb
    have hcnt' : cnt (attrPat n) (t ++ chs "<svg ") = 0 := by
      rw [h0, if_neg (show ¬ (false = true) by decide)] at hcc
      omega
    have hfull : isPref (attrPat n) (c :: (t ++ (chs "<svg " ++ MORE))) = false := by
      by_cases hb : isPref (attrPat n) (c :: (t ++ (chs "<svg " ++ MORE))) = true
      · exfalso
        have hsplit : c :: (t ++ (chs "<svg " ++ MORE)) =
            (c :: (t ++ chs "<svg ")) ++ MORE := by
          simp [List.append_assoc]
        rw [hsplit] at hb
        rcases isPref_of_append hb with h3 | h3
        · rw [h0] at h3
          exact Bool.noConfusion h3
        · exact hlt (mem_of_isPref h3 '<'
            (List.mem_cons_of_mem c (List.mem_append_right t (by decide))))
      · simpa using hb
    show findAttrVal n (c :: (t ++ (chs "<svg " ++ MORE))) = _
    rw [findAttrVal_cons, attrMatchLen_none_of_not_isPref hfull, ih hcnt']

lemma find?_filter_of_imp {α : Type} (q p : α → Bool) (l : List α)
    (h : ∀ a ∈ l, q a = true → p a = true) :
    (l.filter p).find? q = l.find? q := by
  induction l with
  | nil => rfl
  | cons a t ih =>
    have ht := ih (fun b hb hq => h b (by simp [hb]) hq)
    by_cases hq : q a = true
    · have hp := h a (by simp) hq
      rw [List.filter_cons, if_pos hp, List.find?_cons_of_pos _ hq,
        List.find?_cons_of_pos _ hq]
    · have hq' : ¬ (q a = true) := hq
      by_cases hp : p a = true
      · rw [List.filter_cons, if_pos hp, List.find?_cons_of_neg _ hq',
          List.find?_cons_of_neg _ hq', ht]
      · rw [List.filter_cons, if_neg hp, ht, List.find?_cons_of_neg _ hq']

lemma rootFilter_find?_eq (n : Str) (attrs : List SAttr)
    (h1 : n ≠ chs "xmlns") (h2 : n ≠ chs "xmlns:xlink")
    (h3 : n ≠ chs "id") (h4 : n ≠ chs "version") (h5 : n ≠ chs "x") (h6 : n ≠ chs "y")
    (h7 : n ≠ chs "enable-background") (h8 : n ≠ chs "xml:space") :
    (rootFilter attrs).find? (fun a => a.nm == n) = attrs.find? (fun a => a.nm == n) := by
  unfold rootFilter
  rw [find?_filter_of_imp _ _ _ (fun a _ hq => by
    simp only [beq_iff_eq] at hq
    simp only [Bool.not_eq_true', beq_eq_false_iff_ne]
    rw [hq]
    exact Ne.symm (fun he => h8 he.symm))]
  rw [find?_filter_of_imp _ _ _ (fun a _ hq => by
    simp only [beq_iff_eq] at hq
    simp only [Bool.not_eq_true', beq_eq_false_iff_ne]
    rw [hq]
    exact Ne.symm (fun he => h7 he.symm))]
  rw [find?_filter_of_imp _ _ _ (fun a _ hq => by
    simp only [beq_iff_eq] at hq
    simp only [Bool.not_eq_true', beq_eq_false_iff_ne]
    rw [hq]
    exact Ne.symm (fun he => h6 he.symm))]
  rw [find?_filter_of_imp _ _ _ (fun a _ hq => by
    simp only [beq_iff_eq] at hq
    simp only [Bool.not_eq_true', beq_eq_false_iff_ne]
    rw [hq]
    exact Ne.symm (fun he => h5 he.symm))]
  rw [find?_filter_of_imp _ _ _ (fun a _ hq => by
    simp only [beq_iff_eq] at hq
    simp only [Bool.not_eq_true', beq_eq_false_iff_ne]
    rw [hq]
    exact Ne.symm (fun he => h4 he.symm))]
  rw [find?_filter_of_imp _ _ _ (fun a _ hq => by
    simp only [beq_iff_eq] at hq
    simp only [Bool.not_eq_true', beq_eq_false_iff_ne]
    rw [hq]
    exact Ne.symm (fun he => h3 he.symm))]
  rw [find?_filter_of_imp _ _ _ (fun a _ hq => by
    simp only [beq_iff_eq] at hq
    simp only [Bool.not_eq_true', beq_eq_false_iff_ne]
    intro he
    rw [he] at hq
    exact h2 hq.symm)]
  rw [find?_filter_of_imp _ _ _ (fun a _ hq => by
    simp only [beq_iff_eq] at hq
    simp only [Bool.not_eq_true', beq_eq_false_iff_ne]
    intro he
    rw [he] at hq
    exact h1 hq.symm)]

lemma noPair_insTag (c₁ : Char) (nm : Str) (hnm : ∀ c ∈ nm, plainChar c = true)
    (h1 : ¬ ' ' = c₁) (h2 : ¬ '<' = c₁) (h3 : ¬ 'i' = c₁) (nxt : Option Char) :
    noPair ' ' c₁ (insTag nm) nxt = true := by
  show noPair ' ' c₁ (chs "  <svg id=\"" ++ nm ++ chs "\"") nxt = true
  rw [show chs "  <svg id=\"" ++ nm ++ chs "\"" =
    chs "  <svg id=\"" ++ (nm ++ chs "\"") by simp [List.append_assoc]]
  rw [noPair_append, noPair_append]
  simp only [Bool.and_eq_true]
  refine ⟨?_, ?_, ?_⟩
  · rw [noPair_irrel ' ' c₁ (chs "  <svg id=\"") (by intro c hc; cases hc; decide)]
    simp [noPair, headOr, beq_some_false_of_ne h1, beq_some_false_of_ne h2,
      beq_some_false_of_ne h3]
  · exact noPair_of_all_ne (fun c hc => (plainChar_spec (hnm c hc)).1) _
  · rw [noPair_irrel ' ' c₁ (chs "\"") (by intro c hc; cases hc; decide)]
    simp [noPair, headOr]

/-! ### Claim theorems -/

/-- C1 (counterexample).  The claim asserts that `clean_markup` leaves
zero `fill` attributes anywhere in the icon's subtree *including the
root start tag*.  But `fill_re.sub` (script line 114) is applied only
to `the_rest`, the part after the start tag, so a `fill` attribute on
the root `<svg>` start tag survives: on `mFillRoot` (root tag carries
`fill="#000000"`) the cleaned markup still contains one `fill`
attribute. -/
theorem cxC1 : clean_markup mFillRoot (chs "a") = some outFillRoot ∧
    cnt (attrPat (chs "fill")) outFillRoot ≠ 0 :=
  ⟨rfl, by decide⟩

/-- C1 (amended).  For every well-formed input icon file processed by
the normalizer with its derived base name, the normalized markup starts
with the inserted `id` attribute equal to the base name and contains
exactly one ` id="..."` attribute pattern, zero ` xmlns="..."`,
` xmlns:xlink="..."`, ` version="..."`, ` x="..."`, ` y="..."`,
` enable-background="..."` and ` xml:space="..."` patterns anywhere,
and exactly as many ` fill="..."` patterns as the root start tag had
`fill` attributes: `fill` is stripped only from the body after the
start tag, so root `fill` attributes survive. -/
theorem thmC1am (ic : SIcon) (nm : Str) (out : Str) (hic : iconOK ic = true)
    (hnm_ne : nm ≠ []) (hnm : ∀ c ∈ nm, plainChar c = true)
    (hout : clean_markup (renderIcon ic) nm = some out) :
    (∃ rest, out = insTag nm ++ rest) ∧
    cnt (attrPat (chs "id")) out = 1 ∧
    cnt (attrPat (chs "xmlns")) out = 0 ∧
    cnt (attrPat (chs "xmlns:xlink")) out = 0 ∧
    cnt (attrPat (chs "version")) out = 0 ∧
    cnt (attrPat (chs "x")) out = 0 ∧
    cnt (attrPat (chs "y")) out = 0 ∧
    cnt (attrPat (chs "enable-background")) out = 0 ∧
    cnt (attrPat (chs "xml:space")) out = 0 ∧
    cnt (attrPat (chs "fill")) out =
      (ic.rootAttrs.filter (fun a => a.nm == chs "fill")).length := by
  obtain ⟨_, _, hroot, hitems, _, _⟩ := iconOK_facts hic
  have hren := clean_markup_renders ic nm hic
  rw [hout] at hren
  have hone : out = cleanedRender ic nm := Option.some.inj hren
  subst hone
  have hfneg : ∀ q : Str, (chs "id" == q) = false →
      ¬ (((⟨chs "id", nm⟩ : SAttr).nm == q) = true) := by
    intro q h
    show ¬ ((chs "id" == q) = true)
    rw [h]
    exact Bool.false_ne_true
  have hfpos : ((⟨chs "id", nm⟩ : SAttr).nm == chs "id") = true := rfl
  refine ⟨⟨rAttrs (rootFilter ic.rootAttrs) ++ '>' :: cleanRestR ic, by
    simp [cleanedRender, List.append_assoc]⟩, ?_, ?_, ?_, ?_, ?_, ?_, ?_, ?_, ?_⟩
  · rw [cnt_attrPat_cleanedRender' ic nm (chs "id") hic hnm_ne hnm (by decide) (by decide)]
    rw [List.filter_cons, if_pos hfpos]
    rw [rootFilter_no_name (chs "id") (fun a ha => (mem_rootFilter_facts ha).2.2.2.1)]
    rw [cntBodyAttrs_zero (chs "id") ic.items hitems (Or.inl (by decide))]
    rfl
  · rw [cnt_attrPat_cleanedRender' ic nm (chs "xmlns") hic hnm_ne hnm (by decide) (by decide)]
    rw [List.filter_cons, if_neg (hfneg (chs "xmlns") (by decide))]
    rw [rootFilter_no_xmlns hroot]
    rw [cntBodyAttrs_zero (chs "xmlns") ic.items hitems (Or.inr (Or.inr (Or.inl rfl)))]
    rfl
  · rw [cnt_attrPat_cleanedRender' ic nm (chs "xmlns:xlink") hic hnm_ne hnm (by decide)
      (by decide)]
    rw [List.filter_cons, if_neg (hfneg (chs "xmlns:xlink") (by decide))]
    rw [rootFilter_no_xlink hroot]
    rw [cntBodyAttrs_zero (chs "xmlns:xlink") ic.items hitems
      (Or.inr (Or.inr (Or.inr rfl)))]
    rfl
  · rw [cnt_attrPat_cleanedRender' ic nm (chs "version") hic hnm_ne hnm (by decide)
      (by decide)]
    rw [List.filter_cons, if_neg (hfneg (chs "version") (by decide))]
    rw [rootFilter_no_name (chs "version") (fun a ha => (mem_rootFilter_facts ha).2.2.2.2.1)]
    rw [cntBodyAttrs_zero (chs "version") ic.items hitems (Or.inl (by decide))]
    rfl
  · rw [cnt_attrPat_cleanedRender' ic nm (chs "x") hic hnm_ne hnm (by decide) (by decide)]
    rw [List.filter_cons, if_neg (hfneg (chs "x") (by decide))]
    rw [rootFilter_no_name (chs "x") (fun a ha => (mem_rootFilter_facts ha).2.2.2.2.2.1)]
    rw [cntBodyAttrs_zero (chs "x") ic.items hitems (Or.inl (by decide))]
    rfl
  · rw [cnt_attrPat_cleanedRender' ic nm (chs "y") hic hnm_ne hnm (by decide) (by decide)]
    rw [List.filter_cons, if_neg (hfneg (chs "y") (by decide))]
    rw [rootFilter_no_name (chs "y") (fun a ha => (mem_rootFilter_facts ha).2.2.2.2.2.2.1)]
    rw [cntBodyAttrs_zero (chs "y") ic.items hitems (Or.inl (by decide))]
    rfl
  · rw [cnt_attrPat_cleanedRender' ic nm (chs "enable-background") hic hnm_ne hnm
      (by decide) (by decide)]
    rw [List.filter_cons, if_neg (hfneg (chs "enable-background") (by decide))]
    rw [rootFilter_no_name (chs "enable-background")
      (fun a ha => (mem_rootFilter_facts ha).2.2.2.2.2.2.2.1)]
    rw [cntBodyAttrs_zero (chs "enable-background") ic.items hitems (Or.inl (by decide))]
    rfl
  · rw [cnt_attrPat_cleanedRender' ic nm (chs "xml:space") hic hnm_ne hnm (by decide)
      (by decide)]
    rw [List.filter_cons, if_neg (hfneg (chs "xml:space") (by decide))]
    rw [rootFilter_no_name (chs "xml:space")
      (fun a ha => (mem_rootFilter_facts ha).2.2.2.2.2.2.2.2)]
    rw [cntBodyAttrs_zero (chs "xml:space") ic.items hitems (Or.inl (by decide))]
    rfl
  · rw [cnt_attrPat_cleanedRender' ic nm (chs "fill") hic hnm_ne hnm (by decide) (by decide)]
    rw [List.filter_cons, if_neg (hfneg (chs "fill") (by decide))]
    rw [rootFilter_filter_eq (chs "fill") ic.rootAttrs (by decide) (by decide) (by decide)
      (by decide) (by decide) (by decide) (by decide) (by decide)]
    rw [cntBodyAttrs_zero (chs "fill") ic.items hitems (Or.inr (Or.inl rfl))]
    rfl

/-- C1 (amended, witness): the amended theorem applied to the concrete
icon file `icW`, whose root start tag carries one `fill` attribute. -/
theorem witC1 : cnt (attrPat (chs "id")) outW = 1 ∧
    cnt (attrPat (chs "version")) outW = 0 ∧
    cnt (attrPat (chs "fill")) outW =
      (icW.rootAttrs.filter (fun a => a.nm == chs "fill")).length := by
  have h := thmC1am icW (chs "a") outW (by decide) (by decide) (by decide) rfl
  exact ⟨h.2.1, h.2.2.2.2.1, h.2.2.2.2.2.2.2.2.2⟩

/-- C2 (counterexample).  The claim asserts that with 4 icons of 10×10
and padding 5 the second icon (index 1) receives `x="25" y="5"`.  The
code computes `x = padding + col * icon_width = 5 + 1*10 = 15` (script
line 188): in the grid run over four 10×10 icons, no ` x="25"` is ever
inserted; the second icon receives `x="15" y="5"`. -/
theorem cxC2 : runGrid4 = ToolResult.ok errGrid4 outGrid4 ∧
    cnt (chs " x=\"25\"") outGrid4 = 0 ∧
    cnt (chs "  <svg x=\"15\" y=\"5\" id=\"b\"") outGrid4 = 1 :=
  ⟨rfl, by decide, by decide⟩

/-- C2 (amended).  Grid mode with exactly 4 icons of 10×10 produces
`columns = 2`, `rows = 2`, and with padding 5 the cell offsets are
`x = 5 + col*10`, `y = 5 + row*10` in row-major order, so the four
icons receive `(5,5)`, `(15,5)`, `(5,15)`, `(15,15)`; the second icon
(index 1) receives `x="15" y="5"` — the grid is offset once by the
padding, cells do not reserve padding on all sides. -/
theorem thmC2am : gridCols 4 = 2 ∧ gridRows 4 = 2 ∧
    runGrid4 = ToolResult.ok errGrid4 outGrid4 ∧
    cnt (chs "  <svg x=\"5\" y=\"5\" id=\"a\"") outGrid4 = 1 ∧
    cnt (chs "  <svg x=\"15\" y=\"5\" id=\"b\"") outGrid4 = 1 ∧
    cnt (chs "  <svg x=\"5\" y=\"15\" id=\"c\"") outGrid4 = 1 ∧
    cnt (chs "  <svg x=\"15\" y=\"15\" id=\"d\"") outGrid4 = 1 :=
  ⟨by decide, by decide, rfl, by decide, by decide, by decide, by decide⟩

/-- C3 (confirmed).  The warning flag is true iff some icon's width or
height differs from the baseline; and on a concrete set whose first
icon is 24×24 and second 32×32, the warning is emitted to standard
error while the composed document's outer `<svg>` still declares the
first icon's dimensions (the document head is exactly the stacked
header for 24×24), and declares no 32-sized outer dimensions. -/
theorem thmC3 :
    (∀ (w0 h0 : Int) (dims : List (Int × Int)),
      computeWarn w0 h0 dims = true ↔ ∃ d ∈ dims, d.fst ≠ w0 ∨ d.snd ≠ h0) ∧
    runMix = ToolResult.ok errMix outMix ∧ errMix = warningText ∧
    isPref (provenanceLine ++ stackedHeader 24 24) outMix = true ∧
    cnt (chs "<svg xmlns=\"http://www.w3.org/2000/svg\" width=\"32\"") outMix = 0 :=
  ⟨computeWarn_iff, rfl, rfl, by decide, by decide⟩

/-- C4 (counterexample).  The claim asserts the dimension-mismatch
warning comment becomes part of the produced output document.  On the
mixed 24×24/32×32 set the warning is written to standard error (script
line 158 writes to `sys.stderr`), and the output document contains no
occurrence of it (not even the word `WARNING`). -/
theorem cxC4 : runMix = ToolResult.ok errMix outMix ∧
    cnt (chs "WARNING") outMix = 0 :=
  ⟨rfl, by decide⟩

/-- C4 (amended).  When dimensions mismatch, the warning comment is
written to standard error, not into the output document: on the mixed
set standard error carries exactly one `WARNING` comment and the
output document none. -/
theorem thmC4am : runMix = ToolResult.ok errMix outMix ∧
    errMix = warningText ∧ cnt (chs "WARNING") errMix = 1 ∧
    cnt (chs "WARNING") outMix = 0 :=
  ⟨rfl, rfl, by decide, by decide⟩

/-- C5 (counterexample).  The claim asserts dimension extraction from
the original raw markup always equals extraction from the normalized
markup.  But the `width_re`/`height_re` searches take the *first*
match anywhere in the string, and normalization discards everything
before the root `<svg ` tag: for `mPre99`, whose discarded preamble
contains `width="99" height="98"`, raw extraction yields (99, 98)
while extraction from the normalized markup (what the pipeline
actually uses) yields (24, 24). -/
theorem cxC5 : clean_markup mPre99 (chs "a") = some outPre99 ∧
    get_icon_dimensions_from_markup mPre99 = some (99, 98) ∧
    get_icon_dimensions_from_markup outPre99 = some (24, 24) ∧
    get_icon_dimensions_from_markup mPre99 ≠ get_icon_dimensions_from_markup outPre99 :=
  ⟨rfl, by decide, by decide, by decide⟩

/-- C5 (amended).  For every well-formed input icon whose root start
tag carries `width` and `height` attributes, dimension extraction from
the original raw markup equals extraction from the normalized markup
(which is what the pipeline actually uses), provided no
`width="..."`/`height="..."` attribute-shaped text occurs before the
root `<svg ` start tag: normalization never strips the root `width` or
`height` attributes, but it discards everything before the start tag,
so only a match in the discarded preamble can make the two extractions
differ. -/
theorem thmC5am (ic : SIcon) (nm : Str) (hic : iconOK ic = true)
    (hnm : ∀ c ∈ nm, plainChar c = true)
    (hprew : cnt (attrPat (chs "width")) (ic.pre ++ chs "<svg ") = 0)
    (hpreh : cnt (attrPat (chs "height")) (ic.pre ++ chs "<svg ") = 0)
    (aw ah : SAttr)
    (hw : ic.rootAttrs.find? (fun a => a.nm == chs "width") = some aw)
    (hh : ic.rootAttrs.find? (fun a => a.nm == chs "height") = some ah) :
    get_icon_dimensions_from_markup (renderIcon ic) =
      get_icon_dimensions_from_markup (cleanedRender ic nm) := by
  obtain ⟨_, hrne, hroot, _, _, _⟩ := iconOK_facts hic
  have hrootOK : ∀ a ∈ ic.rootAttrs, attrOK a = true :=
    fun a ha => rootAttrOK_to_attrOK (hroot a ha)
  rcases hra : ic.rootAttrs with _ | ⟨a₀, ras⟩
  · exact absurd hra hrne
  have hOKall : ∀ a ∈ a₀ :: ras, attrOK a = true := fun a ha => hrootOK a (hra ▸ ha)
  have hshape2 : renderIcon ic = ic.pre ++ (chs "<svg " ++ (attrBody a₀ ++
      (rAttrs ras ++ ('>' :: '\n' :: (rItems ic.items ++
        (ic.closeInd ++ (chs "</svg>" ++ ic.trailing))))))) := by
    have h1 : renderIcon ic = ic.pre ++ (chs "<svg" ++ (' ' :: (attrBody a₀ ++
        (rAttrs ras ++ ('>' :: '\n' :: (rItems ic.items ++
          (ic.closeInd ++ (chs "</svg>" ++ ic.trailing)))))))) := by
      show ic.pre ++ chs "<svg" ++ rAttrs ic.rootAttrs ++
        '>' :: '\n' :: (rItems ic.items ++ ic.closeInd ++ chs "</svg>" ++ ic.trailing) = _
      rw [hra]
      simp [rAttrs, rAttr, List.append_assoc]
    rw [h1]
    rfl
  have hraw : ∀ (n : Str), ('<' : Char) ∉ attrPat n → ('=' : Char) ∉ n →
      cnt (attrPat n) (ic.pre ++ chs "<svg ") = 0 →
      findAttrVal n (renderIcon ic) =
        match (a₀ :: ras).find? (fun a => a.nm == n) with
        | some a => some a.vl
        | none => findAttrVal n ('>' :: '\n' :: (rItems ic.items ++
            (ic.closeInd ++ (chs "</svg>" ++ ic.trailing)))) := by
    intro n hlt hneq hcnt
    rw [hshape2, findAttrVal_pass_pre n hlt ic.pre _ hcnt]
    have hb : chs "<svg " ++ (attrBody a₀ ++ (rAttrs ras ++
        ('>' :: '\n' :: (rItems ic.items ++
          (ic.closeInd ++ (chs "</svg>" ++ ic.trailing)))))) =
        chs "<svg" ++ (rAttrs (a₀ :: ras) ++
        ('>' :: '\n' :: (rItems ic.items ++
          (ic.closeInd ++ (chs "</svg>" ++ ic.trailing))))) := by
      have hbb : chs "<svg" ++ (rAttrs (a₀ :: ras) ++
          ('>' :: '\n' :: (rItems ic.items ++
            (ic.closeInd ++ (chs "</svg>" ++ ic.trailing))))) =
          chs "<svg" ++ (' ' :: (attrBody a₀ ++ (rAttrs ras ++
          ('>' :: '\n' :: (rItems ic.items ++
            (ic.closeInd ++ (chs "</svg>" ++ ic.trailing))))))) := by
        simp [rAttrs, rAttr, List.append_assoc]
      rw [hbb]
      rfl
    rw [hb, findAttrVal_pass_chunk n (chs "<svg") _ (by decide)]
    exact findAttrVal_rAttrs n (a₀ :: ras) _ hOKall hneq
  have hcln : ∀ (n : Str) (c₁ : Char) (n'' : Str), n = c₁ :: n'' →
      ¬ ' ' = c₁ → ¬ '<' = c₁ → ¬ 'i' = c₁ → ('=' : Char) ∉ n →
      findAttrVal n (cleanedRender ic nm) =
        match (rootFilter ic.rootAttrs).find? (fun a => a.nm == n) with
        | some a => some a.vl
        | none => findAttrVal n ('>' :: cleanRestR ic) := by
    intro n c₁ n'' hn h1 h2 h3 hneq
    have hsh : cleanedRender ic nm = insTag nm ++
        (rAttrs (rootFilter ic.rootAttrs) ++ ('>' :: cleanRestR ic)) := by
      show insTag nm ++ rAttrs (rootFilter ic.rootAttrs) ++ '>' :: cleanRestR ic = _
      simp [List.append_assoc]
    rw [hsh, findAttrVal_noPair n c₁ n'' hn (insTag nm) _
      (noPair_insTag c₁ nm hnm h1 h2 h3 _)]
    exact findAttrVal_rAttrs n (rootFilter ic.rootAttrs) _
      (fun a ha => hrootOK a (mem_of_mem_rootFilter ha)) hneq
  rw [hra] at hw hh
  have hrfw : (rootFilter ic.rootAttrs).find? (fun a => a.nm == chs "width") = some aw := by
    rw [rootFilter_find?_eq (chs "width") ic.rootAttrs (by decide) (by decide) (by decide)
      (by decide) (by decide) (by decide) (by decide) (by decide), hra]
    exact hw
  have hrfh : (rootFilter ic.rootAttrs).find? (fun a => a.nm == chs "height") = some ah := by
    rw [rootFilter_find?_eq (chs "height") ic.rootAttrs (by decide) (by decide) (by decide)
      (by decide) (by decide) (by decide) (by decide) (by decide), hra]
    exact hh
  have ew_raw : findAttrVal (chs "width") (renderIcon ic) = some aw.vl := by
    rw [hraw (chs "width") (by decide) (by decide) hprew, hw]
  have eh_raw : findAttrVal (chs "height") (renderIcon ic) = some ah.vl := by
    rw [hraw (chs "height") (by decide) (by decide) hpreh, hh]
  have ew_cln : findAttrVal (chs "width") (cleanedRender ic nm) = some aw.vl := by
    rw [hcln (chs "width") 'w' (chs "idth") rfl (by decide) (by decide) (by decide)
      (by decide), hrfw]
  have eh_cln : findAttrVal (chs "height") (cleanedRender ic nm) = some ah.vl := by
    rw [hcln (chs "height") 'h' (chs "eight") rfl (by decide) (by decide) (by decide)
      (by decide), hrfh]
  unfold get_icon_dimensions_from_markup
  rw [ew_raw, eh_raw, ew_cln, eh_cln]

/-- C5 (amended, witness): the amended theorem applied to the concrete
icon file `icW`, whose preamble is an XML prolog free of
width/height-shaped text and whose root tag carries
`width="24px" height="24px"`. -/
theorem witC5 : get_icon_dimensions_from_markup (renderIcon icW) =
    get_icon_dimensions_from_markup (cleanedRender icW (chs "a")) :=
  thmC5am icW (chs "a") (by decide) (by decide) (by decide) (by decide)
    ⟨chs "width", chs "24px"⟩ ⟨chs "height", chs "24px"⟩ (by decide) (by decide)

/-- C6 (confirmed).  For an icon set in which every icon's extracted
dimensions are 24×24, the stacked-mode (default) run emits no warning
(standard error is empty) and produces exactly the provenance comment,
the stacked header — whose outer `<svg>` declares `width="24"
height="24" fill="blue"` and whose `<style>` block hides all direct
child `<svg>` elements and shows the `:target` one — the normalized
icons, and the closing tag. -/
theorem thmC6 (dir : Str) (files : List (Str × Str)) (ms : List Str)
    (hne : 0 < (files.filter (fun f => pyLast4 f.fst == dotSvg)).length)
    (hm : optList (fun f => clean_markup f.snd (subLit dotSvg [] f.fst))
      (files.filter (fun f => pyLast4 f.fst == dotSvg)) = some ms)
    (hd : optList get_icon_dimensions_from_markup ms =
      some (List.replicate ms.length ((24 : Int), (24 : Int)))) :
    runTool false dir files =
      ToolResult.ok [] (provenanceLine ++ stackedHeader 24 24 ++ catAll ms ++ chs "</svg>\n") := by
  have hlms : ms.length =
      (files.filter (fun f => pyLast4 f.fst == dotSvg)).length := optList_length _ hm
  cases hmsc : ms with
  | nil =>
    rw [hmsc] at hlms
    simp at hlms
    omega
  | cons m0 mrest =>
    subst hmsc
    have hrep : List.replicate (m0 :: mrest).length ((24 : Int), (24 : Int)) =
        ((24 : Int), (24 : Int)) :: List.replicate mrest.length ((24 : Int), (24 : Int)) := by
      simp [List.replicate_succ]
    rw [hrep] at hd
    have hwarn : computeWarn 24 24
        (((24 : Int), (24 : Int)) :: List.replicate mrest.length ((24 : Int), (24 : Int))) = false := by
      rw [← List.replicate_succ]
      exact warn_replicate 24 24 _
    simp only [runTool]
    rw [if_neg (by omega)]
    rw [hm]
    simp only [hd, hwarn]
    simp

/-- Witness for C6, on a two-icon uniform 24×24 set. -/
theorem witC6 : runTool false (chs "./images") filesUniform =
    ToolResult.ok []
      (provenanceLine ++ stackedHeader 24 24 ++ catAll msUniform ++ chs "</svg>\n") :=
  thmC6 (chs "./images") filesUniform msUniform (by decide) rfl (by decide)

/-- C7 (confirmed).  If no file in the listing has `".svg"` as its
last four characters, the filter keeps nothing, and the tool exits
with status 1 after writing the error line to standard error; the
`exited` outcome carries no output document — the writer (script lines
196-201) is never reached. -/
theorem thmC7 (g : Bool) (dir : Str) (files : List (Str × Str))
    (h : ∀ f ∈ files, ¬ pyLast4 f.fst = dotSvg) :
    runTool g dir files = ToolResult.exited 1 (noIconsErr dir) := by
  have hf : files.filter (fun f => pyLast4 f.fst == dotSvg) = [] := by
    rw [List.filter_eq_nil_iff]
    intro a ha
    simpa [beq_iff_eq] using h a ha
  simp [runTool, hf]

/-- Witness for C7. -/
theorem witC7 :
    runTool false (chs "./images") [(chs "readme.txt", chs "hello")] =
      ToolResult.exited 1 (noIconsErr (chs "./images")) :=
  thmC7 false (chs "./images") [(chs "readme.txt", chs "hello")] (by decide)

/-- C8 (counterexample).  The claim asserts each icon's `id` equals
its filename with the `.svg` extension removed, and that ids are
unique.  The code uses `icon.replace(".svg", "")` (script line 139),
which removes *every* occurrence: for the listing
`["a.svg", "a.svg.svg"]` both icons get `id="a"` (two occurrences of
` id="a"`, none of ` id="a.svg"`), so the second id is not the
extension-stripped filename and ids collide. -/
theorem cxC8 : runDup = ToolResult.ok errDup outDup ∧
    cnt (chs " id=\"a\"") outDup = 2 ∧
    cnt (chs " id=\"a.svg\"") outDup = 0 :=
  ⟨rfl, by decide, by decide⟩

/-- C8 (amended).  For every loaded icon file, the id attribute
assigned to its normalized root `<svg>` element equals the source
filename with *all occurrences* of `".svg"` removed (so ids are unique
exactly when these strings are pairwise distinct, e.g. when `".svg"`
occurs only as the extension): each markup produced by the loading
loop starts with the indent, `<svg`, and `id="<replaced name>"`. -/
theorem thmC8am (files : List (Str × Str)) (ms : List Str)
    (hm : optList (fun f => clean_markup f.snd (subLit dotSvg [] f.fst)) files = some ms)
    (i : Nat) (h1 : i < files.length) (h2 : i < ms.length) :
    ∃ rest, ms.get ⟨i, h2⟩ =
      insTag (subLit dotSvg [] (files.get ⟨i, h1⟩).fst) ++ rest :=
  clean_markup_head (optList_get _ hm i h1 h2)

/-- Witness for C8 (amended), at the colliding listing: the second
icon's markup carries `id="a"`. -/
theorem witC8 : ∃ rest, msDup.get ⟨1, by decide⟩ = insTag (chs "a") ++ rest :=
  thmC8am filesDup msDup rfl 1 (by decide) (by decide)

/-- C9 (confirmed).  `clean_markup` is total only when some character
follows the `>` that closes the root start tag: (i) if the markup ends
right there — e.g. a childless self-closing root — the remainder is
empty, the indexing `the_rest[0]` (script line 121) raises, and the
embedding returns `none`; (ii) on every well-formed icon file, where
the body and the closing `</svg>` follow the start tag, that error
branch is unreachable and `clean_markup` succeeds. -/
theorem thmC9 :
    (∀ (m nm : Str) (si j : Nat), findSub (chs "<svg ") m = some si →
      findChar '>' (m.drop (si + 1)) = some j → m.length = si + 1 + j + 1 →
      clean_markup m nm = none) ∧
    (∀ (ic : SIcon) (nm : Str), iconOK ic = true →
      ∃ out, clean_markup (renderIcon ic) nm = some out) := by
  constructor
  · intro m nm si j hsi hj hlen
    have hdrop : m.drop (si + 1 + j + 1) = [] := by
      apply List.drop_eq_nil_of_le
      omega
    unfold clean_markup
    rw [hsi, Option.some_bind, hj, Option.some_bind, hdrop]
    rfl
  · intro ic nm hic
    exact ⟨cleanedRender ic nm, clean_markup_renders ic nm hic⟩

/-- Witness for C9: the childless self-closing file `mSelf` raises
(`none`), while the well-formed file `icW` — whose `</svg>` follows the
start tag — cleans successfully. -/
theorem witC9 : clean_markup mSelf (chs "a") = none ∧
    ∃ out, clean_markup (renderIcon icW) (chs "a") = some out :=
  ⟨thmC9.1 mSelf (chs "a") 0 27 rfl rfl rfl, thmC9.2 icW (chs "a") (by decide)⟩

/-- C10 (confirmed).  Every string returned by `clean_markup` begins
with `  <svg id="` followed by the icon name — the leading `<svg` of
the start-tag slice survives all attribute substitutions (their
patterns start with a space) and `replace("<svg", ...)` rewrites it
into the indent plus the new id.  Consequently `markup[:6]` is always
`"  <svg"` and the grid-mode assertion (script line 191) can never
fail: `gridInsert` never returns `none` on such markup. -/
theorem thmC10 (m nm out : Str) (h : clean_markup m nm = some out) :
    (∃ rest, out = insTag nm ++ rest) ∧ out.take 6 = chs "  <svg" ∧
    ∀ (w0 h0 : Int) (cols i : Nat), (gridInsert w0 h0 cols i out).isSome = true := by
  obtain ⟨rest, rfl⟩ := clean_markup_head h
  have htake : (insTag nm ++ rest).take 6 = chs "  <svg" := by
    show List.take 6 ((chs "  <svg id=\"" ++ nm ++ chs "\"") ++ rest) = chs "  <svg"
    rfl
  refine ⟨⟨rest, rfl⟩, htake, ?_⟩
  intro w0 h0 cols i
  simp [gridInsert, htake]

/-- Witness for C10, at a concrete 24×24 icon. -/
theorem witC10 :
    ((∃ rest, out24a = insTag (chs "a") ++ rest) ∧ out24a.take 6 = chs "  <svg" ∧
      ∀ (w0 h0 : Int) (cols i : Nat), (gridInsert w0 h0 cols i out24a).isSome = true) :=
  thmC10 icon24 (chs "a") out24a rfl

end IconSet
